import Mathlib

set_option maxRecDepth 16000

/-!
# Verification of the ATP core (packet codec, sequencer, event log, artifact
# bundler, index builder, snapshot builder)

This development shallowly embeds the ATP core of the repository
(`tools/atp.py`, `tools/build_snapshot.py`, and the path-resolution helpers of
`backend/app/api/atp_streams.py`) into Lean and proves or refutes the frozen
claims about it.

Python strings are modelled as `List Char` (`Str`); bytes as `List Nat`
(each < 256); file system trees as explicit association lists from names to
contents.  Python `str` operations used by the source (`strip`, `split`,
`replace`, `startswith`, `endswith`, `lower`, `join`) are given faithful
executable models below.  SHA-256 is implemented concretely (fractional parts
of square/cube roots of the first primes, padding, 64-round compression), so
digest (in)equalities are decided by evaluation rather than axiomatised.
-/

deriving instance DecidableEq for Except

namespace ATP

/-- Python strings, modelled as lists of characters. -/
abbrev Str := List Char

/-- The characters Python `str.strip()` removes (ASCII whitespace). -/
def pyIsSpace (c : Char) : Bool :=
  c = ' ' || c = '\t' || c = '\n' || c = '\r' || c = '\x0b' || c = '\x0c'

/-- Python `str.lstrip()`. -/
def stripLeft : Str → Str
  | [] => []
  | c :: cs => if pyIsSpace c then stripLeft cs else c :: cs

/-- Python `str.rstrip()`, via reversal. -/
def stripRight (s : Str) : Str :=
  (stripLeft s.reverse).reverse

/-- Python `str.strip()`. -/
def pyStrip (s : Str) : Str :=
  stripRight (stripLeft s)

/-- Python `s.split(sep)` for a single-character separator: splits on every
occurrence and keeps empty pieces (`"".split` gives `[""]`). -/
def splitChar (sep : Char) : Str → List Str
  | [] => [[]]
  | c :: cs =>
    match splitChar sep cs with
    | [] => if c = sep then [[], []] else [[c]]
    | h :: t => if c = sep then [] :: h :: t else (c :: h) :: t

/-- Split on any of several separator characters (model of
`re.split("[|,]", s)`: every occurrence splits, empty pieces kept). -/
def splitAny (seps : List Char) : Str → List Str
  | [] => [[]]
  | c :: cs =>
    match splitAny seps cs with
    | [] => if c ∈ seps then [[], []] else [[c]]
    | h :: t => if c ∈ seps then [] :: h :: t else (c :: h) :: t

/-- Split a string at the first occurrence of a (nonempty) pattern:
model of Python `s.split(pat, 1)` returning both pieces, `none` when the
pattern does not occur. -/
def splitFirstSub (pat : Str) : Str → Option (Str × Str)
  | [] => if pat = [] then some ([], []) else none
  | c :: cs =>
    if pat.isPrefixOf (c :: cs) then some ([], (c :: cs).drop pat.length)
    else
      match splitFirstSub pat cs with
      | some (a, b) => some (c :: a, b)
      | none => none

/-- Python `s.replace(pat, repl, 1)` for a nonempty pattern: replace the first
occurrence only. -/
def replaceFirst (pat repl : Str) : Str → Str
  | [] => []
  | c :: cs =>
    if pat ≠ [] ∧ pat.isPrefixOf (c :: cs) then repl ++ (c :: cs).drop pat.length
    else c :: replaceFirst pat repl cs

/-- Fuelled worker for `replaceAll`; the fuel dominates the string length, and
each step consumes at least one character of the input. -/
def replaceAllGo (pat repl : Str) : Nat → Str → Str
  | 0, s => s
  | _ + 1, [] => []
  | f + 1, c :: cs =>
    if pat ≠ [] ∧ pat.isPrefixOf (c :: cs) then
      repl ++ replaceAllGo pat repl f ((c :: cs).drop pat.length)
    else c :: replaceAllGo pat repl f cs

/-- Python `s.replace(pat, repl)` for a nonempty pattern: replace all
non-overlapping occurrences, left to right. -/
def replaceAll (pat repl s : Str) : Str :=
  replaceAllGo pat repl s.length s

/-- Python `str.lower()` (ASCII model). -/
def lowerStr (s : Str) : Str :=
  s.map Char.toLower

/-- Python string `<` (lexicographic on code points). -/
def strLtB : Str → Str → Bool
  | [], [] => false
  | [], _ :: _ => true
  | _ :: _, [] => false
  | a :: as_, b :: bs =>
    if a.toNat < b.toNat then true
    else if b.toNat < a.toNat then false
    else strLtB as_ bs

/-- Python string `<=`. -/
def strLeB (a b : Str) : Bool :=
  !(strLtB b a)

/-- Stable insertion into an ascending list (equal keys keep insertion order),
matching Python `sorted`. -/
def insSorted (le : Str → Str → Bool) (x : Str) : List Str → List Str
  | [] => [x]
  | y :: ys => if le y x then y :: insSorted le x ys else x :: y :: ys

/-- Model of Python `sorted` on strings (stable, ascending). -/
def sortStr (l : List Str) : List Str :=
  l.foldl (fun acc x => insSorted strLeB x acc) []

/-- Stable insertion for naturals. -/
def insSortedNat (x : Nat) : List Nat → List Nat
  | [] => [x]
  | y :: ys => if y ≤ x then y :: insSortedNat x ys else x :: y :: ys

/-- Model of Python `sorted` on ints (the sequence lists). -/
def sortNat (l : List Nat) : List Nat :=
  l.foldl (fun acc x => insSortedNat x acc) []

/-- Lookup in an association list keyed by strings, with a default: model of
Python `dict.get(key, default)` for dicts built by repeated assignment (later
assignments override, see `aSet`). -/
def aGet (m : List (Str × Str)) (k : Str) (dflt : Str) : Str :=
  match m.find? (fun e => e.1 = k) with
  | some e => e.2
  | none => dflt

/-- Assignment into an association list: overwrite in place if the key exists
(keeping first-insertion order, like a Python dict), else append. -/
def aSet (m : List (Str × Str)) (k v : Str) : List (Str × Str) :=
  match m with
  | [] => [(k, v)]
  | e :: es => if e.1 = k then (k, v) :: es else e :: aSet es k v

/-- Reversed decimal digits worker (fuel dominates the number). -/
def natDigitsRevGo : Nat → Nat → List Nat
  | 0, n => [n % 10]
  | f + 1, n => if n < 10 then [n] else n % 10 :: natDigitsRevGo f (n / 10)

/-- Decimal digits of a natural, least significant first. -/
def natDigitsRev (n : Nat) : List Nat :=
  natDigitsRevGo n n

/-- A decimal digit as a character. -/
def digitChar (d : Nat) : Char :=
  Char.ofNat (48 + d)

/-- Decimal rendering of a natural number (model of Python `str(n)`,
`n ≥ 0`). -/
def natToStr (n : Nat) : Str :=
  (natDigitsRev n).reverse.map digitChar

/-- Model of Python `f"{n:06d}"` (zero-pad to at least six digits). -/
def pad6 (n : Nat) : Str :=
  let s := natToStr n
  List.replicate (6 - s.length) '0' ++ s

/-- Numeric value of a string of decimal digit characters (most significant
first), as used to read the sequence number out of a packet filename. -/
def charsToNat (cs : Str) : Nat :=
  cs.foldl (fun acc c => acc * 10 + (c.toNat - 48)) 0

/-- Value of a least-significant-first digit list (spec helper for the
decimal lemmas). -/
def digitsVal : List Nat → Nat
  | [] => 0
  | d :: ds => d + 10 * digitsVal ds

/-! ## SHA-256

A concrete executable SHA-256 over byte lists (`List Nat`, each entry < 256),
mirroring `hashlib.sha256`.  The round constants are derived, not transcribed:
`K[i]` is the first 32 bits of the fractional part of the cube root of the
i-th prime, i.e. `⌊cbrt(p · 2^96)⌋ mod 2^32`, and the initial state words are
`⌊sqrt(p · 2^64)⌋ mod 2^32`. -/

/-- 32-bit truncation. -/
def w32 (n : Nat) : Nat := n % 4294967296

/-- Binary-search worker for the integer cube root. -/
def icbrtGo (n : Nat) : Nat → Nat → Nat → Nat
  | 0, lo, _ => lo
  | f + 1, lo, hi =>
    if hi ≤ lo + 1 then lo
    else
      let mid := (lo + hi) / 2
      if mid * mid * mid ≤ n then icbrtGo n f mid hi else icbrtGo n f lo mid

/-- Integer cube root: the largest `x` with `x³ ≤ n`. -/
def icbrt (n : Nat) : Nat :=
  icbrtGo n 200 0 (n + 1)

/-- The first 64 primes (indices of the SHA-256 constants). -/
def sha256Primes : List Nat :=
  [2, 3, 5, 7, 11, 13, 17, 19, 23, 29, 31, 37, 41, 43, 47, 53,
   59, 61, 67, 71, 73, 79, 83, 89, 97, 101, 103, 107, 109, 113, 127, 131,
   137, 139, 149, 151, 157, 163, 167, 173, 179, 181, 191, 193, 197, 199, 211, 223,
   227, 229, 233, 239, 241, 251, 257, 263, 269, 271, 277, 281, 283, 293, 307, 311]

/-- The 64 SHA-256 round constants. -/
def sha256K : List Nat :=
  sha256Primes.map (fun p => w32 (icbrt (p * 2 ^ 96)))

/-- The 8 initial hash state words. -/
def sha256H0 : List Nat :=
  (sha256Primes.take 8).map (fun p => w32 (Nat.sqrt (p * 2 ^ 64)))

/-- Right rotation of a 32-bit word. -/
def rotr (k x : Nat) : Nat :=
  w32 (x >>> k ||| x <<< (32 - k))

/-- SHA-256 message padding: append `0x80`, zeros to 56 mod 64, then the
64-bit big-endian bit length. -/
def sha256Pad (msg : List Nat) : List Nat :=
  let len := msg.length
  let bitLen := 8 * len
  let zeros := (64 + 55 - len % 64) % 64
  msg ++ [128] ++ List.replicate zeros 0 ++
    (List.range 8).map (fun i => bitLen >>> (8 * (7 - i)) % 256)

/-- Split a padded message into 64-byte blocks (fuel dominates the count). -/
def toBlocksGo : Nat → List Nat → List (List Nat)
  | 0, _ => []
  | _ + 1, [] => []
  | f + 1, bs => bs.take 64 :: toBlocksGo f (bs.drop 64)

/-- 64-byte blocks of a padded message. -/
def toBlocks (bs : List Nat) : List (List Nat) :=
  toBlocksGo bs.length bs

/-- The 16 initial 32-bit words of a block (big endian). -/
def blockWords (b : List Nat) : List Nat :=
  (List.range 16).map (fun i =>
    b.getD (4 * i) 0 * 16777216 + b.getD (4 * i + 1) 0 * 65536 +
      b.getD (4 * i + 2) 0 * 256 + b.getD (4 * i + 3) 0)

/-- Message-schedule extension from 16 to 64 words. -/
def extendWords (w : List Nat) : Nat → List Nat
  | 0 => w
  | f + 1 =>
    let i := w.length
    let s0 := (rotr 7 (w.getD (i - 15) 0)).xor
      ((rotr 18 (w.getD (i - 15) 0)).xor (w.getD (i - 15) 0 >>> 3))
    let s1 := (rotr 17 (w.getD (i - 2) 0)).xor
      ((rotr 19 (w.getD (i - 2) 0)).xor (w.getD (i - 2) 0 >>> 10))
    extendWords (w ++ [w32 (w.getD (i - 16) 0 + s0 + w.getD (i - 7) 0 + s1)]) f

/-- One round of the SHA-256 compression function. -/
def sha256Round (ws : List Nat) (st : List Nat) (i : Nat) : List Nat :=
  match st with
  | [a, b, c, d, e, f, g, h] =>
    let s1 := (rotr 6 e).xor ((rotr 11 e).xor (rotr 25 e))
    let ch := (e.land f).xor ((e.xor 4294967295).land g)
    let t1 := h + s1 + ch + sha256K.getD i 0 + ws.getD i 0
    let s0 := (rotr 2 a).xor ((rotr 13 a).xor (rotr 22 a))
    let mj := (a.land b).xor ((a.land c).xor (b.land c))
    let t2 := s0 + mj
    [w32 (t1 + t2), a, b, c, w32 (d + t1), e, f, g]
  | other => other

/-- Process one block: 64 rounds, then add into the running state. -/
def sha256Block (st : List Nat) (b : List Nat) : List Nat :=
  let ws := extendWords (blockWords b) 48
  let fin := (List.range 64).foldl (sha256Round ws) st
  (st.zip fin).map (fun p => w32 (p.1 + p.2))

/-- The digest as eight 32-bit words. -/
def sha256Words (msg : List Nat) : List Nat :=
  (toBlocks (sha256Pad msg)).foldl sha256Block sha256H0

/-- A nibble as a lowercase hex character. -/
def hexChar (d : Nat) : Char :=
  if d < 10 then Char.ofNat (48 + d) else Char.ofNat (87 + d)

/-- A 32-bit word as eight hex characters. -/
def wordHex (n : Nat) : Str :=
  (List.range 8).map (fun i => hexChar (n >>> (4 * (7 - i)) % 16))

/-- Model of Python `hashlib.sha256(bytes).hexdigest()`. -/
def sha256Hex (msg : List Nat) : Str :=
  (sha256Words msg).flatMap wordHex

/-- UTF-8 encoding of one character (model of Python `str.encode("utf-8")`). -/
def utf8Char (c : Char) : List Nat :=
  let n := c.toNat
  if n < 128 then [n]
  else if n < 2048 then [192 + n / 64, 128 + n % 64]
  else if n < 65536 then [224 + n / 4096, 128 + n / 64 % 64, 128 + n % 64]
  else [240 + n / 262144, 128 + n / 4096 % 64, 128 + n / 64 % 64, 128 + n % 64]

/-- UTF-8 encoding of a string. -/
def utf8 (s : Str) : List Nat :=
  s.flatMap utf8Char

/-! ## Packet codec (`tools/atp.py`: `parse_packet_text`, `validate_packet`,
`render_packet`) -/

/-- String literals as `Str`. -/
def tS (s : String) : Str := s.data

/-- Python `str.startswith`. -/
def pyStartsWith (pre s : Str) : Bool := pre.isPrefixOf s

/-- Python `str.endswith`. -/
def pyEndsWith (suf s : Str) : Bool := suf.isSuffixOf s

/-- Newline normalisation done by `split_packet`:
`text.replace("\r\n", "\n").replace("\r", "\n")`. -/
def normalizeNL (s : Str) : Str :=
  replaceAll (tS "\r") (tS "\n") (replaceAll (tS "\r\n") (tS "\n") s)

/-- `split_packet`: normalise newlines and split at the first blank line. -/
def splitPacket (text : Str) : Except String (Str × Str) :=
  match splitFirstSub (tS "\n\n") (normalizeNL text) with
  | some (h, b) => .ok (h, b)
  | none => .error "Packet must contain a blank line separating headers and body."

/-- `normalize_nullable`: `null`/`none`/empty (after strip, case-insensitive)
becomes absent. -/
def normalizeNullable (v : Str) : Option Str :=
  let t := pyStrip v
  if lowerStr t = tS "null" ∨ lowerStr t = tS "none" ∨ t = [] then none else some t

/-- `parse_tools`: split on `|` or `,`, strip parts, drop empties. -/
def parseTools (v : Str) : List Str :=
  if v = [] then []
  else ((splitAny ['|', ','] v).map pyStrip).filter (fun p => p ≠ [])

/-- The packet struct.  Mirrors the Python packet dict: header fields,
body scalar `goal`, the six body lists (`artifacts` is kept as its
`manifests` list, the only thing the dict stores), and the optional
`confidence`.  Python floats are modelled as rationals: every float the code
can store is a dyadic rational, and the comparisons and `str`/`float`
round-trips the code performs are exact on those. -/
structure Packet where
  ATP : Str
  ID : Str
  TS : Str
  MODE : Str
  TASK : Str
  STATE : Str
  PARENT : Option Str
  ETAG : Option Str
  TOOLS : List Str
  APPROVAL : Str
  FAIL_CLASS : Str
  goal : Str
  nowS : List Str
  nextS : List Str
  risksS : List Str
  acceptS : List Str
  questionsS : List Str
  manifests : List Str
  confidence : Option ℚ
deriving DecidableEq, Repr

/-- The six body section names. -/
inductive Sec where
  | NOW | NEXT | RISKS | ACCEPT | ARTIFACTS | QUESTIONS
deriving DecidableEq, Repr

/-- `line[:-1] in SECTION_HEADERS`. -/
def secOfStr (s : Str) : Option Sec :=
  if s = tS "NOW" then some .NOW
  else if s = tS "NEXT" then some .NEXT
  else if s = tS "RISKS" then some .RISKS
  else if s = tS "ACCEPT" then some .ACCEPT
  else if s = tS "ARTIFACTS" then some .ARTIFACTS
  else if s = tS "QUESTIONS" then some .QUESTIONS
  else none

/-- Accumulator of the body-parsing loop: the `sections` dict, `goal`,
`confidence` and `active_section`. -/
structure BodyAcc where
  now : List Str
  next : List Str
  risks : List Str
  accept : List Str
  artifacts : List Str
  questions : List Str
  goal : Str
  confidence : Option ℚ
  active : Option Sec
deriving DecidableEq, Repr

/-- The empty accumulator. -/
def BodyAcc.init : BodyAcc :=
  ⟨[], [], [], [], [], [], [], none, none⟩

/-- `sections[active_section].append(item)`. -/
def BodyAcc.push (acc : BodyAcc) (s : Sec) (item : Str) : BodyAcc :=
  match s with
  | .NOW => { acc with now := acc.now ++ [item] }
  | .NEXT => { acc with next := acc.next ++ [item] }
  | .RISKS => { acc with risks := acc.risks ++ [item] }
  | .ACCEPT => { acc with accept := acc.accept ++ [item] }
  | .ARTIFACTS => { acc with artifacts := acc.artifacts ++ [item] }
  | .QUESTIONS => { acc with questions := acc.questions ++ [item] }

/-- Value of a `float` mantissa (`digits[.digits]`) times sign and scale. -/
def pyFloatMant (sgn : ℚ) (mant : Str) (scale : ℚ) : Option ℚ :=
  match splitChar '.' mant with
  | [i] =>
    if i = [] ∨ ¬ i.all Char.isDigit then none
    else some (sgn * charsToNat i * scale)
  | [i, f] =>
    if ¬ i.all Char.isDigit ∨ ¬ f.all Char.isDigit ∨ (i = [] ∧ f = []) then none
    else some (sgn * (charsToNat i + (charsToNat f : ℚ) / 10 ^ f.length) * scale)
  | _ => none

/-- The optional leading sign of a `float` literal. -/
def pyFloatSign : Str → (ℚ × Str)
  | '+' :: r => (1, r)
  | '-' :: r => (-1, r)
  | s => (1, s)

/-- The optional sign of a `float` exponent. -/
def pyFloatExpSign : Str → (Bool × Str)
  | '+' :: r => (false, r)
  | '-' :: r => (true, r)
  | s => (false, s)

/-- The sign-stripped remainder of a `float` literal: mantissa and optional
exponent. -/
def pyFloatTail : ℚ × Str → Option ℚ
  | (sgn, s1) =>
    match splitAny ['e', 'E'] s1 with
    | [mant] => pyFloatMant sgn mant 1
    | [mant, ex] =>
      match pyFloatExpSign ex with
      | (esgn, ed) =>
        if ed = [] ∨ ¬ ed.all Char.isDigit then none
        else pyFloatMant sgn mant
          (if esgn then (1 : ℚ) / 10 ^ charsToNat ed else 10 ^ charsToNat ed)
    | _ => none

/-- Model of Python `float(text)` on the plain decimal forms
(`[+-]digits[.digits][e[+-]digits]`); other accepted spellings of CPython
(`inf`, `nan`, underscores) are modelled as errors, which none of the
verified code paths produce. -/
def pyFloatOfStr (s0 : Str) : Option ℚ :=
  pyFloatTail (pyFloatSign (pyStrip s0))

/-- The body-parsing loop of `parse_packet_text`, line by line (the local
`line = raw.strip()` is written out). -/
def parseBodyLines : List Str → BodyAcc → Except String BodyAcc
  | [], acc => .ok acc
  | raw :: rest, acc =>
    if pyStrip raw = [] then parseBodyLines rest acc
    else if pyStartsWith (tS "GOAL:") (pyStrip raw) then
      parseBodyLines rest
        { acc with goal := pyStrip (replaceFirst (tS "GOAL:") [] (pyStrip raw)),
                   active := none }
    else if pyStartsWith (tS "CONFIDENCE:") (pyStrip raw) then
      match pyFloatOfStr (pyStrip (replaceFirst (tS "CONFIDENCE:") [] (pyStrip raw))) with
      | some q => parseBodyLines rest { acc with confidence := some q, active := none }
      | none => .error "CONFIDENCE must be a number."
    else
      match if pyEndsWith (tS ":") (pyStrip raw) then secOfStr (pyStrip raw).dropLast
          else none with
      | some sec => parseBodyLines rest { acc with active := some sec }
      | none =>
        match pyStartsWith (tS "-") (pyStrip raw), acc.active with
        | true, some sec =>
          parseBodyLines rest (acc.push sec (pyStrip ((pyStrip raw).drop 1)))
        | _, _ => .error "Unrecognized body line"

/-- The `ARTIFACTS` collapse: `manifest: <path>` entries contribute the path,
anything else is kept (stripped) verbatim. -/
def collapseManifests (entries : List Str) : List Str :=
  entries.map (fun e =>
    if ':' ∈ e then
      match splitFirstSub [':'] e with
      | some (lab, v) =>
        if lowerStr (pyStrip lab) = tS "manifest" ∨ lowerStr (pyStrip lab) = tS "manifests" then
          pyStrip v
        else pyStrip e
      | none => pyStrip e
    else pyStrip e)

/-- The header-line loop of `parse_packet_text`: each `key: value` line is
parsed and assigned into the headers dict. -/
def parseHeaderLines : List Str → List (Str × Str) → Except String (List (Str × Str))
  | [], m => .ok m
  | line :: rest, m =>
    if ':' ∈ line then
      match splitFirstSub [':'] line with
      | some (k, v) => parseHeaderLines rest (aSet m (pyStrip k) (pyStrip v))
      | none => .error "Invalid header line"
    else .error "Invalid header line"

/-- The header block: the version check on the first nonblank line, then the
`key: value` loop. -/
def parseHeaderBlock : List Str → Except String (List (Str × Str))
  | [] => .error "Packet missing header lines."
  | first :: rest =>
    if pyStrip first ≠ tS "ATP/0.1" then .error "Packet ATP header must be ATP/0.1."
    else parseHeaderLines rest [(tS "ATP", tS "ATP/0.1")]

/-- The packet dict assembled by `parse_packet_text` from the parsed headers
and body accumulator. -/
def packetOfParts (hs : List (Str × Str)) (acc : BodyAcc) : Packet :=
  { ATP := aGet hs (tS "ATP") []
    ID := aGet hs (tS "ID") []
    TS := aGet hs (tS "TS") []
    MODE := aGet hs (tS "MODE") []
    TASK := aGet hs (tS "TASK") []
    STATE := aGet hs (tS "STATE") []
    PARENT := normalizeNullable (aGet hs (tS "PARENT") [])
    ETAG := normalizeNullable (aGet hs (tS "ETAG") [])
    TOOLS := parseTools (aGet hs (tS "TOOLS") [])
    APPROVAL := aGet hs (tS "APPROVAL") []
    FAIL_CLASS := aGet hs (tS "FAIL_CLASS") []
    goal := acc.goal
    nowS := acc.now
    nextS := acc.next
    risksS := acc.risks
    acceptS := acc.accept
    questionsS := acc.questions
    manifests := collapseManifests acc.artifacts
    confidence := acc.confidence }

/-- `parse_packet_text`. -/
def parsePacketText (text : Str) : Except String Packet := do
  let (headerText, bodyText) ← splitPacket text
  let hs ← parseHeaderBlock ((splitChar '\n' headerText).filter (fun l => pyStrip l ≠ []))
  let acc ← parseBodyLines (splitChar '\n' bodyText) BodyAcc.init
  .ok (packetOfParts hs acc)

/-- Python `sep.join(parts)`. -/
def joinWith (sep : Str) : List Str → Str
  | [] => []
  | [x] => x
  | x :: y :: xs => x ++ sep ++ joinWith sep (y :: xs)

/-- The least power of ten clearing the denominator of a rational, up to
`10^60` (every Python float in `[0, 1]` is cleared well within that). -/
def decScale (q : ℚ) : Option Nat :=
  (List.range 61).find? (fun d => (q * 10 ^ d).den = 1)

/-- Decimal rendering of an integer (model of Python `str` on ints). -/
def intToStr (n : ℤ) : Str :=
  if n < 0 then '-' :: natToStr n.natAbs else natToStr n.natAbs

/-- Model of Python `str(packet["confidence"])`: exact shortest decimal for
finite-decimal rationals (every binary float is one); the fallback for other
rationals is never reached by the modelled code. -/
def renderConf (q : ℚ) : Str :=
  match decScale q with
  | some 0 => intToStr q.num
  | some (d + 1) =>
    let n := (q * 10 ^ (d + 1)).num.natAbs
    let sgn : Str := if q < 0 then tS "-" else []
    let frac := natToStr (n % 10 ^ (d + 1))
    sgn ++ natToStr (n / 10 ^ (d + 1)) ++ tS "." ++
      (List.replicate (d + 1 - frac.length) '0' ++ frac)
  | none => tS "0"

/-- `render_section`. -/
def renderSection (title : Str) (items : List Str) : List Str :=
  (title ++ tS ":") :: items.map (fun item => tS "- " ++ item)

/-- The rendered value of a nullable header field (`"null"` for `None`). -/
def optHeaderVal : Option Str → Str
  | none => tS "null"
  | some v => v

/-- The optional `CONFIDENCE` tail lines of `render_packet`. -/
def confLines : Option ℚ → List Str
  | none => []
  | some c => [[], tS "CONFIDENCE: " ++ renderConf c]

/-- The `active_section` state left behind by the optional confidence tail. -/
def confActive : Option ℚ → Option Sec → Option Sec
  | none, a => a
  | some _, _ => none

/-- `render_packet`. -/
def renderPacket (p : Packet) : Str :=
  let lines :=
    [tS "ATP/0.1",
     tS "ID: " ++ p.ID,
     tS "TS: " ++ p.TS,
     tS "MODE: " ++ p.MODE,
     tS "TASK: " ++ p.TASK,
     tS "STATE: " ++ p.STATE,
     tS "PARENT: " ++ optHeaderVal p.PARENT,
     tS "ETAG: " ++ optHeaderVal p.ETAG,
     tS "TOOLS: " ++ joinWith (tS ", ") p.TOOLS,
     tS "APPROVAL: " ++ p.APPROVAL,
     tS "FAIL_CLASS: " ++ p.FAIL_CLASS,
     [],
     tS "GOAL: " ++ p.goal,
     []]
    ++ renderSection (tS "NOW") p.nowS ++ [[]]
    ++ renderSection (tS "NEXT") p.nextS ++ [[]]
    ++ renderSection (tS "RISKS") p.risksS ++ [[]]
    ++ renderSection (tS "ACCEPT") p.acceptS ++ [[]]
    ++ renderSection (tS "ARTIFACTS") (p.manifests.map (fun m => tS "manifest: " ++ m)) ++ [[]]
    ++ renderSection (tS "QUESTIONS") p.questionsS
    ++ confLines p.confidence
    ++ [[]]
  joinWith (tS "\n") lines

/-- `require_string`: a string that is nonempty after stripping (the
`isinstance` half of the Python check is enforced by typing). -/
def requireString (v : Str) (label : String) : Except String Unit :=
  if pyStrip v = [] then .error (label ++ " must be a non-empty string.") else .ok ()

/-- `validate_packet`.  The pure type-shape checks of the Python code
(`require_optional_string`, `require_string_list`, `artifacts` being a dict)
hold by construction in the typed model and so are omitted; every
value-level check is kept. -/
def validatePacket (p : Packet) : Except String Unit := do
  requireString p.ATP "ATP"
  if p.ATP ≠ tS "ATP/0.1" then .error "ATP must equal ATP/0.1." else do
  requireString p.ID "ID"
  requireString p.TS "TS"
  requireString p.MODE "MODE"
  requireString p.TASK "TASK"
  requireString p.STATE "STATE"
  if ¬ (p.APPROVAL = tS "none" ∨ p.APPROVAL = tS "requested" ∨
        p.APPROVAL = tS "granted_by_human") then
    .error "APPROVAL must be none, requested, or granted_by_human." else do
  if ¬ (p.FAIL_CLASS = tS "NONE" ∨ p.FAIL_CLASS = tS "SPEC" ∨ p.FAIL_CLASS = tS "ENV" ∨
        p.FAIL_CLASS = tS "TEST" ∨ p.FAIL_CLASS = tS "LOGIC" ∨
        p.FAIL_CLASS = tS "INTEGRATION" ∨ p.FAIL_CLASS = tS "DATA" ∨
        p.FAIL_CLASS = tS "TOOLING") then
    .error "FAIL_CLASS must be a known enum value." else do
  requireString p.goal "goal"
  match p.confidence with
  | none => .ok ()
  | some c =>
    if c < 0 ∨ c > 1 then .error "confidence must be between 0 and 1." else .ok ()

/-! ## Timestamps (`tools/build_snapshot.py`: `parse_timestamp`,
`latest_event_timestamp`, the `as_of` serialisation)

`datetime` values are modelled as proleptic-Gregorian calendar records with an
optional minute-granularity UTC offset; `fromisoformat` is modelled on the
forms this system reads and writes (`YYYY-MM-DD`, and
`YYYY-MM-DD<sep>HH:MM[:SS]` with an optional `±HH:MM` offset; fractional
seconds are not modelled).  Naive values are compared as if UTC; the modelled
code never compares a naive with an aware value. -/

/-- An aware-or-naive datetime: calendar fields plus optional offset in
minutes east of UTC. -/
structure DTime where
  year : Nat
  month : Nat
  day : Nat
  hour : Nat
  minute : Nat
  second : Nat
  offset : Option Int
deriving DecidableEq, Repr

/-- Exactly-n-digit field parser. -/
def exactDigits (n : Nat) (s : Str) : Option Nat :=
  if s.length = n ∧ s.all Char.isDigit then some (charsToNat s) else none

/-- Gregorian leap year. -/
def isLeapYear (y : Nat) : Bool :=
  y % 4 = 0 && (y % 100 ≠ 0 || y % 400 = 0)

/-- Days in a month. -/
def daysInMonth (y m : Nat) : Nat :=
  if m = 2 then (if isLeapYear y then 29 else 28)
  else if m = 4 ∨ m = 6 ∨ m = 9 ∨ m = 11 then 30
  else 31

/-- Split a string at the first `+` or `-`, reporting which sign was found. -/
def splitSign : Str → Str × Option (Bool × Str)
  | [] => ([], none)
  | c :: cs =>
    if c = '+' then ([], some (false, cs))
    else if c = '-' then ([], some (true, cs))
    else
      let (a, r) := splitSign cs
      (c :: a, r)

/-- Parse `HH:MM[:SS]`. -/
def parseTimeOfDay (s : Str) : Option (Nat × Nat × Nat) := do
  match splitChar ':' s with
  | [hh, mm] => do
    let h ← exactDigits 2 hh
    let mi ← exactDigits 2 mm
    if h < 24 ∧ mi < 60 then some (h, mi, 0) else none
  | [hh, mm, ss] => do
    let h ← exactDigits 2 hh
    let mi ← exactDigits 2 mm
    let sec ← exactDigits 2 ss
    if h < 24 ∧ mi < 60 ∧ sec < 60 then some (h, mi, sec) else none
  | _ => none

/-- Parse `YYYY-MM-DD`. -/
def parseDatePart (s : Str) : Option (Nat × Nat × Nat) := do
  match splitChar '-' s with
  | [yy, mm, dd] => do
    let y ← exactDigits 4 yy
    let m ← exactDigits 2 mm
    let d ← exactDigits 2 dd
    if 1 ≤ y ∧ 1 ≤ m ∧ m ≤ 12 ∧ 1 ≤ d ∧ d ≤ daysInMonth y m then some (y, m, d) else none
  | _ => none

/-- Model of `datetime.fromisoformat` on the supported forms. -/
def fromIso (s : Str) : Option DTime := do
  let (y, m, d) ← parseDatePart (s.take 10)
  if s.length = 10 then
    some ⟨y, m, d, 0, 0, 0, none⟩
  else
    match s.drop 10 with
    | [] => none
    | _sep :: rest =>
      let (timeStr, signPart) := splitSign rest
      let (h, mi, sec) ← parseTimeOfDay timeStr
      match signPart with
      | none => some ⟨y, m, d, h, mi, sec, none⟩
      | some (neg, offStr) =>
        match splitChar ':' offStr with
        | [oh, om] => do
          let ohv ← exactDigits 2 oh
          let omv ← exactDigits 2 om
          if ohv < 24 ∧ omv < 60 then
            let mins : Int := ohv * 60 + omv
            some ⟨y, m, d, h, mi, sec, some (if neg then -mins else mins)⟩
          else none
        | _ => none

/-- `parse_timestamp`: empty/absent values and parse failures give `none`;
a trailing `Z` is first rewritten to `+00:00` (a global `replace`, as in the
source). -/
def parseTimestamp (v : Option Str) : Option DTime :=
  match v with
  | none => none
  | some value =>
    if value = [] then none
    else fromIso (if pyEndsWith (tS "Z") value then replaceAll (tS "Z") (tS "+00:00") value else value)

/-- Days since 1970-01-01 of a Gregorian date (standard civil-from-days
inverse, H. Hinnant's formula). -/
def daysFromCivil (y m d : Int) : Int :=
  let y2 := if m ≤ 2 then y - 1 else y
  let era := Int.fdiv y2 400
  let yoe := y2 - era * 400
  let doy := (153 * (if m > 2 then m - 3 else m + 9) + 2) / 5 + d - 1
  let doe := yoe * 365 + yoe / 4 - yoe / 100 + doy
  era * 146097 + doe - 719468

/-- Comparison key: seconds since the epoch (naive values read as UTC). -/
def dtKey (t : DTime) : Int :=
  daysFromCivil t.year t.month t.day * 86400 + t.hour * 3600 + t.minute * 60 + t.second
    - 60 * t.offset.getD 0

/-- Python `a > b` on datetimes. -/
def dtGt (a b : DTime) : Bool :=
  dtKey b < dtKey a

/-- Zero-padded numeric field. -/
def padNum (width n : Nat) : Str :=
  let s := natToStr n
  List.replicate (width - s.length) '0' ++ s

/-- Model of `datetime.isoformat()` (seconds precision, optional offset). -/
def dtIso (t : DTime) : Str :=
  padNum 4 t.year ++ tS "-" ++ padNum 2 t.month ++ tS "-" ++ padNum 2 t.day ++ tS "T" ++
    padNum 2 t.hour ++ tS ":" ++ padNum 2 t.minute ++ tS ":" ++ padNum 2 t.second ++
    (match t.offset with
     | none => []
     | some o =>
       (if o < 0 then tS "-" else tS "+") ++
         padNum 2 (o.natAbs / 60) ++ tS ":" ++ padNum 2 (o.natAbs % 60))

/-- `datetime(1970, 1, 1, tzinfo=timezone.utc)`. -/
def epochDT : DTime := ⟨1970, 1, 1, 0, 0, 0, some 0⟩

/-! ## Event lines (`json.loads` on `events.jsonl`)

`append_event` writes each event as `json.dumps` of a flat dict of strings;
this minimal JSON reader models `json.loads` on exactly those objects
(whitespace, one brace-delimited object of string keys and string values,
standard escapes).  Any other document — in particular every malformed line —
is `none`, matching the `JSONDecodeError` branch of the reader. -/

/-- Hex digit value. -/
def hexVal (c : Char) : Option Nat :=
  if '0' ≤ c ∧ c ≤ '9' then some (c.toNat - 48)
  else if 'a' ≤ c ∧ c ≤ 'f' then some (c.toNat - 87)
  else if 'A' ≤ c ∧ c ≤ 'F' then some (c.toNat - 70)
  else none

/-- JSON whitespace. -/
def jsonWs (c : Char) : Bool :=
  c = ' ' || c = '\t' || c = '\n' || c = '\r'

/-- Skip JSON whitespace. -/
def skipWs : Str → Str
  | [] => []
  | c :: cs => if jsonWs c then skipWs cs else c :: cs

/-- Parse the remainder of a JSON string literal (after the opening quote). -/
def jsonStringLit : Str → Option (Str × Str)
  | [] => none
  | '"' :: rest => some ([], rest)
  | '\\' :: rest =>
    match rest with
    | 'u' :: h1 :: h2 :: h3 :: h4 :: rest2 => do
      let v1 ← hexVal h1
      let v2 ← hexVal h2
      let v3 ← hexVal h3
      let v4 ← hexVal h4
      let n := ((v1 * 16 + v2) * 16 + v3) * 16 + v4
      if h : n.isValidChar then
        let (s, r) ← jsonStringLit rest2
        some (Char.ofNatAux n h :: s, r)
      else none
    | e :: rest2 => do
      let c ← match e with
        | '"' => some '"'
        | '\\' => some '\\'
        | '/' => some '/'
        | 'n' => some '\n'
        | 't' => some '\t'
        | 'r' => some '\r'
        | 'b' => some '\x08'
        | 'f' => some '\x0c'
        | _ => none
      let (s, r) ← jsonStringLit rest2
      some (c :: s, r)
    | [] => none
  | c :: rest => do
    if c.toNat < 32 then none
    else
      let (s, r) ← jsonStringLit rest
      some (c :: s, r)

/-- Member loop of the flat-object reader (fuelled by input length). -/
def jsonMembers : Nat → Str → List (Str × Str) → Option (List (Str × Str) × Str)
  | 0, _, _ => none
  | f + 1, input, acc =>
    match skipWs input with
    | '"' :: rest => do
      let (k, r1) ← jsonStringLit rest
      match skipWs r1 with
      | ':' :: r2 =>
        match skipWs r2 with
        | '"' :: r3 => do
          let (v, r4) ← jsonStringLit r3
          match skipWs r4 with
          | ',' :: r5 => jsonMembers f r5 (acc ++ [(k, v)])
          | '}' :: r5 => some (acc ++ [(k, v)], r5)
          | _ => none
        | _ => none
      | _ => none
    | _ => none

/-- Model of `json.loads` restricted to flat string-valued objects (what
`append_event` writes); everything else is a decode error. -/
def jsonFlat (s : Str) : Option (List (Str × Str)) :=
  match skipWs s with
  | '{' :: rest =>
    match skipWs rest with
    | '}' :: r2 => if skipWs r2 = [] then some [] else none
    | _ => do
      let (pairs, r2) ← jsonMembers s.length rest []
      if skipWs r2 = [] then some pairs else none
  | _ => none

/-- `payload.get(key)` on a decoded object (duplicate keys: last wins, as in
`json.loads`). -/
def jGet (pairs : List (Str × Str)) (k : Str) : Option Str :=
  match pairs.reverse.find? (fun e => e.1 = k) with
  | some e => some e.2
  | none => none

/-- `latest_event_timestamp`: absent file, no non-blank line, undecodable
last line, or a missing/unparseable `ts` all give `none`. -/
def latestEventTimestamp (ev : Option (List Str)) : Option DTime :=
  match ev with
  | none => none
  | some lines =>
    match (lines.filter (fun l => pyStrip l ≠ [])).getLast? with
    | none => none
    | some last =>
      match jsonFlat last with
      | none => none
      | some pairs => parseTimestamp (jGet pairs (tS "ts"))

/-! ## On-disk state and the snapshot builder (`tools/build_snapshot.py`)

The disk under the root is modelled explicitly: the parsed content of
`state/atp/index.json` (if present), the `streams/` subdirectories (each a
list of named text files plus an optional `events.jsonl`, kept as its lines),
the set of other paths that exist (queried only by the manifest checks of
`derive_status`, relative to the root as written), and the remaining
persisted files (e.g. `state/control_room_latest.json`), which the snapshot
builder never reads. -/

/-- One entry of the persisted index: `{latest_seq, packet_files}`
(`latest_seq` read with `.get`, hence optional; `packet_files` read with
`.get(..., [])`). -/
structure IndexEntry where
  latest_seq : Option Int
  packet_files : List Str
deriving DecidableEq, Repr

/-- The parsed index document (`streams` dict as an association list in key
insertion order; the constant `atp_version` tag is left implicit). -/
structure IndexData where
  streams : List (Str × IndexEntry)
deriving DecidableEq, Repr

/-- One `streams/<stream_id>/` directory. -/
structure StreamDir where
  files : List (Str × Str)
  eventsFile : Option (List Str)
deriving DecidableEq, Repr

/-- Everything under the root that the modelled code can observe. -/
structure RootState where
  indexFile : Option IndexData
  streams : List (Str × StreamDir)
  existingPaths : List Str
  otherFiles : List (Str × Str)
deriving DecidableEq, Repr

/-- `load_index`: the persisted `index.json`, or the empty-index default when
the file does not exist. -/
def loadIndex (st : RootState) : IndexData :=
  st.indexFile.getD ⟨[]⟩

/-- Read `streams/<sid>/<fname>`; a missing directory or file is the
`FileNotFoundError` of `Path.read_text`. -/
def readStreamFile (streams : List (Str × StreamDir)) (sid fname : Str) : Except String Str :=
  match streams.find? (fun e => e.1 = sid) with
  | none => .error "FileNotFoundError"
  | some d =>
    match d.2.files.find? (fun e => e.1 = fname) with
    | none => .error "FileNotFoundError"
    | some e => .ok e.2

/-- `parse_packet_file`: read, parse, validate. -/
def parsePacketFileM (streams : List (Str × StreamDir)) (sid fname : Str) :
    Except String Packet := do
  let text ← readStreamFile streams sid fname
  let p ← parsePacketText text
  validatePacket p
  .ok p

/-- `derive_status`.  Path existence of a manifest (resolved against the
root) is modelled by membership of the manifest string, as written in the
packet, in the state's set of existing root-relative paths. -/
def deriveStatus (existingPaths : List Str) (p : Packet) : Str :=
  if p.manifests.any (fun m => ¬ m ∈ existingPaths) then tS "blocked"
  else if p.FAIL_CLASS ≠ [] ∧ p.FAIL_CLASS ≠ tS "NONE" then tS "blocked"
  else if p.APPROVAL = tS "requested" then tS "pending"
  else tS "running"

/-- Append a child under a parent key (`parent_map.setdefault(p, []).append`). -/
def pmAppend (m : List (Str × List Str)) (k v : Str) : List (Str × List Str) :=
  match m with
  | [] => [(k, [v])]
  | e :: es => if e.1 = k then (k, e.2 ++ [v]) :: es else e :: pmAppend es k v

/-- The `parent -> [child ids]` map built from every packet of a stream. -/
def streamParentMap (ps : List Packet) : List (Str × List Str) :=
  ps.foldl
    (fun m p =>
      match p.PARENT with
      | none => m
      | some par => if par = [] then m else pmAppend m par p.ID)
    []

/-- `parent_map.get(k, [])`. -/
def pmLookup (m : List (Str × List Str)) (k : Str) : List Str :=
  match m.find? (fun e => e.1 = k) with
  | some e => e.2
  | none => []

/-- The key looked up for `fork_children`: `packet.get("PARENT") or ""`. -/
def parentKey : Option Str → Str
  | some par => par
  | none => []

/-- A per-stream summary row of the snapshot. -/
structure StreamSummary where
  id : Str
  latest_seq : Option Int
  last_event_ts : Option Str
  status : Str
  approval_state : Str
  latest_packet_id : Str
  fail_class : Str
  packet_files : List Str
  has_fork : Bool
  fork_children : List Str
deriving DecidableEq, Repr

/-- The per-stream body of `build_snapshot`'s loop: parse every packet, build
the parent map, derive status, read the latest timestamps.  Returns `none`
when the index entry lists no packet files (the `continue`), else the summary
row together with the stream's newest timestamp contribution. -/
def summarizeStream (streams : List (Str × StreamDir)) (existingPaths : List Str)
    (sid : Str) (entry : IndexEntry) :
    Except String (Option (StreamSummary × Option DTime)) := do
  if entry.packet_files = [] then .ok none else do
  let parsed ← entry.packet_files.mapM (fun f => parsePacketFileM streams sid f)
  match parsed.getLast? with
  | none => .ok none
  | some packet => do
    let parentMap := streamParentMap parsed
    let status := deriveStatus existingPaths packet
    let eventTs :=
      latestEventTimestamp ((streams.find? (fun e => e.1 = sid)).bind (fun e => e.2.eventsFile))
    let packetTs := parseTimestamp (some packet.TS)
    let newest :=
      match eventTs, packetTs with
      | some e, some p => some (if dtGt p e then p else e)
      | some e, none => some e
      | none, some p => some p
      | none, none => none
    let forkChildren := pmLookup parentMap (parentKey packet.PARENT)
    .ok (some
      ({ id := sid
         latest_seq := entry.latest_seq
         last_event_ts := eventTs.map dtIso
         status := status
         approval_state := packet.APPROVAL
         latest_packet_id := packet.ID
         fail_class := packet.FAIL_CLASS
         packet_files := entry.packet_files
         has_fork := forkChildren.length > 1
         fork_children := forkChildren }, newest))

/-- The snapshot document (the constant `projects`/`alerts`/`data_freshness`
fields are omitted as constants). -/
structure Snapshot where
  schema_version : Str
  as_of : Str
  health_status : Str
  active_alerts_count : Nat
  streams : List StreamSummary
deriving DecidableEq, Repr

/-- Merge a stream's newest timestamp into the running global maximum
(`if newest and (latest is None or newest > latest)`). -/
def mergeLatest (newest acc : Option DTime) : Option DTime :=
  match newest, acc with
  | some n, none => some n
  | some n, some l => if dtGt n l then some n else some l
  | none, x => x

/-- One iteration of `build_snapshot`'s stream loop. -/
def snapshotFoldStep (st : RootState) (acc : List StreamSummary × Option DTime)
    (sid : Str) : Except String (List StreamSummary × Option DTime) := do
  match (loadIndex st).streams.find? (fun e => e.1 = sid) with
  | none => .ok acc
  | some e => do
    match ← summarizeStream st.streams st.existingPaths sid e.2 with
    | none => .ok acc
    | some (summary, newest) => .ok (acc.1 ++ [summary], mergeLatest newest acc.2)

/-- `build_snapshot`: load the persisted index, walk its streams in sorted
order, and assemble the snapshot. -/
def buildSnapshot (st : RootState) : Except String Snapshot := do
  let folded ← (sortStr ((loadIndex st).streams.map (fun e => e.1))).foldlM
    (snapshotFoldStep st) ([], none)
  .ok
    { schema_version := tS "control-room-snapshot-v0"
      as_of := replaceAll (tS "+00:00") (tS "Z") (dtIso (folded.2.getD epochDT))
      health_status :=
        if (folded.1.filter (fun s => s.status = tS "blocked")).length ≠ 0 then tS "Warning"
        else tS "Nominal"
      active_alerts_count := (folded.1.filter (fun s => s.status = tS "blocked")).length
      streams := folded.1 }

/-! ## Sequencer and stream store (`tools/atp.py`: `next_sequence`,
`write_packet`, `append_event`, `approve_stream`, `rebuild_index`,
`update_etag`)

The wall clock (`datetime.now`) and the VCS probe (`get_git_state`) are
external inputs; the model takes their outputs as explicit parameters. -/

/-- The packet-filename pattern `^\d{6}\..+\.atp$` (the `.` of the regex does
not cross a newline), returning the sequence number on a match. -/
def matchPacketName (name : Str) : Option Nat :=
  let d6 := name.take 6
  let rest := name.drop 6
  if d6.length = 6 ∧ d6.all Char.isDigit ∧ rest.take 1 = tS "." ∧
      (tS ".atp").isSuffixOf (rest.drop 1) ∧ rest.length ≥ 6 ∧
      ¬ '\n' ∈ (rest.drop 1).take (rest.length - 5) then
    some (charsToNat d6)
  else none

/-- `list_sequences`: the (sorted) sequence numbers of the matching files. -/
def listSequences (d : StreamDir) : List Nat :=
  sortNat (d.files.filterMap (fun e => matchPacketName e.1))

/-- `list_packet_files`: the sorted names of the matching files. -/
def listPacketFiles (d : StreamDir) : List Str :=
  sortStr ((d.files.filter (fun e => (matchPacketName e.1).isSome)).map (fun e => e.1))

/-- `next_sequence`. -/
def nextSequence (d : StreamDir) : Nat :=
  match (listSequences d).getLast? with
  | some s => s + 1
  | none => 1

/-- `latest_sequence_for_stream` (raises when the stream has no packets). -/
def latestSequenceForStream (d : StreamDir) : Except String Nat :=
  match (listSequences d).getLast? with
  | some s => .ok s
  | none => .error "No packets found"

/-- `latest_packet_file` (raises when the stream has no packets). -/
def latestPacketFile (d : StreamDir) : Except String Str :=
  match (listPacketFiles d).getLast? with
  | some f => .ok f
  | none => .error "No packets found"

/-- `Path.write_text`: overwrite an existing name, else create it (new files
appear at the end of the directory listing model; the listing order is
irrelevant because every reader sorts). -/
def writeFile (files : List (Str × Str)) (name content : Str) : List (Str × Str) :=
  match files with
  | [] => [(name, content)]
  | e :: es => if e.1 = name then (name, content) :: es else e :: writeFile es name content

/-- Replace a stream's directory in the root. -/
def updateStream (streams : List (Str × StreamDir)) (sid : Str) (d : StreamDir) :
    List (Str × StreamDir) :=
  match streams with
  | [] => [(sid, d)]
  | e :: es => if e.1 = sid then (sid, d) :: es else e :: updateStream es sid d

/-- `packet_tools` (fixed lookup keyed by MODE, default `["read"]`). -/
def packetTools (mode : Str) : List Str :=
  if mode = tS "PLAN" then [tS "read", tS "diff"]
  else if mode = tS "EXEC" then [tS "edit", tS "exec"]
  else if mode = tS "REVIEW" then [tS "read"]
  else [tS "read"]

/-- `packet_approval`. -/
def packetApproval (mode : Str) : Str :=
  if mode = tS "EXEC" then tS "requested" else tS "none"

/-- `packet_suffix` (default `request`). -/
def packetSuffix (mode : Str) : Str :=
  if mode = tS "PLAN" then tS "request"
  else if mode = tS "EXEC" then tS "response"
  else if mode = tS "REVIEW" then tS "review"
  else tS "request"

/-- The packet dict `build_packet` assembles. -/
def buildPacketRecord (mode task : Str) (seq : Nat) (streamId : Str) (ts gitState : Str) :
    Packet :=
  { ATP := tS "ATP/0.1"
    ID := streamId ++ tS "/" ++ pad6 seq
    TS := ts
    MODE := mode
    TASK := task
    STATE := gitState
    PARENT := if seq = 1 then none else some (streamId ++ tS "/" ++ pad6 (seq - 1))
    ETAG := none
    TOOLS := packetTools mode
    APPROVAL := packetApproval mode
    FAIL_CLASS := tS "NONE"
    goal := tS "<fill_in>"
    nowS := [tS "<fact 1>"]
    nextS := [tS "<action 1>"]
    risksS := [tS "<risk 1>"]
    acceptS := [tS "<acceptance 1>"]
    questionsS := [tS "none"]
    manifests := [tS "state/artifacts/<hash>/manifest.json"]
    confidence := none }

/-- `build_packet` (the timestamp and git state are oracle inputs). -/
def buildPacket (mode task : Str) (seq : Nat) (streamId : Str) (ts gitState : Str) :
    Except String Packet :=
  match validatePacket (buildPacketRecord mode task seq streamId ts gitState) with
  | .error e => .error e
  | .ok () => .ok (buildPacketRecord mode task seq streamId ts gitState)

/-- `ensure_layout`: create the default index file when absent (directory
creation has no further observable effect in the model). -/
def ensureLayout (st : RootState) : RootState :=
  { st with indexFile := some (st.indexFile.getD ⟨[]⟩) }

/-- `rebuild_index`: rescan `streams/` in sorted order; empty streams are
omitted; each entry records `max(seq)` and the sorted packet filenames. -/
def rebuildIndex (streams : List (Str × StreamDir)) : IndexData :=
  ⟨(sortStr (streams.map (fun e => e.1))).filterMap (fun sid =>
    match streams.find? (fun e => e.1 = sid) with
    | none => none
    | some e =>
      let pf := listPacketFiles e.2
      if pf = [] then none
      else
        some (sid, ⟨some ((pf.filterMap matchPacketName).foldl Nat.max 0 : Nat), pf⟩))⟩

/-- The `PacketInfo` result of a write: stream id, sequence, and the written
filename (the varying part of its path). -/
structure PacketInfoM where
  stream_id : Str
  seq : Nat
  path : Str
deriving DecidableEq, Repr

/-- Look a stream up, defaulting to an empty directory. -/
def getStream (streams : List (Str × StreamDir)) (sid : Str) : StreamDir :=
  match streams.find? (fun e => e.1 = sid) with
  | some e => e.2
  | none => ⟨[], none⟩

/-- Python `stream_id or generate_stream_id()` (the empty string is falsy). -/
def orElseStr (v : Option Str) (dflt : Str) : Str :=
  match v with
  | some s => if s = [] then dflt else s
  | none => dflt

/-- `stream_path.mkdir(parents=True, exist_ok=True)`: create the stream
directory when absent. -/
def ensureStream (streams : List (Str × StreamDir)) (sid : Str) : List (Str × StreamDir) :=
  if (streams.find? (fun e => e.1 = sid)).isSome then streams
  else streams ++ [(sid, ⟨[], none⟩)]

/-- Write one file into the stream's directory and refresh the persisted
index (`write_text` + `rebuild_index` + `save_index`). -/
def wpApply (stream fname content : Str) (st : RootState) : RootState :=
  { st with
    streams := updateStream st.streams stream
      { getStream st.streams stream with
        files := writeFile (getStream st.streams stream).files fname content }
    indexFile := some (rebuildIndex (updateStream st.streams stream
      { getStream st.streams stream with
        files := writeFile (getStream st.streams stream).files fname content })) }

/-- The body of `write_packet` once the stream directory exists. -/
def writePacketAt (mode task stream ts gitState : Str) (st : RootState) :
    Except String (RootState × PacketInfoM) :=
  match buildPacket mode task (nextSequence (getStream st.streams stream)) stream ts
      gitState with
  | .error e => .error e
  | .ok packet =>
    .ok (wpApply stream
          (pad6 (nextSequence (getStream st.streams stream)) ++ tS "." ++
            packetSuffix mode ++ tS ".atp")
          (renderPacket packet) st,
         ⟨stream, nextSequence (getStream st.streams stream),
          pad6 (nextSequence (getStream st.streams stream)) ++ tS "." ++
            packetSuffix mode ++ tS ".atp"⟩)

/-- `write_packet` (the generated stream id, timestamp and git state are
oracle inputs). -/
def writePacket (mode task : Str) (streamIdOpt : Option Str) (genId ts gitState : Str)
    (st0 : RootState) : Except String (RootState × PacketInfoM) :=
  writePacketAt mode task (orElseStr streamIdOpt genId) ts gitState
    { ensureLayout st0 with
      streams := ensureStream (ensureLayout st0).streams (orElseStr streamIdOpt genId) }

/-- `validate_event` on the final payload. -/
def validateEvent (payload : List (Str × Str)) : Except String Unit := do
  requireString (aGet payload (tS "ts") []) "ts"
  requireString (aGet payload (tS "id") []) "id"
  requireString (aGet payload (tS "type") []) "type"
  requireString (aGet payload (tS "summary") []) "summary"
  .ok ()

/-- JSON string escaping of `json.dumps` (default `ensure_ascii`). -/
def jsonEscapeChar (c : Char) : Str :=
  if c = '"' then tS "\\\""
  else if c = '\\' then tS "\\\\"
  else if c = '\n' then tS "\\n"
  else if c = '\t' then tS "\\t"
  else if c = '\r' then tS "\\r"
  else if c = '\x08' then tS "\\b"
  else if c = '\x0c' then tS "\\f"
  else if c.toNat < 32 ∨ c.toNat > 126 then
    tS "\\u" ++ (List.range 4).map (fun i => hexChar (c.toNat >>> (4 * (3 - i)) % 16))
  else [c]

/-- `json.dumps(payload, separators=(",", ":"))` on a flat string dict. -/
def jsonDumpsFlat (payload : List (Str × Str)) : Str :=
  tS "\x7b" ++
    joinWith (tS ",")
      (payload.map (fun e =>
        tS "\"" ++ e.1.flatMap jsonEscapeChar ++ tS "\":\"" ++ e.2.flatMap jsonEscapeChar ++ tS "\"")) ++
    tS "\x7d"

/-- The payload dict `append_event` builds (`packet_id` only when truthy,
then `payload.update(extra)`). -/
def eventPayload (streamId evType summary : Str) (extra : List (Str × Str))
    (packetId : Option Str) (ts : Str) (seq : Nat) : List (Str × Str) :=
  extra.foldl (fun m kv => aSet m kv.1 kv.2)
    ([(tS "ts", ts), (tS "id", streamId ++ tS "/" ++ pad6 seq),
      (tS "type", evType), (tS "summary", summary)] ++
     (match packetId with
      | some pid => if pid ≠ [] then [(tS "packet_id", pid)] else []
      | none => []))

/-- The directory after `append_event` writes its line. -/
def eventApply (d : StreamDir) (line : Str) : StreamDir :=
  { d with eventsFile := some (d.eventsFile.getD [] ++ [line]) }

/-- The body of `append_event` once the stream directory is found. -/
def appendEventAt (streamId evType summary : Str) (extra : List (Str × Str))
    (packetId : Option Str) (ts : Str) (d : StreamDir) (st : RootState) :
    Except String RootState :=
  latestSequenceForStream d >>= fun seq =>
  validateEvent (eventPayload streamId evType summary extra packetId ts seq) >>= fun _ =>
  .ok { st with
          streams := updateStream st.streams streamId
            (eventApply d
              (jsonDumpsFlat (eventPayload streamId evType summary extra packetId ts seq))) }

/-- `append_event` (event timestamp is an oracle input unless overridden). -/
def appendEvent (streamId evType summary : Str) (extra : List (Str × Str))
    (packetId : Option Str) (ts : Str) (st0 : RootState) : Except String RootState :=
  ((ensureLayout st0).streams.find? (fun e => e.1 = streamId)).elim
    (.error "No packets found")
    (fun e => appendEventAt streamId evType summary extra packetId ts e.2 (ensureLayout st0))

/-- The review packet `approve_stream` builds over the latest packet. -/
def approvePacket (streamId : Str) (latest : Packet) (seq : Nat)
    (rationale ts gitState : Str) : Packet :=
  { ATP := tS "ATP/0.1"
    ID := streamId ++ tS "/" ++ pad6 seq
    TS := ts
    MODE := tS "REVIEW"
    TASK := latest.TASK
    STATE := gitState
    PARENT := some latest.ID
    ETAG := none
    TOOLS := [tS "read"]
    APPROVAL := tS "granted_by_human"
    FAIL_CLASS := tS "NONE"
    goal := tS "Human approval recorded."
    nowS := [tS "Approved " ++ latest.ID]
    nextS := [tS "Continue execution."]
    risksS := [tS "Human approval could mask unresolved evidence."]
    acceptS := if rationale ≠ [] then [tS "Rationale: " ++ rationale] else [tS "Rationale: none"]
    questionsS := [tS "none"]
    manifests := latest.manifests
    confidence := none }

/-- `write_text` of one file into a known stream directory (no index
refresh). -/
def writeFileState (stream fname content : Str) (d : StreamDir) (st : RootState) :
    RootState :=
  { st with
    streams := updateStream st.streams stream
      ({ d with files := writeFile d.files fname content }) }

/-- The body of `approve_stream` once the stream directory is found. -/
def approveStreamAt (streamId rationale ts tsEvent gitState : Str) (d : StreamDir)
    (st : RootState) : Except String (RootState × PacketInfoM) :=
  latestPacketFile d >>= fun latestName =>
  parsePacketFileM st.streams streamId latestName >>= fun latest =>
  validatePacket (approvePacket streamId latest (nextSequence d) rationale ts gitState) >>=
    fun _ =>
  appendEvent streamId (tS "APPROVAL_GRANTED") (tS "Human approval granted") []
      (some (approvePacket streamId latest (nextSequence d) rationale ts gitState).ID)
      tsEvent
      (writeFileState streamId (pad6 (nextSequence d) ++ tS ".review.atp")
        (renderPacket (approvePacket streamId latest (nextSequence d) rationale ts
          gitState)) d st) >>= fun st2 =>
  .ok ({ st2 with indexFile := some (rebuildIndex st2.streams) },
       ⟨streamId, nextSequence d, pad6 (nextSequence d) ++ tS ".review.atp"⟩)

/-- `approve_stream` (packet timestamp, event timestamp and git state are
oracle inputs). -/
def approveStream (streamId rationale : Str) (ts tsEvent gitState : Str) (st0 : RootState) :
    Except String (RootState × PacketInfoM) :=
  ((ensureLayout st0).streams.find? (fun e => e.1 = streamId)).elim
    (.error "Stream not found")
    (fun e => approveStreamAt streamId rationale ts tsEvent gitState e.2 (ensureLayout st0))

/-- The stream directory `approve_stream` leaves behind: the rendered review
packet written under the next sequence's `.review.atp` name, and the
`APPROVAL_GRANTED` event line appended to `events.jsonl`. -/
def approveDirApply (streamId : Str) (latest : Packet) (seq : Nat)
    (rationale ts tsEvent gitState : Str) (d : StreamDir) : StreamDir :=
  eventApply
    { d with files := writeFile d.files (pad6 seq ++ tS ".review.atp")
                        (renderPacket (approvePacket streamId latest seq rationale ts
                          gitState)) }
    (jsonDumpsFlat (eventPayload streamId (tS "APPROVAL_GRANTED")
      (tS "Human approval granted") []
      (some (approvePacket streamId latest seq rationale ts gitState).ID) tsEvent seq))

/-- The root state `approve_stream` leaves behind (review packet written,
event appended, index rebuilt). -/
def approveApply (streamId : Str) (latest : Packet) (seq : Nat)
    (rationale ts tsEvent gitState : Str) (d : StreamDir) (st : RootState) : RootState :=
  { st with
    streams := updateStream (updateStream st.streams streamId
        { d with files := writeFile d.files (pad6 seq ++ tS ".review.atp")
                            (renderPacket (approvePacket streamId latest seq rationale ts
                              gitState)) })
        streamId (approveDirApply streamId latest seq rationale ts tsEvent gitState d)
    indexFile := some (rebuildIndex (updateStream (updateStream st.streams streamId
        { d with files := writeFile d.files (pad6 seq ++ tS ".review.atp")
                            (renderPacket (approvePacket streamId latest seq rationale ts
                              gitState)) })
        streamId (approveDirApply streamId latest seq rationale ts tsEvent gitState d))) }

/-- `update_etag` on the file's content, returning the digest and the new
content.  The `re.sub(ETAG_RE, ...)` over the `MULTILINE` pattern
`^ETAG:.*$` is modelled line by line (the header contains no blank line, and
`.` stops at a newline, so the substitution rewrites exactly the
`ETAG:`-prefixed lines). -/
def updateEtag (content : Str) : Except String (Str × Str) := do
  let (header, body) ← splitPacket content
  let digest := sha256Hex (utf8 body)
  let subbed :=
    (splitChar '\n' header).map
      (fun l => if pyStartsWith (tS "ETAG:") l then tS "ETAG: " ++ digest else l)
  let updatedHeader := joinWith (tS "\n") subbed
  let updatedHeader2 :=
    if updatedHeader = header then header ++ tS "\nETAG: " ++ digest else updatedHeader
  .ok (digest, updatedHeader2 ++ tS "\n\n" ++ body)

/-! ## Artifact bundler (`tools/atp.py`: `hash_files`, `bundle_artifact`) -/

/-- Stable insertion sort of `(path, bytes)` pairs by the path string
(`sorted(paths, key=lambda p: str(p))`). -/
def insSortedPair (x : Str × List Nat) :
    List (Str × List Nat) → List (Str × List Nat)
  | [] => [x]
  | y :: ys => if strLeB y.1 x.1 then y :: insSortedPair x ys else x :: y :: ys

/-- `sorted(paths, key=str)`. -/
def sortPairsByStr (l : List (Str × List Nat)) : List (Str × List Nat) :=
  l.foldl (fun acc x => insSortedPair x acc) []

/-- The byte stream `hash_files` feeds to SHA-256: for every file in sorted
order, `str(path)` (UTF-8), one zero byte, then the file bytes.  Note the
path hashed is the full path handed in — for bundles that is the resolved
absolute path, not the path relative to the bundle input. -/
def hashFilesInput (paths : List (Str × List Nat)) : List Nat :=
  (sortPairsByStr paths).flatMap (fun e => utf8 e.1 ++ [0] ++ e.2)

/-- `hash_files`. -/
def hashFiles (paths : List (Str × List Nat)) : Str :=
  sha256Hex (hashFilesInput paths)

/-- The hasher input of `bundle_artifact` on a directory input: `collect_paths`
walks the resolved absolute input path, so every hashed path is the absolute
input path joined with the file's relative path. -/
def bundleHasherInputDir (inputAbs : Str) (relFiles : List (Str × List Nat)) : List Nat :=
  hashFilesInput (relFiles.map (fun e => (inputAbs ++ tS "/" ++ e.1, e.2)))

/-- The digest `bundle_artifact` derives for a directory input (the name of
the `artifacts/<hash>/` directory). -/
def bundleHashDir (inputAbs : Str) (relFiles : List (Str × List Nat)) : Str :=
  sha256Hex (bundleHasherInputDir inputAbs relFiles)

/-! ## Path resolution (`backend/app/api/atp_streams.py`: `contains_traversal`,
`safe_resolve`)

Paths are modelled as segment lists under an absolute, already-resolved base;
`Path.resolve` is modelled lexically (no symbolic links in the model). -/

/-- Fuelled percent-decoder (model of `urllib.parse.unquote`; decoded bytes
are read as code points, faithful for the ASCII range the checks concern). -/
def unquoteGo : Nat → Str → Str
  | 0, s => s
  | _ + 1, [] => []
  | f + 1, '%' :: rest =>
    match rest with
    | h1 :: h2 :: rest2 =>
      match hexVal h1, hexVal h2 with
      | some a, some b =>
        if h : (a * 16 + b).isValidChar then Char.ofNatAux (a * 16 + b) h :: unquoteGo f rest2
        else '%' :: unquoteGo f rest
      | _, _ => '%' :: unquoteGo f rest
    | _ => '%' :: unquoteGo f rest
  | f + 1, c :: cs => c :: unquoteGo f cs

/-- `urllib.parse.unquote`. -/
def unquote (s : Str) : Str :=
  unquoteGo s.length s

/-- `contains_traversal`: checked on the raw value and once-decoded value;
backslashes count as separators; absolute paths and `..` segments are
traversal. -/
def containsTraversal (v : Str) : Bool :=
  [v, unquote v].any (fun raw =>
    let normalized := replaceAll (tS "\\") (tS "/") raw
    pyStartsWith (tS "/") normalized ||
      ((splitChar '/' normalized).filter (fun s => s ≠ [])).any (fun s => s = tS ".."))

/-- `base.joinpath(part)` on segment lists: an absolute part resets the path;
`PurePath` construction drops empty and single-dot components. -/
def joinPart (p : List Str) (part : Str) : List Str :=
  let segs := (splitChar '/' part).filter (fun s => s ≠ [] ∧ s ≠ tS ".")
  if pyStartsWith (tS "/") part then segs else p ++ segs

/-- Lexical `Path.resolve` on segment lists (symlink-free model): `..` pops,
staying at the root. -/
def resolveSegs (segs : List Str) : List Str :=
  segs.foldl
    (fun acc s =>
      if s = tS ".." then acc.dropLast
      else if s = tS "." ∨ s = [] then acc
      else acc ++ [s])
    []

/-- `safe_resolve`: reject any traversal-containing part, join and resolve,
and require the resolved candidate to be the base itself or strictly inside
it (`base in candidate.parents`). -/
def safeResolve (base : List Str) (parts : List Str) : Except String (List Str) :=
  if parts.any containsTraversal then .error "Invalid path"
  else if resolveSegs (parts.foldl joinPart base) = base then
    .ok (resolveSegs (parts.foldl joinPart base))
  else if base.isPrefixOf (resolveSegs (parts.foldl joinPart base)) ∧
      base ≠ resolveSegs (parts.foldl joinPart base) then
    .ok (resolveSegs (parts.foldl joinPart base))
  else .error "Invalid path"

/-! ## Wire-canonical packets

`validate_packet` admits values the wire format cannot carry verbatim
(embedded newlines, strip-sensitive spacing, `null`-spelled strings,
separator characters inside tool tokens).  A packet is wire-canonical when
every free-text field survives the wire unchanged; the round-trip law holds
exactly on such packets. -/

/-- A string the wire carries unchanged: strip-invariant and free of CR/LF. -/
def strCanonB (s : Str) : Bool :=
  pyStrip s == s && !(decide ('\n' ∈ s)) && !(decide ('\r' ∈ s))

/-- A nullable header value that re-reads as itself: canonical and not a
spelling of `null`. -/
def optNullableCanonB : Option Str → Bool
  | none => true
  | some v => strCanonB v && !(lowerStr v == tS "null") && !(lowerStr v == tS "none") && !v.isEmpty

/-- A tool token that survives `", ".join` followed by the `[|,]` split. -/
def toolCanonB (t : Str) : Bool :=
  strCanonB t && !t.isEmpty && !(decide (',' ∈ t)) && !(decide ('|' ∈ t))

/-- A confidence value with an exact decimal rendering (every Python float in
`[0, 1]` qualifies). -/
def confCanonB : Option ℚ → Bool
  | none => true
  | some q => (decScale q).isSome

/-- Wire-canonical packet. -/
def wireCanonB (p : Packet) : Bool :=
  strCanonB p.ID && strCanonB p.TS && strCanonB p.MODE && strCanonB p.TASK &&
  strCanonB p.STATE && optNullableCanonB p.PARENT && optNullableCanonB p.ETAG &&
  p.TOOLS.all toolCanonB && strCanonB p.goal &&
  p.nowS.all strCanonB && p.nextS.all strCanonB && p.risksS.all strCanonB &&
  p.acceptS.all strCanonB && p.questionsS.all strCanonB &&
  p.manifests.all (fun m => strCanonB m && !m.isEmpty) &&
  confCanonB p.confidence

/-! ## Single-writer runs (for the sequencing invariant)

A run is a list of `write_packet` / `approve_stream` calls against one
stream, each carrying the oracle inputs (wall clock, git state) its call
would observe. -/

/-- One sequencer call on the stream. -/
inductive SeqOp where
  | write (mode task ts gitState : Str)
  | approve (rationale ts tsEvent gitState : Str)
deriving DecidableEq, Repr

/-- Run one call. -/
def runOp (stream : Str) (st : RootState) : SeqOp → Except String (RootState × PacketInfoM)
  | .write mode task ts gs => writePacket mode task (some stream) [] ts gs st
  | .approve r ts tsE gs => approveStream stream r ts tsE gs st

/-- Run a list of calls, left to right. -/
def runOps (stream : Str) : List SeqOp → RootState → Except String RootState
  | [], st => .ok st
  | op :: ops, st =>
    match runOp stream st op with
    | .ok (st2, _) => runOps stream ops st2
    | .error e => .error e

/-- The filename suffix each call produces. -/
def opSuffix : SeqOp → Str
  | .write mode _ _ _ => packetSuffix mode
  | .approve _ _ _ _ => tS "review"

/-- Canonical, validation-passing inputs for one call (mode/task/timestamps/
git state strip-invariant, CR/LF-free, and nonempty where validation
requires). -/
def opWellFormedB : SeqOp → Bool
  | .write mode task ts gs =>
    strCanonB mode && !(pyStrip mode).isEmpty && strCanonB task && !(pyStrip task).isEmpty &&
    strCanonB ts && !(pyStrip ts).isEmpty && strCanonB gs && !(pyStrip gs).isEmpty
  | .approve r ts tsE gs =>
    strCanonB r && strCanonB ts && !(pyStrip ts).isEmpty && !(pyStrip tsE).isEmpty &&
    strCanonB gs && !(pyStrip gs).isEmpty

/-- A run must start with a `write_packet` (an `approve_stream` on a stream
with no packets raises before writing anything). -/
def firstIsWriteB : List SeqOp → Bool
  | [] => true
  | SeqOp.write _ _ _ _ :: _ => true
  | SeqOp.approve _ _ _ _ :: _ => false

/-- The filename the k-th call (0-based) of a run writes. -/
def expectedName (ops : List SeqOp) (k : Nat) : Str :=
  pad6 (k + 1) ++ tS "." ++ opSuffix (ops.getD k (SeqOp.write [] [] [] [])) ++ tS ".atp"

/-- Run a list of calls, collecting the returned `PacketInfo`s. -/
def runOpsAcc (stream : Str) : List SeqOp → RootState →
    Except String (RootState × List PacketInfoM)
  | [], st => .ok (st, [])
  | op :: ops, st =>
    match runOp stream st op with
    | .ok (st2, info) =>
      match runOpsAcc stream ops st2 with
      | .ok (stf, infos) => .ok (stf, info :: infos)
      | .error e => .error e
    | .error e => .error e

/-- What one on-disk packet file of a single-writer stream looks like: its
name carries a sequence number `s ≤ n`, and its content is the rendering of a
packet whose `ID` is `stream/<s:06d>` and whose `PARENT` is the `ID` of the
previous packet (`null` for `s = 1`). -/
def pFileFact (stream : Str) (n : Nat) (f : Str × Str) : Prop :=
  ∃ s p, matchPacketName f.1 = some s ∧ 1 ≤ s ∧ s ≤ n ∧
    f.2 = renderPacket p ∧ p.ID = stream ++ tS "/" ++ pad6 s ∧
    p.PARENT = (if s = 1 then none else some (stream ++ tS "/" ++ pad6 (s - 1)))

/-- The single-writer invariant after `k` successful calls on `stream`,
starting from a root without the stream's directory: either nothing has been
written yet, or the directory holds exactly the packet run `1..k` and its
latest file re-reads as a validated, wire-canonical packet with
`ID = stream/<k:06d>`. -/
def StreamInv (stream : Str) (k : Nat) (st : RootState) : Prop :=
  match st.streams.find? (fun e => e.1 = stream) with
  | none => k = 0
  | some e =>
    e.1 = stream ∧ 1 ≤ k ∧
    listSequences e.2 = List.range' 1 k ∧
    (∀ f ∈ e.2.files, pFileFact stream k f) ∧
    ∃ sfx pk,
      (listPacketFiles e.2).getLast? = some (pad6 k ++ tS "." ++ sfx ++ tS ".atp") ∧
      e.2.files.find? (fun f => f.1 = pad6 k ++ tS "." ++ sfx ++ tS ".atp") =
        some (pad6 k ++ tS "." ++ sfx ++ tS ".atp", renderPacket pk) ∧
      pk.ID = stream ++ tS "/" ++ pad6 k ∧
      validatePacket pk = .ok () ∧ wireCanonB pk = true

/-- The starting point of a single-writer run, `k` calls in: either the
genuine invariant holds, or nothing has been written yet and the stream's
directory exists but holds no files (`write_packet` tolerates both). -/
def StreamInv0 (stream : Str) (k : Nat) (st : RootState) : Prop :=
  StreamInv stream k st ∨
  (k = 0 ∧ ∃ d, st.streams.find? (fun e => e.1 = stream) = some (stream, d) ∧
    d.files = [])

/-! ## Concrete fixtures for counterexamples and witnesses -/

/-- A root with no streams at all. -/
def stEmptyRoot : RootState := ⟨none, [], [], []⟩

/-- A three-call single-writer run: two writes, then an approval. -/
def opsC5 : List SeqOp :=
  [SeqOp.write (tS "PLAN") (tS "draft the plan") (tS "2024-03-01T00:00:01Z") (tS "clean"),
   SeqOp.write (tS "EXEC") (tS "run the plan") (tS "2024-03-01T00:00:02Z") (tS "clean"),
   SeqOp.approve (tS "looks good") (tS "2024-03-01T00:00:03Z")
     (tS "2024-03-01T00:00:04Z") (tS "clean")]

/-- The packet of stream `s6`'s only write, for the approval witness. -/
def pkC6 : Packet :=
  buildPacketRecord (tS "PLAN") (tS "demo") 1 (tS "s6") (tS "2024-03-01T00:00:01Z")
    (tS "clean")

/-- Stream `s6`'s directory: exactly one written packet, no events yet. -/
def dC6 : StreamDir :=
  ⟨[(pad6 1 ++ tS "." ++ tS "request" ++ tS ".atp", renderPacket pkC6)], none⟩

/-- A root whose only stream is `s6`. -/
def stC6 : RootState := ⟨none, [(tS "s6", dC6)], [], []⟩

/-- A minimal valid packet text (headers plus a one-line body). -/
def pktText (id ts parent : String) : Str :=
  tS ("ATP/0.1\nID: " ++ id ++ "\nTS: " ++ ts ++ "\nMODE: PLAN\nTASK: t\nSTATE: g\nPARENT: "
    ++ parent ++ "\nETAG: null\nTOOLS: read\nAPPROVAL: none\nFAIL_CLASS: NONE\n\nGOAL: g\n")

/-- A rich wire-canonical packet: nullable headers populated, two tools, items
in every body section, two manifests and a fractional confidence. -/
def pCanon : Packet :=
  ⟨tS "ATP/0.1", tS "s1/000007", tS "2024-02-01T10:00:01Z", tS "PLAN", tS "demo task",
   tS "WORKING", some (tS "s1/000006"), some (tS "abc123"), [tS "read", tS "write"],
   tS "requested", tS "NONE", tS "ship the feature", [tS "step one", tS "step two"],
   [tS "next thing"], [tS "a risk"], [tS "done when green"], [tS "open question"],
   [tS "out/a.txt", tS "out/b.txt"], some (1/2)⟩

/-- A packet that passes `validate_packet` but whose `goal` carries a trailing
space the wire cannot preserve. -/
def pTrail : Packet :=
  ⟨tS "ATP/0.1", tS "s", tS "t", tS "PLAN", tS "k", tS "W", none, none, [],
   tS "none", tS "NONE", tS "g ", [], [], [], [], [], [], none⟩

/-- A stream whose packet chain forked at `s/000001` (children `s/000002` and
`s/000003`) but whose latest packet `s/000004` sits on an unforked tip. -/
def forkDir : StreamDir :=
  ⟨[(tS "000001.request.atp", pktText "s/000001" "2024-02-01T10:00:01Z" "null"),
    (tS "000002.request.atp", pktText "s/000002" "2024-02-01T10:00:02Z" "s/000001"),
    (tS "000003.request.atp", pktText "s/000003" "2024-02-01T10:00:03Z" "s/000001"),
    (tS "000004.request.atp", pktText "s/000004" "2024-02-01T10:00:04Z" "s/000003")], none⟩

/-- The index entry for `forkDir`. -/
def forkEntry : IndexEntry :=
  ⟨some 4, [tS "000001.request.atp", tS "000002.request.atp",
            tS "000003.request.atp", tS "000004.request.atp"]⟩

/-- A root containing exactly the forked stream, with a matching index. -/
def forkState : RootState :=
  ⟨some ⟨[(tS "s", forkEntry)]⟩, [(tS "s", forkDir)], [], []⟩

/-- A root with one single-packet stream and a faithful index. -/
def oneDir : StreamDir :=
  ⟨[(tS "000001.request.atp", pktText "s/000001" "2024-02-01T10:00:01Z" "null")], none⟩

/-- Its faithful persisted index. -/
def oneEntry : IndexEntry := ⟨some 1, [tS "000001.request.atp"]⟩

/-- Root A of the two-run experiment: faithful index. -/
def c3StateA : RootState :=
  ⟨some ⟨[(tS "s", oneEntry)]⟩, [(tS "s", oneDir)], [], []⟩

/-- Root B of the two-run experiment: byte-identical `streams/` tree, but a
stale (empty) persisted `index.json`. -/
def c3StateB : RootState :=
  ⟨some ⟨[]⟩, [(tS "s", oneDir)], [], []⟩

/-- A validation-passing packet whose `TASK` carries a trailing space (the
wire strips it back off). -/
def pTrailingSpace : Packet :=
  ⟨tS "ATP/0.1", tS "s/000001", tS "2026-01-01T00:00:00+00:00", tS "PLAN", tS "x ",
   tS "g", none, none, [], tS "none", tS "NONE", tS "g", [], [], [], [], [], [], none⟩

/-- A root with one stream whose only packet has an unparseable `TS` and no
`events.jsonl` (so no stream contributes a timestamp). -/
def noTsDir : StreamDir :=
  ⟨[(tS "000001.request.atp",
     tS "ATP/0.1\nID: s/000001\nTS: sometime\nMODE: PLAN\nTASK: t\nSTATE: g\nPARENT: null\nETAG: null\nTOOLS: read\nAPPROVAL: requested\nFAIL_CLASS: NONE\n\nGOAL: g\n")],
   none⟩

/-- Root for the epoch-fallback witness. -/
def noTsState : RootState :=
  ⟨some ⟨[(tS "s", ⟨some 1, [tS "000001.request.atp"]⟩)]⟩, [(tS "s", noTsDir)], [], []⟩

/-- Identical relative content bundled from two absolute locations. -/
def c1RelFiles : List (Str × List Nat) :=
  [(tS "f.txt", utf8 (tS "hi"))]

/-- A minimal packet file content for the `update_etag` witness (no ETAG
header line yet, so the first call inserts one). -/
def etagContent : Str :=
  tS "ATP/0.1\nID: x\n\nGOAL: g\n"

/-- The parsed form of `oneDir`'s only packet. -/
def onePacket : Packet :=
  ⟨tS "ATP/0.1", tS "s/000001", tS "2024-02-01T10:00:01Z", tS "PLAN", tS "t", tS "g",
   none, none, [tS "read"], tS "none", tS "NONE", tS "g", [], [], [], [], [], [], none⟩

/-- Root A with unrelated extra files outside `streams/` and the index. -/
def c3StateC : RootState :=
  ⟨some ⟨[(tS "s", oneEntry)]⟩, [(tS "s", oneDir)], [], [(tS "notes.txt", tS "z")]⟩

/-- A per-stream summary result that contributes no timestamp to `as_of`. -/
def noTsB : Except String (Option (StreamSummary × Option DTime)) → Bool
  | .ok (some (_, some _)) => false
  | _ => true

/-- Whether the stream `sid` of the persisted index contributes no timestamp. -/
def noTsFindB (st : RootState) (sid : Str) : Bool :=
  match (loadIndex st).streams.find? (fun x => x.1 = sid) with
  | none => true
  | some e => noTsB (summarizeStream st.streams st.existingPaths sid e.2)

/-- The snapshot `build_snapshot` produces on `noTsState`. -/
def noTsSnap : Snapshot :=
  ⟨tS "control-room-snapshot-v0", tS "1970-01-01T00:00:00Z", tS "Nominal", 0,
   [⟨tS "s", some 1, none, tS "pending", tS "requested", tS "s/000001", tS "NONE",
     [tS "000001.request.atp"], false, []⟩]⟩

/-! # Proofs

## String-operation lemmas -/

theorem isPrefixOf_iff {pat s : Str} : pat.isPrefixOf s = true ↔ ∃ t, s = pat ++ t := by
  induction pat generalizing s with
  | nil => simp [List.isPrefixOf]
  | cons c cs ih =>
    cases s with
    | nil => simp [List.isPrefixOf]
    | cons d ds =>
      simp only [List.isPrefixOf, Bool.and_eq_true, beq_iff_eq, ih, List.cons_append,
        List.cons.injEq]
      constructor
      · rintro ⟨rfl, t, rfl⟩; exact ⟨t, rfl, rfl⟩
      · rintro ⟨t, rfl, rfl⟩; exact ⟨rfl, t, rfl⟩

theorem isPrefixOf_eq_false_of_mem {pat s : Str} {c : Char} (hc : c ∈ pat) (hs : c ∉ s) :
    pat.isPrefixOf s = false := by
  rw [Bool.eq_false_iff]
  intro h
  obtain ⟨t, rfl⟩ := isPrefixOf_iff.mp h
  exact hs (List.mem_append_left t hc)

theorem replaceAllGo_of_not_mem {pat repl s : Str} {c : Char} (hc : c ∈ pat) (hs : c ∉ s) :
    ∀ f, replaceAllGo pat repl f s = s := by
  intro f
  induction f generalizing s with
  | zero => rfl
  | succ f ih =>
    cases s with
    | nil => rfl
    | cons d ds =>
      have hds : c ∉ ds := fun h => hs (List.mem_cons_of_mem d h)
      have hpre := isPrefixOf_eq_false_of_mem hc hs
      simp only [replaceAllGo]
      rw [if_neg (fun h => by rw [hpre] at h; exact absurd h.2 (by simp)), ih hds]

theorem replaceAll_of_not_mem {pat repl s : Str} {c : Char} (hc : c ∈ pat) (hs : c ∉ s) :
    replaceAll pat repl s = s :=
  replaceAllGo_of_not_mem hc hs s.length

theorem normalizeNL_of_no_cr {s : Str} (h : '\r' ∉ s) : normalizeNL s = s := by
  unfold normalizeNL
  rw [replaceAll_of_not_mem (by simp [tS]) h, replaceAll_of_not_mem (by simp [tS]) h]

theorem splitChar_ne_nil (c : Char) (s : Str) : splitChar c s ≠ [] := by
  cases s with
  | nil => simp [splitChar]
  | cons d ds =>
    simp only [splitChar]
    cases hsp : splitChar c ds <;> by_cases hd : d = c <;> simp [hd]

theorem splitChar_cons_eq {c d : Char} {ds h1 : Str} {t1 : List Str}
    (hsp : splitChar c ds = h1 :: t1) :
    splitChar c (d :: ds) = if d = c then [] :: h1 :: t1 else (d :: h1) :: t1 := by
  simp only [splitChar, hsp]

theorem splitChar_append_sep (c : Char) (a b : Str) :
    splitChar c (a ++ c :: b) = splitChar c a ++ splitChar c b := by
  induction a with
  | nil =>
    simp only [List.nil_append, splitChar]
    cases hb : splitChar c b with
    | nil => exact absurd hb (splitChar_ne_nil c b)
    | cons h t => simp
  | cons x xs ih =>
    simp only [List.cons_append, splitChar, ih]
    cases h : splitChar c xs with
    | nil => exact absurd h (splitChar_ne_nil c xs)
    | cons h1 t1 =>
      cases hb : splitChar c b with
      | nil => exact absurd hb (splitChar_ne_nil c b)
      | cons h2 t2 => by_cases hx : x = c <;> simp [hx, ih, h, hb]

theorem splitChar_of_not_mem {c : Char} {s : Str} (h : c ∉ s) : splitChar c s = [s] := by
  induction s with
  | nil => rfl
  | cons d ds ih =>
    have hd : d ≠ c := fun hh => h (hh ▸ List.mem_cons_self d ds)
    have hds : c ∉ ds := fun hh => h (List.mem_cons_of_mem d hh)
    simp only [splitChar, ih hds, if_neg hd]

theorem joinWith_splitChar (c : Char) (s : Str) : joinWith [c] (splitChar c s) = s := by
  induction s with
  | nil => rfl
  | cons d ds ih =>
    simp only [splitChar]
    rcases h : splitChar c ds with _ | ⟨h1, t1⟩
    · exact absurd h (splitChar_ne_nil c ds)
    · rw [h] at ih
      by_cases hd : d = c
      · subst hd
        simpa [joinWith] using ih
      · simp only [if_neg hd]
        cases t1 with
        | nil => simpa [joinWith] using ih
        | cons u us =>
          simp only [joinWith] at ih ⊢
          simp [← ih]

theorem splitChar_joinWith {c : Char} {ls : List Str} (hne : ls ≠ [])
    (h : ∀ l ∈ ls, c ∉ l) : splitChar c (joinWith [c] ls) = ls := by
  induction ls with
  | nil => exact absurd rfl hne
  | cons x xs ih =>
    cases xs with
    | nil =>
      simpa [joinWith] using splitChar_of_not_mem (h x (List.mem_cons_self x []))
    | cons y ys =>
      have hx : c ∉ x := h x (by simp)
      have hxs : ∀ l ∈ y :: ys, c ∉ l := fun l hl => h l (List.mem_cons_of_mem x hl)
      simp only [joinWith]
      rw [show x ++ [c] ++ joinWith [c] (y :: ys) = x ++ c :: joinWith [c] (y :: ys) by simp,
        splitChar_append_sep, splitChar_of_not_mem hx, ih (by simp) hxs]
      rfl

/-! ## Strip lemmas -/

theorem stripLeft_length_le (s : Str) : (stripLeft s).length ≤ s.length := by
  induction s with
  | nil => simp [stripLeft]
  | cons c cs ih =>
    simp only [stripLeft]
    split
    · exact le_trans ih (by simp)
    · simp

theorem stripLeft_suffix (s : Str) : stripLeft s <:+ s := by
  induction s with
  | nil => simp [stripLeft]
  | cons c cs ih =>
    simp only [stripLeft]
    split
    · exact ih.trans (List.suffix_cons c cs)
    · exact List.suffix_refl _

theorem stripRight_length_le (s : Str) : (stripRight s).length ≤ s.length := by
  simpa [stripRight] using stripLeft_length_le s.reverse

theorem pyStrip_eq_self_parts {s : Str} (h : pyStrip s = s) :
    stripLeft s = s ∧ stripRight s = s := by
  have hl := congrArg List.length h
  unfold pyStrip at hl
  have h1 := stripRight_length_le (stripLeft s)
  have h2 := stripLeft_length_le s
  have heq : stripLeft s = s := (stripLeft_suffix s).eq_of_length (by omega)
  refine ⟨heq, ?_⟩
  unfold pyStrip at h
  rwa [heq] at h

theorem stripLeft_cons_not_space {c : Char} {cs : Str} (h : ¬ pyIsSpace c = true) :
    stripLeft (c :: cs) = c :: cs := by
  simp [stripLeft, h]

theorem head_not_space_of_stripLeft_eq {c : Char} {cs : Str} (h : stripLeft (c :: cs) = c :: cs) :
    pyIsSpace c = false := by
  by_contra hc
  simp only [Bool.not_eq_false] at hc
  simp only [stripLeft, hc, if_true] at h
  have := stripLeft_length_le cs
  have : (c :: cs).length ≤ cs.length := h ▸ this
  simp at this

theorem stripRight_eq_self_rev {s : Str} :
    stripRight s = s ↔ stripLeft s.reverse = s.reverse := by
  unfold stripRight
  constructor
  · intro h
    have := congrArg List.reverse h
    simpa using this
  · intro h
    rw [h]; simp

theorem pyStrip_append_eq_self {a b : Str} (ha : pyStrip a = a) (hb : pyStrip b = b) :
    pyStrip (a ++ b) = a ++ b := by
  rcases pyStrip_eq_self_parts ha with ⟨hal, har⟩
  rcases pyStrip_eq_self_parts hb with ⟨hbl, hbr⟩
  cases a with
  | nil => simpa using hb
  | cons c cs =>
    cases b with
    | nil => simpa using ha
    | cons d ds =>
      have hc : pyIsSpace c = false := head_not_space_of_stripLeft_eq hal
      have hL : stripLeft ((c :: cs) ++ d :: ds) = (c :: cs) ++ d :: ds := by
        simp [stripLeft, hc]
      have hR : stripRight ((c :: cs) ++ d :: ds) = (c :: cs) ++ d :: ds := by
        rw [stripRight_eq_self_rev]
        rw [List.reverse_append]
        have hbrev : stripLeft (d :: ds).reverse = (d :: ds).reverse :=
          stripRight_eq_self_rev.mp hbr
        cases hrb : (d :: ds).reverse with
        | nil => simp at hrb
        | cons e es =>
          have he : pyIsSpace e = false := head_not_space_of_stripLeft_eq (hrb ▸ hbrev)
          simp [stripLeft, he]
      unfold pyStrip
      rw [hL, hR]

theorem strCanonB_iff {s : Str} :
    strCanonB s = true ↔ pyStrip s = s ∧ '\n' ∉ s ∧ '\r' ∉ s := by
  simp [strCanonB, and_assoc]

theorem strCanonB_append {a b : Str} (ha : strCanonB a = true) (hb : strCanonB b = true) :
    strCanonB (a ++ b) = true := by
  rw [strCanonB_iff] at ha hb ⊢
  refine ⟨pyStrip_append_eq_self ha.1 hb.1, ?_, ?_⟩
  · simp only [List.mem_append, not_or]; exact ⟨ha.2.1, hb.2.1⟩
  · simp only [List.mem_append, not_or]; exact ⟨ha.2.2, hb.2.2⟩

/-! ## First-occurrence split lemmas -/

theorem splitFirstSub_sound {pat s a b : Str} (h : splitFirstSub pat s = some (a, b)) :
    s = a ++ pat ++ b := by
  induction s generalizing a b with
  | nil =>
    unfold splitFirstSub at h
    split at h
    · next hp => simp_all
    · exact absurd h (by simp)
  | cons c cs ih =>
    unfold splitFirstSub at h
    split at h
    · next hp =>
      obtain ⟨t, ht⟩ := isPrefixOf_iff.mp hp
      simp only [Option.some.injEq, Prod.mk.injEq] at h
      rw [← h.1, ← h.2, ht]
      simp [List.drop_left]
    · next hp =>
      cases hrec : splitFirstSub pat cs with
      | none => rw [hrec] at h; exact absurd h (by simp)
      | some ab =>
        rw [hrec] at h
        cases ab with
        | mk a2 b2 =>
          simp only [Option.some.injEq, Prod.mk.injEq] at h
          rw [← h.1, ← h.2]
          simpa using ih hrec

/-- The chain condition "no two adjacent newlines". -/
def noNN (x y : Char) : Prop := ¬(x = '\n' ∧ y = '\n')

theorem splitFirstSub_two_nl {H B : Str}
    (hch : H.Chain' noNN) (hlast : H.getLast? ≠ some '\n') :
    splitFirstSub (tS "\n\n") (H ++ '\n' :: '\n' :: B) = some (H, B) := by
  induction H with
  | nil =>
    simp only [List.nil_append]
    unfold splitFirstSub
    rw [if_pos (by simp [tS, List.isPrefixOf])]
    simp [tS]
  | cons c H' ih =>
    have hnp : (tS "\n\n").isPrefixOf (c :: (H' ++ '\n' :: '\n' :: B)) = false := by
      rw [Bool.eq_false_iff]
      intro hp
      obtain ⟨t, ht⟩ := isPrefixOf_iff.mp hp
      simp only [tS] at ht
      have hc : c = '\n' := by
        have := congrArg (fun l => l.head?) ht
        simpa using this
      cases H' with
      | nil =>
        simp at hlast
        exact hlast hc
      | cons d ds =>
        have hd : d = '\n' := by
          have := congrArg (fun l => l.head?) (List.cons.inj ht).2
          simpa using this
        have := List.chain'_cons.mp hch
        exact this.1 ⟨hc, hd⟩
    rw [List.cons_append]
    unfold splitFirstSub
    rw [if_neg (by simp [hnp])]
    have hch' : H'.Chain' noNN := hch.tail
    have hlast' : H'.getLast? ≠ some '\n' := by
      cases H' with
      | nil => simp
      | cons d ds => rwa [List.getLast?_cons_cons] at hlast
    rw [ih hch' hlast']

theorem chainNN_of_no_nl {s : Str} (h : '\n' ∉ s) : s.Chain' noNN := by
  induction s with
  | nil => simp
  | cons c cs ih =>
    have hc : c ≠ '\n' := fun hh => h (hh ▸ List.mem_cons_self c cs)
    have hcs : '\n' ∉ cs := fun hh => h (List.mem_cons_of_mem c hh)
    cases cs with
    | nil => simp
    | cons d ds =>
      exact List.chain'_cons.mpr ⟨fun hh => hc hh.1, ih hcs⟩

theorem joinWith_ne_nil {ls : List Str} (h : ∀ l ∈ ls, l ≠ []) (hne : ls ≠ []) :
    joinWith (tS "\n") ls ≠ [] := by
  cases ls with
  | nil => exact absurd rfl hne
  | cons x xs =>
    cases xs with
    | nil => exact h x (by simp)
    | cons y ys =>
      simp only [joinWith]
      intro hh
      simp only [List.append_eq_nil] at hh
      exact absurd hh.1.1 (h x (by simp))

theorem joinWith_head {x : Str} {xs : List Str} (hx : x ≠ []) :
    (joinWith (tS "\n") (x :: xs)).head? = x.head? := by
  cases xs with
  | nil => rfl
  | cons y ys =>
    simp only [joinWith, List.append_assoc]
    cases x with
    | nil => exact absurd rfl hx
    | cons c cs => simp

/-- The joined header block of nonempty newline-free lines has no adjacent
newlines and does not end in a newline. -/
theorem header_block_good {ls : List Str} (h : ∀ l ∈ ls, '\n' ∉ l ∧ l ≠ []) (hne : ls ≠ []) :
    (joinWith (tS "\n") ls).Chain' noNN ∧
      (joinWith (tS "\n") ls).getLast? ≠ some '\n' := by
  induction ls with
  | nil => exact absurd rfl hne
  | cons x xs ih =>
    cases xs with
    | nil =>
      refine ⟨chainNN_of_no_nl (h x (by simp)).1, ?_⟩
      intro hl
      replace hl : List.getLast? x = some '\n' := hl
      have hmem : '\n' ∈ x := by
        have hxne : x ≠ [] := (h x (by simp)).2
        rw [List.getLast?_eq_getLast x hxne] at hl
        simp only [Option.some.injEq] at hl
        rw [← hl]
        exact List.getLast_mem hxne
      exact (h x (by simp)).1 hmem
    | cons y ys =>
      have hx := h x (by simp)
      have hrest : ∀ l ∈ y :: ys, '\n' ∉ l ∧ l ≠ [] :=
        fun l hl => h l (List.mem_cons_of_mem x hl)
      obtain ⟨ihc, ihl⟩ := ih hrest (by simp)
      have hjoin_ne : joinWith (tS "\n") (y :: ys) ≠ [] :=
        joinWith_ne_nil (fun l hl => (hrest l hl).2) (by simp)
      constructor
      · show List.Chain' noNN (x ++ tS "\n" ++ joinWith (tS "\n") (y :: ys))
        rw [List.append_assoc]
        rw [List.chain'_append]
        refine ⟨chainNN_of_no_nl hx.1, ?_, ?_⟩
        · show List.Chain' noNN ('\n' :: joinWith (tS "\n") (y :: ys))
          rw [List.chain'_cons']
          refine ⟨?_, ihc⟩
          intro z hz
          rw [joinWith_head (hrest y (by simp)).2] at hz
          intro hzz
          have : z ∈ y := by
            cases y with
            | nil => simp at hz
            | cons a as => simp at hz; simp [hz]
          exact (hrest y (by simp)).1 (hzz.2 ▸ this)
        · intro a ha z hz
          intro hazz
          have : a ∈ x := by
            have hxne : x ≠ [] := hx.2
            rw [List.getLast?_eq_getLast x hxne] at ha
            simp only [Option.mem_def, Option.some.injEq] at ha
            rw [← ha]
            exact List.getLast_mem hxne
          exact hx.1 (hazz.1 ▸ this)
      · show (x ++ tS "\n" ++ joinWith (tS "\n") (y :: ys)).getLast? ≠ some '\n'
        rw [List.append_assoc, List.getLast?_append_of_ne_nil _ (by simp [hjoin_ne]),
          List.getLast?_append_of_ne_nil _ hjoin_ne]
        exact ihl

/-! ## Normalisation and header-structure lemmas for `update_etag` -/

theorem replaceAllGo_cr_free : ∀ (f : Nat) (s : Str), s.length ≤ f →
    '\r' ∉ replaceAllGo (tS "\r") (tS "\n") f s := by
  intro f
  induction f with
  | zero =>
    intro s hs
    interval_cases hl : s.length
    · rw [List.length_eq_zero] at hl
      subst hl
      simp [replaceAllGo]
  | succ f ih =>
    intro s hs
    cases s with
    | nil => simp [replaceAllGo]
    | cons c cs =>
      simp only [replaceAllGo]
      by_cases hc : c = '\r'
      · rw [if_pos ⟨by simp [tS], by simp [tS, List.isPrefixOf, hc]⟩]
        simp only [tS, List.length_cons] at hs ⊢
        intro hmem
        rcases List.mem_append.mp hmem with h | h
        · simp at h
        · exact ih _ (by simpa using Nat.le_of_succ_le_succ hs) (by simpa using h)
      · rw [if_neg (fun hh => hc (by
          obtain ⟨t, ht⟩ := isPrefixOf_iff.mp hh.2
          have := congrArg (fun l => l.head?) ht
          simp [tS] at this
          exact this))]
        intro hmem
        rcases List.mem_cons.mp hmem with h | h
        · exact hc h.symm
        · exact ih cs (by simpa using Nat.le_of_succ_le_succ hs) h

theorem normalizeNL_cr_free (s : Str) : '\r' ∉ normalizeNL s := by
  unfold normalizeNL replaceAll
  exact replaceAllGo_cr_free _ _ le_rfl

/-- The prefix of a first-occurrence split at `"\n\n"` has no two adjacent
newlines and does not end in a newline. -/
theorem splitFirstSub_two_nl_inv {s a b : Str}
    (h : splitFirstSub (tS "\n\n") s = some (a, b)) :
    a.Chain' noNN ∧ a.getLast? ≠ some '\n' := by
  induction s generalizing a b with
  | nil =>
    unfold splitFirstSub at h
    rw [if_neg (by simp [tS])] at h
    exact absurd h (by simp)
  | cons c cs ih =>
    unfold splitFirstSub at h
    split at h
    · next hp =>
      simp only [Option.some.injEq, Prod.mk.injEq] at h
      rw [← h.1]
      simp
    · next hp =>
      cases hrec : splitFirstSub (tS "\n\n") cs with
      | none => rw [hrec] at h; exact absurd h (by simp)
      | some ab =>
        rw [hrec] at h
        cases ab with
        | mk a2 b2 =>
          simp only [Option.some.injEq, Prod.mk.injEq] at h
          obtain ⟨ha, hb⟩ := h
          subst hb
          rw [← ha]
          obtain ⟨ch2, hl2⟩ := ih hrec
          have hsound := splitFirstSub_sound hrec
          have hcne : ¬ (c = '\n' ∧ (a2 ++ tS "\n\n" ++ b2).head? = some '\n') := by
            intro ⟨hc, hh⟩
            apply hp
            subst hc
            rw [hsound]
            apply isPrefixOf_iff.mpr
            cases a2 with
            | nil => exact ⟨'\n' :: b2, by simp [tS]⟩
            | cons e es =>
              simp only [List.cons_append, List.head?_cons, Option.some.injEq] at hh
              subst hh
              exact ⟨es ++ tS "\n\n" ++ b2, by simp [tS]⟩
          constructor
          · cases ha2 : a2 with
            | nil => simp
            | cons e es =>
              rw [← ha2]
              apply List.chain'_cons'.mpr
              refine ⟨?_, ch2⟩
              intro y hy
              intro ⟨hc, hyy⟩
              apply hcne
              refine ⟨hc, ?_⟩
              rw [ha2] at hy ⊢
              simp only [List.head?_cons, Option.mem_def, Option.some.injEq] at hy
              simp only [List.cons_append, List.head?_cons, Option.some.injEq]
              rw [hy, hyy]
          · cases ha2 : a2 with
            | nil =>
              simp only [List.getLast?_singleton, ne_eq, Option.some.injEq]
              intro hc
              apply hcne
              rw [ha2]
              refine ⟨hc, ?_⟩
              simp [tS]
            | cons e es =>
              rw [List.getLast?_cons_cons]
              rw [ha2] at hl2
              exact hl2

/-- Pieces of a split never contain the separator. -/
theorem splitChar_pieces_no_sep (c : Char) (s : Str) :
    ∀ l ∈ splitChar c s, c ∉ l := by
  induction s with
  | nil => simp [splitChar]
  | cons d ds ih =>
    simp only [splitChar]
    cases hsp : splitChar c ds with
    | nil => exact absurd hsp (splitChar_ne_nil c ds)
    | cons h1 t1 =>
      by_cases hd : d = c
      · simp only [if_pos hd]
        intro l hl
        rcases List.mem_cons.mp hl with rfl | hl2
        · simp
        · exact ih l (hsp ▸ hl2)
      · simp only [if_neg hd]
        intro l hl
        rcases List.mem_cons.mp hl with rfl | hl2
        · have := ih h1 (by simp [hsp])
          intro hmem
          rcases List.mem_cons.mp hmem with h | h
          · exact hd h.symm
          · exact this h
        · exact ih l (by simp [hsp, hl2])

/-- In the split of a header with no adjacent newlines that does not end in a
newline, every piece after the first is nonempty. -/
theorem splitChar_tail_pieces {H : Str} (hch : H.Chain' noNN)
    (hlast : H.getLast? ≠ some '\n') :
    ∀ l ∈ (splitChar '\n' H).tail, l ≠ [] := by
  induction H with
  | nil => simp [splitChar]
  | cons c H' ih =>
    have hch' : H'.Chain' noNN := hch.tail
    have hlast' : H'.getLast? ≠ some '\n' := by
      cases H' with
      | nil => simp
      | cons d ds => rwa [List.getLast?_cons_cons] at hlast
    simp only [splitChar]
    cases hsp : splitChar '\n' H' with
    | nil => exact absurd hsp (splitChar_ne_nil '\n' H')
    | cons h1 t1 =>
      by_cases hc : c = '\n'
      · simp only [if_pos hc]
        intro l hl
        simp only [List.tail_cons] at hl
        rcases List.mem_cons.mp hl with rfl | hl2
        · -- first piece of H' must be nonempty
          cases H' with
          | nil =>
            exfalso
            apply hlast
            simp [hc]
          | cons d ds =>
            have hd : d ≠ '\n' := by
              intro hdd
              exact (List.chain'_cons.mp hch).1 ⟨hc, hdd⟩
            obtain ⟨h2, t2, hs2⟩ : ∃ h2 t2, splitChar '\n' (d :: ds) = (d :: h2) :: t2 := by
              cases hsp2 : splitChar '\n' ds with
              | nil => exact absurd hsp2 (splitChar_ne_nil '\n' ds)
              | cons a2 as2 =>
                exact ⟨a2, as2, by rw [splitChar_cons_eq hsp2, if_neg hd]⟩
            rw [hs2] at hsp
            have hh := (List.cons.inj hsp).1
            intro hl0
            rw [hl0] at hh
            simp at hh
        · exact ih hch' hlast' l (by simp [hsp, hl2])
      · simp only [if_neg hc]
        intro l hl
        simp only [List.tail_cons] at hl
        exact ih hch' hlast' l (by simp [hsp, hl])

/-- The last piece of the split of a nonempty string not ending in the
separator is nonempty. -/
theorem splitChar_last_piece {c : Char} : ∀ {s : Str}, s ≠ [] → s.getLast? ≠ some c →
    (splitChar c s).getLast? ≠ some [] := by
  intro s
  induction s with
  | nil => intro h; exact absurd rfl h
  | cons d ds ih =>
    intro _ hlast
    cases ds with
    | nil =>
      have hd : d ≠ c := by simpa using hlast
      simp [splitChar, if_neg hd]
    | cons e es =>
      have hlast' : (e :: es).getLast? ≠ some c := by
        rwa [List.getLast?_cons_cons] at hlast
      have hrec := ih (by simp) hlast'
      cases hsp : splitChar c (e :: es) with
      | nil => exact absurd hsp (splitChar_ne_nil c (e :: es))
      | cons h1 t1 =>
        rw [hsp] at hrec
        rw [splitChar_cons_eq hsp]
        by_cases hd : d = c
        · simp only [if_pos hd]
          rw [List.getLast?_cons_cons]
          exact hrec
        · simp only [if_neg hd]
          cases t1 with
          | nil =>
            simp
          | cons u us =>
            rw [List.getLast?_cons_cons]
            rwa [List.getLast?_cons_cons] at hrec

/-- Joining newline-free pieces whose tail pieces are nonempty yields no
adjacent newlines. -/
theorem join_pieces_chain : ∀ (ls : List Str), (∀ l ∈ ls, '\n' ∉ l) →
    (∀ l ∈ ls.tail, l ≠ []) → (joinWith (tS "\n") ls).Chain' noNN
  | [], _, _ => by simp [joinWith]
  | [x], h, _ => chainNN_of_no_nl (h x (by simp))
  | x :: y :: ys, h, ht => by
    have hy : y ≠ [] := ht y (by simp)
    have hrest : ∀ l ∈ y :: ys, '\n' ∉ l := fun l hl => h l (List.mem_cons_of_mem x hl)
    have htrest : ∀ l ∈ (y :: ys).tail, l ≠ [] :=
      fun l hl => ht l (by simp only [List.tail_cons] at hl ⊢; exact List.mem_cons_of_mem y hl)
    have ihc := join_pieces_chain (y :: ys) hrest htrest
    show List.Chain' noNN (x ++ tS "\n" ++ joinWith (tS "\n") (y :: ys))
    rw [List.append_assoc, List.chain'_append]
    refine ⟨chainNN_of_no_nl (h x (by simp)), ?_, ?_⟩
    · show List.Chain' noNN ('\n' :: joinWith (tS "\n") (y :: ys))
      rw [List.chain'_cons']
      refine ⟨?_, ihc⟩
      intro z hz
      rw [joinWith_head hy] at hz
      intro hzz
      have : z ∈ y := by
        cases y with
        | nil => simp at hz
        | cons a as => simp at hz; simp [hz]
      exact hrest y (by simp) (hzz.2 ▸ this)
    · intro a ha z hz hazz
      have : a ∈ x := by
        cases hx : x with
        | nil => rw [hx] at ha; simp at ha
        | cons u us =>
          rw [hx] at ha
          rw [List.getLast?_eq_getLast _ (by simp)] at ha
          simp only [Option.mem_def, Option.some.injEq] at ha
          rw [← ha]
          exact List.getLast_mem (by simp)
      exact h x (by simp) (hazz.1 ▸ this)

/-- A join of newline-free pieces whose last piece is nonempty does not end
in a newline. -/
theorem join_pieces_last : ∀ (ls : List Str), (∀ l ∈ ls, '\n' ∉ l) →
    ls.getLast? ≠ some [] → (joinWith (tS "\n") ls).getLast? ≠ some '\n'
  | [], _, _ => by simp [joinWith]
  | [x], h, hl => by
    simp only [joinWith]
    intro hh
    cases hx : x with
    | nil => rw [hx] at hh; simp at hh
    | cons u us =>
      rw [hx, List.getLast?_eq_getLast _ (by simp)] at hh
      simp only [Option.some.injEq] at hh
      exact h x (by simp) (by rw [hx, ← hh]; exact List.getLast_mem (by simp))
  | x :: y :: ys, h, hl => by
    have hrest : ∀ l ∈ y :: ys, '\n' ∉ l := fun l hll => h l (List.mem_cons_of_mem x hll)
    have hlrest : (y :: ys).getLast? ≠ some [] := by
      rwa [List.getLast?_cons_cons] at hl
    have ihl := join_pieces_last (y :: ys) hrest hlrest
    have hjne : joinWith (tS "\n") (y :: ys) ≠ [] := by
      cases ys with
      | nil =>
        simp only [joinWith]
        intro hy
        rw [hy] at hlrest
        simp at hlrest
      | cons z zs =>
        simp only [joinWith]
        intro hy
        simp only [List.append_eq_nil] at hy
        simp [tS] at hy
    show (x ++ tS "\n" ++ joinWith (tS "\n") (y :: ys)).getLast? ≠ some '\n'
    rw [List.append_assoc, List.getLast?_append_of_ne_nil _ (by simp [hjne]),
      List.getLast?_append_of_ne_nil _ hjne]
    exact ihl

/-- Every character of a hex digest is one of the sixteen hex characters. -/
theorem sha256Hex_chars {m : List Nat} : ∀ c ∈ sha256Hex m, c ∈ tS "0123456789abcdef" := by
  intro c hc
  unfold sha256Hex at hc
  rw [List.mem_flatMap] at hc
  obtain ⟨w, _, hcw⟩ := hc
  unfold wordHex at hcw
  rw [List.mem_map] at hcw
  obtain ⟨i, _, hci⟩ := hcw
  have h16 : w >>> (4 * (7 - i)) % 16 < 16 := Nat.mod_lt _ (by omega)
  rw [← hci]
  unfold hexChar
  generalize w >>> (4 * (7 - i)) % 16 = d at h16
  interval_cases d <;> decide

/-- A string with no whitespace characters strips to itself. -/
theorem pyStrip_eq_self_of_no_space {s : Str} (h : ∀ c ∈ s, pyIsSpace c = false) :
    pyStrip s = s := by
  have hl : ∀ (t : Str), (∀ c ∈ t, pyIsSpace c = false) → stripLeft t = t := by
    intro t ht
    cases t with
    | nil => rfl
    | cons c cs => exact stripLeft_cons_not_space (by simp [ht c (by simp)])
  have hr : stripRight s = s :=
    stripRight_eq_self_rev.mpr (hl s.reverse (fun c hc => h c (List.mem_reverse.mp hc)))
  unfold pyStrip
  rw [hl s h, hr]

/-- Digest characters are never newlines, carriage returns, or spaces. -/
theorem sha256Hex_char_props {m : List Nat} :
    '\n' ∉ sha256Hex m ∧ '\r' ∉ sha256Hex m ∧ pyStrip (sha256Hex m) = sha256Hex m := by
  have hmem := @sha256Hex_chars m
  have hprops : ∀ c ∈ tS "0123456789abcdef", c ≠ '\n' ∧ c ≠ '\r' ∧ pyIsSpace c = false := by
    decide
  exact ⟨fun h => (hprops _ (hmem _ h)).1 rfl,
    fun h => (hprops _ (hmem _ h)).2.1 rfl,
    pyStrip_eq_self_of_no_space (fun c hc => (hprops c (hmem c hc)).2.2)⟩

theorem joinWith_append_last {ls : List Str} (x : Str) (hne : ls ≠ []) :
    joinWith (tS "\n") (ls ++ [x]) = joinWith (tS "\n") ls ++ '\n' :: x := by
  induction ls with
  | nil => exact absurd rfl hne
  | cons y ys ih =>
    cases ys with
    | nil => simp [joinWith, tS]
    | cons z zs =>
      have hi := ih (by simp)
      show y ++ tS "\n" ++ joinWith (tS "\n") ((z :: zs) ++ [x]) =
        (y ++ tS "\n" ++ joinWith (tS "\n") (z :: zs)) ++ '\n' :: x
      rw [hi, List.append_assoc, List.append_assoc, List.append_assoc]

theorem splitChar_pieces_subset (c : Char) (s : Str) :
    ∀ l ∈ splitChar c s, ∀ x ∈ l, x ∈ s := by
  induction s with
  | nil =>
    intro l hl
    simp only [splitChar, List.mem_singleton] at hl
    subst hl
    simp
  | cons d ds ih =>
    intro l hl x hx
    cases hsp : splitChar c ds with
    | nil => exact absurd hsp (splitChar_ne_nil c ds)
    | cons h1 t1 =>
      rw [splitChar_cons_eq hsp] at hl
      by_cases hd : d = c
      · rw [if_pos hd] at hl
        rcases List.mem_cons.mp hl with rfl | hl2
        · simp at hx
        · exact List.mem_cons_of_mem d (ih l (by simp [hsp, hl2]) x hx)
      · rw [if_neg hd] at hl
        rcases List.mem_cons.mp hl with rfl | hl2
        · rcases List.mem_cons.mp hx with rfl | hx2
          · simp
          · exact List.mem_cons_of_mem d (ih h1 (by simp [hsp]) x hx2)
        · exact List.mem_cons_of_mem d (ih l (by simp [hsp, hl2]) x hx)

theorem mem_joinWith {x : Char} : ∀ {ls : List Str}, x ∈ joinWith (tS "\n") ls →
    x = '\n' ∨ ∃ l ∈ ls, x ∈ l := by
  intro ls
  induction ls with
  | nil => intro h; simp [joinWith] at h
  | cons y ys ih =>
    cases ys with
    | nil =>
      intro h
      exact Or.inr ⟨y, by simp, h⟩
    | cons z zs =>
      intro h
      simp only [joinWith, List.append_assoc, List.mem_append] at h
      rcases h with h | h
      · exact Or.inr ⟨y, by simp, h⟩
      · rcases h with h2 | h2
        · left; simpa [tS] using h2
        · rcases ih h2 with h3 | ⟨l, hl, hxl⟩
          · exact Or.inl h3
          · exact Or.inr ⟨l, List.mem_cons_of_mem y hl, hxl⟩

/-- The ETAG substitution line is `ETAG:`-prefixed. -/
theorem etag_line_starts (d : Str) :
    pyStartsWith (tS "ETAG:") (tS "ETAG: " ++ d) = true := by
  apply isPrefixOf_iff.mpr
  exact ⟨' ' :: d, rfl⟩

/-- `splitPacket` applied to a well-formed `header ++ "\n\n" ++ body`. -/
theorem splitPacket_eq {H B : Str} (hch : H.Chain' noNN) (hlast : H.getLast? ≠ some '\n')
    (hcrH : '\r' ∉ H) (hcrB : '\r' ∉ B) :
    splitPacket (H ++ '\n' :: '\n' :: B) = .ok (H, B) := by
  unfold splitPacket
  rw [normalizeNL_of_no_cr (by
    intro hmem
    rcases List.mem_append.mp hmem with h | h
    · exact hcrH h
    · rcases List.mem_cons.mp h with h2 | h2
      · simp at h2
      · rcases List.mem_cons.mp h2 with h3 | h3
        · simp at h3
        · exact hcrB h3)]
  rw [splitFirstSub_two_nl hch hlast]

theorem joinWith_splitChar_nl (s : Str) : joinWith (tS "\n") (splitChar '\n' s) = s := by
  rw [show tS "\n" = ['\n'] from rfl]
  exact joinWith_splitChar '\n' s

theorem splitChar_joinWith_nl {ls : List Str} (hne : ls ≠ [])
    (h : ∀ l ∈ ls, '\n' ∉ l) : splitChar '\n' (joinWith (tS "\n") ls) = ls := by
  rw [show tS "\n" = ['\n'] from rfl]
  exact splitChar_joinWith hne h

/-- A second `update_etag` on a file whose header re-renders to itself
appends a duplicate `ETAG` line. -/
theorem updateEtag_stable_header {Hdr B : Str}
    (hsp : splitPacket (Hdr ++ '\n' :: '\n' :: B) = .ok (Hdr, B))
    (hstable : (splitChar '\n' Hdr).map
        (fun l => if pyStartsWith (tS "ETAG:") l then tS "ETAG: " ++ sha256Hex (utf8 B) else l) =
      splitChar '\n' Hdr) :
    updateEtag (Hdr ++ '\n' :: '\n' :: B) =
      .ok (sha256Hex (utf8 B),
        (Hdr ++ '\n' :: (tS "ETAG: " ++ sha256Hex (utf8 B))) ++ '\n' :: '\n' :: B) := by
  unfold updateEtag
  rw [hsp]
  show Except.ok _ = _
  rw [hstable, joinWith_splitChar_nl]
  rw [if_pos rfl]
  simp only [List.append_assoc, List.cons_append]
  rfl

/-- Shape facts about a substituted `ETAG: <digest>` line. -/
theorem etag_line_facts {m : List Nat} :
    '\n' ∉ (tS "ETAG: " ++ sha256Hex m) ∧ '\r' ∉ (tS "ETAG: " ++ sha256Hex m) ∧
      ('\n' :: (tS "ETAG: " ++ sha256Hex m)).getLast? ≠ some '\n' := by
  obtain ⟨hn, hr, _⟩ := @sha256Hex_char_props m
  refine ⟨?_, ?_, ?_⟩
  · intro hmem
    rcases List.mem_append.mp hmem with h | h
    · revert h; decide
    · exact hn h
  · intro hmem
    rcases List.mem_append.mp hmem with h | h
    · revert h; decide
    · exact hr h
  · rw [show ('\n' :: (tS "ETAG: " ++ sha256Hex m)) = ('\n' :: tS "ETAG: ") ++ sha256Hex m
      from rfl]
    cases hd : sha256Hex m with
    | nil => decide
    | cons c0 cs0 =>
      rw [List.getLast?_append_of_ne_nil _ (by simp)]
      rw [hd] at hn
      intro hl
      rw [List.getLast?_eq_getLast _ (by simp)] at hl
      simp only [Option.some.injEq] at hl
      exact hn (hl ▸ List.getLast_mem (by simp))

/-- C7: evidence for the `update_etag` idempotence defect.  Whenever a first
call succeeds, a second call returns the same digest but writes a changed
file: because `re.sub` returns a string equal to the header whenever every
`ETAG` line already carries the current digest, the code mistakes the
substitution for "no ETAG header present" and appends a duplicate
`ETAG: <digest>` line. -/
theorem c7_update_etag_not_idempotent (content d1 c1 : Str)
    (h : updateEtag content = .ok (d1, c1)) :
    ∃ c2, updateEtag c1 = .ok (d1, c2) ∧ c2 ≠ c1 := by
  unfold updateEtag at h
  cases hps : splitPacket content with
  | error e => rw [hps] at h; simp [bind, Except.bind] at h
  | ok pr =>
    obtain ⟨H, B⟩ := pr
    rw [hps] at h
    simp only [bind, Except.bind, Except.ok.injEq, Prod.mk.injEq] at h
    obtain ⟨hd1, hc1⟩ := h
    subst hd1
    -- structural facts about the first split
    unfold splitPacket at hps
    cases hfs : splitFirstSub (tS "\n\n") (normalizeNL content) with
    | none => rw [hfs] at hps; exact absurd hps (by simp)
    | some ab =>
      rw [hfs] at hps
      simp only [Except.ok.injEq] at hps
      have hab : ab = (H, B) := by rw [← hps]
      rw [hab] at hfs
      have hsound := splitFirstSub_sound hfs
      have hcr := normalizeNL_cr_free content
      rw [hsound] at hcr
      have hcrH : '\r' ∉ H := fun hm => hcr (by simp [hm])
      have hcrB : '\r' ∉ B := fun hm => hcr (by simp [hm])
      obtain ⟨hch, hlast⟩ := splitFirstSub_two_nl_inv hfs
      obtain ⟨hnE, hrE, hlastE⟩ := @etag_line_facts (utf8 B)
      have hfnl : ∀ l : Str, '\n' ∉ l →
          '\n' ∉ (if pyStartsWith (tS "ETAG:") l then tS "ETAG: " ++ sha256Hex (utf8 B) else l) := by
        intro l hl
        split
        · exact hnE
        · exact hl
      have hfne : ∀ l : Str, l ≠ [] →
          (if pyStartsWith (tS "ETAG:") l then tS "ETAG: " ++ sha256Hex (utf8 B) else l) ≠ [] := by
        intro l hl
        split
        · simp [tS]
        · exact hl
      have hLnoNL := splitChar_pieces_no_sep '\n' H
      have hLne := splitChar_ne_nil '\n' H
      by_cases hEq : joinWith (tS "\n")
          ((splitChar '\n' H).map
            (fun l => if pyStartsWith (tS "ETAG:") l then tS "ETAG: " ++ sha256Hex (utf8 B) else l)) = H
      · -- first call inserted a fresh ETAG line
        rw [if_pos hEq] at hc1
        have hmapL : (splitChar '\n' H).map
            (fun l => if pyStartsWith (tS "ETAG:") l then tS "ETAG: " ++ sha256Hex (utf8 B) else l) =
            splitChar '\n' H := by
          have hpieces : ∀ l ∈ (splitChar '\n' H).map
              (fun l => if pyStartsWith (tS "ETAG:") l then tS "ETAG: " ++ sha256Hex (utf8 B) else l),
              '\n' ∉ l := by
            intro l hl
            rw [List.mem_map] at hl
            obtain ⟨z, hz, hzl⟩ := hl
            rw [← hzl]
            exact hfnl z (hLnoNL z hz)
          calc (splitChar '\n' H).map _
              = splitChar '\n' (joinWith (tS "\n") ((splitChar '\n' H).map _)) :=
                (splitChar_joinWith_nl (by simpa using hLne) hpieces).symm
            _ = splitChar '\n' H := by rw [hEq]
        have hc1' : c1 = (H ++ '\n' :: (tS "ETAG: " ++ sha256Hex (utf8 B))) ++ '\n' :: '\n' :: B := by
          rw [← hc1]
          simp only [List.append_assoc, List.cons_append]
          rfl
        have hchH2 : (H ++ '\n' :: (tS "ETAG: " ++ sha256Hex (utf8 B))).Chain' noNN := by
          rw [List.chain'_append]
          refine ⟨hch, ?_, ?_⟩
          · rw [List.chain'_cons']
            refine ⟨?_, chainNN_of_no_nl hnE⟩
            intro y hy
            have hyE : 'E' = y := by
              rw [show (tS "ETAG: " ++ sha256Hex (utf8 B)).head? = some 'E' from rfl] at hy
              simpa using hy
            intro hxy
            exact absurd (hyE.trans hxy.2) (by decide)
          · intro x hx y hy
            intro hxy
            exact hlast (by rw [← hxy.1]; exact hx)
        have hlastH2 : (H ++ '\n' :: (tS "ETAG: " ++ sha256Hex (utf8 B))).getLast? ≠ some '\n' := by
          rw [List.getLast?_append_of_ne_nil _ (by simp)]
          exact hlastE
        have hcrH2 : '\r' ∉ H ++ '\n' :: (tS "ETAG: " ++ sha256Hex (utf8 B)) := by
          intro hm
          rcases List.mem_append.mp hm with hm2 | hm2
          · exact hcrH hm2
          · rcases List.mem_cons.mp hm2 with hm3 | hm3
            · simp at hm3
            · exact hrE hm3
        have hsp2 := splitPacket_eq hchH2 hlastH2 hcrH2 hcrB
        have hstable2 : (splitChar '\n' (H ++ '\n' :: (tS "ETAG: " ++ sha256Hex (utf8 B)))).map
            (fun l => if pyStartsWith (tS "ETAG:") l then tS "ETAG: " ++ sha256Hex (utf8 B) else l) =
            splitChar '\n' (H ++ '\n' :: (tS "ETAG: " ++ sha256Hex (utf8 B))) := by
          rw [splitChar_append_sep, splitChar_of_not_mem hnE, List.map_append, hmapL]
          simp only [List.map_cons, List.map_nil]
          rw [if_pos (etag_line_starts (sha256Hex (utf8 B)))]
        have happ := updateEtag_stable_header hsp2 hstable2
        refine ⟨_, by rw [hc1']; exact happ, ?_⟩
        rw [hc1']
        intro heq
        have := congrArg List.length heq
        simp only [List.length_append, List.length_cons] at this
        omega
      · -- first call replaced an existing ETAG line
        rw [if_neg hEq] at hc1
        have hHne : H ≠ [] := by
          intro hHnil
          apply hEq
          rw [hHnil]
          rfl
        have htail := splitChar_tail_pieces hch hlast
        have hlastP := splitChar_last_piece hHne hlast
        have hpieces : ∀ l ∈ (splitChar '\n' H).map
            (fun l => if pyStartsWith (tS "ETAG:") l then tS "ETAG: " ++ sha256Hex (utf8 B) else l),
            '\n' ∉ l := by
          intro l hl
          rw [List.mem_map] at hl
          obtain ⟨z, hz, hzl⟩ := hl
          rw [← hzl]
          exact hfnl z (hLnoNL z hz)
        have htail2 : ∀ l ∈ ((splitChar '\n' H).map
            (fun l => if pyStartsWith (tS "ETAG:") l then tS "ETAG: " ++ sha256Hex (utf8 B) else l)).tail,
            l ≠ [] := by
          cases hLc : splitChar '\n' H with
          | nil => exact absurd hLc hLne
          | cons p ps =>
            simp only [List.map_cons, List.tail_cons]
            intro l hl
            rw [List.mem_map] at hl
            obtain ⟨z, hz, hzl⟩ := hl
            rw [← hzl]
            refine hfne z ?_
            refine htail z ?_
            rw [hLc]
            simpa using hz
        have hlast2 : ((splitChar '\n' H).map
            (fun l => if pyStartsWith (tS "ETAG:") l then tS "ETAG: " ++ sha256Hex (utf8 B) else l)).getLast?
            ≠ some [] := by
          rw [List.getLast?_map]
          cases hgl : (splitChar '\n' H).getLast? with
          | none => simp
          | some z =>
            have hzne : z ≠ [] := fun hz0 => hlastP (by rw [hgl, hz0])
            simp only [Option.map_some']
            intro hxx
            simp only [Option.some.injEq] at hxx
            exact hfne z hzne hxx
        have hchU := join_pieces_chain _ hpieces htail2
        have hlastU := join_pieces_last _ hpieces hlast2
        have hcrU : '\r' ∉ joinWith (tS "\n") ((splitChar '\n' H).map
            (fun l => if pyStartsWith (tS "ETAG:") l then tS "ETAG: " ++ sha256Hex (utf8 B) else l)) := by
          intro hm
          rcases mem_joinWith hm with h1 | ⟨l, hl, hxl⟩
          · exact absurd h1 (by decide)
          · rw [List.mem_map] at hl
            obtain ⟨z, hz, hzl⟩ := hl
            rw [← hzl] at hxl
            revert hxl
            split
            · exact fun hxl => hrE hxl
            · exact fun hxl => hcrH (splitChar_pieces_subset '\n' H z hz '\r' hxl)
        have hc1'' : c1 = joinWith (tS "\n") ((splitChar '\n' H).map
            (fun l => if pyStartsWith (tS "ETAG:") l then tS "ETAG: " ++ sha256Hex (utf8 B) else l)) ++
            '\n' :: '\n' :: B := by
          rw [← hc1]
          simp only [List.append_assoc]
          rfl
        have hsp2 := splitPacket_eq hchU hlastU hcrU hcrB
        have hstable2 : (splitChar '\n' (joinWith (tS "\n") ((splitChar '\n' H).map
            (fun l => if pyStartsWith (tS "ETAG:") l then tS "ETAG: " ++ sha256Hex (utf8 B) else l)))).map
            (fun l => if pyStartsWith (tS "ETAG:") l then tS "ETAG: " ++ sha256Hex (utf8 B) else l) =
            splitChar '\n' (joinWith (tS "\n") ((splitChar '\n' H).map
            (fun l => if pyStartsWith (tS "ETAG:") l then tS "ETAG: " ++ sha256Hex (utf8 B) else l))) := by
          rw [splitChar_joinWith_nl (by simpa using hLne) hpieces]
          rw [List.map_map]
          apply List.map_congr_left
          intro z _
          simp only [Function.comp_apply]
          by_cases hpz : pyStartsWith (tS "ETAG:") z = true
          · rw [if_pos hpz, if_pos (etag_line_starts (sha256Hex (utf8 B)))]
          · rw [if_neg hpz, if_neg hpz]
        have happ := updateEtag_stable_header hsp2 hstable2
        refine ⟨_, by rw [hc1'']; exact happ, ?_⟩
        rw [hc1'']
        intro heq
        have := congrArg List.length heq
        simp only [List.length_append, List.length_cons] at this
        omega

/-! ## C1: the bundle hash and absolute paths -/

/-- C1: the artifact hash is NOT a function of the (relative path, bytes)
pairs alone.  `hash_files` feeds `str(path)` — for a directory bundle the
resolved absolute path of each file — into SHA-256, so the byte stream it
hashes differs between two byte-identical trees mounted at `/alpha` and
`/beta`, even though their sorted (relative path, bytes) sets coincide. -/
theorem c1_bundle_hash_uses_absolute_paths :
    bundleHashDir (tS "/alpha") c1RelFiles =
      sha256Hex (bundleHasherInputDir (tS "/alpha") c1RelFiles) ∧
    bundleHasherInputDir (tS "/alpha") c1RelFiles =
      utf8 (tS "/alpha/f.txt") ++ [0] ++ utf8 (tS "hi") ∧
    bundleHasherInputDir (tS "/beta") c1RelFiles =
      utf8 (tS "/beta/f.txt") ++ [0] ++ utf8 (tS "hi") ∧
    bundleHasherInputDir (tS "/alpha") c1RelFiles ≠
      bundleHasherInputDir (tS "/beta") c1RelFiles :=
  ⟨rfl, by decide, by decide, by decide⟩

/-! ## C2: fork detection looks only at the latest packet's parent -/

/-- C2 (amended): `build_snapshot` computes `fork_children` as the children
recorded under the LATEST packet's own `PARENT` key, and `has_fork` as
whether that one list has more than one element — not whether any parent in
the stream's parent map has more than one child. -/
theorem c2_fork_from_latest_parent_only
    (streams : List (Str × StreamDir)) (ex : List Str) (sid : Str) (entry : IndexEntry)
    (parsed : List Packet) (packet : Packet)
    (hne : ¬ entry.packet_files = [])
    (hparse : entry.packet_files.mapM (fun f => parsePacketFileM streams sid f) = .ok parsed)
    (hlast : parsed.getLast? = some packet) :
    (summarizeStream streams ex sid entry).map
        (fun r => r.map (fun rt => (rt.1.has_fork, rt.1.fork_children))) =
      .ok (some
        (decide (1 < (pmLookup (streamParentMap parsed) (parentKey packet.PARENT)).length),
         pmLookup (streamParentMap parsed) (parentKey packet.PARENT))) := by
  unfold summarizeStream
  rw [if_neg hne, hparse]
  simp only [bind, Except.bind]
  rw [hlast]
  rfl

/-- Closed instance of the amended C2 theorem on a one-packet stream. -/
theorem c2_fork_from_latest_parent_only_witness :
    (summarizeStream c3StateA.streams c3StateA.existingPaths (tS "s") oneEntry).map
        (fun r => r.map (fun rt => (rt.1.has_fork, rt.1.fork_children))) =
      .ok (some
        (decide (1 < (pmLookup (streamParentMap [onePacket]) (parentKey onePacket.PARENT)).length),
         pmLookup (streamParentMap [onePacket]) (parentKey onePacket.PARENT))) :=
  c2_fork_from_latest_parent_only c3StateA.streams c3StateA.existingPaths (tS "s") oneEntry
    [onePacket] onePacket (by decide) (by decide) (by decide)

/-- C2 counterexample to the claimed rule: in `forkState` the parent map
built from all four packets records two children under `s/000001`, yet the
snapshot reports `has_fork = false` (the latest packet `s/000004` hangs off
the unforked parent `s/000003`). -/
theorem c2_earlier_fork_not_reported :
    ((forkEntry.packet_files.mapM (fun f => parsePacketFileM forkState.streams (tS "s") f)).map
        (fun parsed => (streamParentMap parsed).any (fun e => 1 < e.2.length)) = .ok true) ∧
    (buildSnapshot forkState).map (fun s => s.streams.map (fun r => r.has_fork)) =
      .ok [false] :=
  ⟨by decide, by decide⟩

/-! ## C3: the snapshot trusts the persisted index -/

/-- C3 (amended): the snapshot is a function of the persisted index file, the
`streams/` tree and the set of existing paths; the rest of the root (any
other files) cannot influence it. -/
theorem c3_snapshot_reads_only_index_and_streams (a b : RootState)
    (hidx : a.indexFile = b.indexFile) (hstr : a.streams = b.streams)
    (hex : a.existingPaths = b.existingPaths) :
    buildSnapshot a = buildSnapshot b := by
  unfold buildSnapshot snapshotFoldStep loadIndex
  rw [hidx, hstr, hex]

/-- Closed instance: two roots differing only in an unrelated extra file get
the same snapshot. -/
theorem c3_snapshot_reads_only_index_and_streams_witness :
    c3StateA.otherFiles ≠ c3StateC.otherFiles ∧
      buildSnapshot c3StateA = buildSnapshot c3StateC :=
  ⟨by decide, c3_snapshot_reads_only_index_and_streams c3StateA c3StateC rfl rfl rfl⟩

/-- C3 counterexample to the claimed noninterference: two roots with
byte-identical `streams/` trees (and existing-path sets) but different
persisted `index.json` contents produce different snapshots — `build_snapshot`
reads `load_index`, not `rebuild_index`. -/
theorem c3_stale_index_changes_snapshot :
    c3StateA.streams = c3StateB.streams ∧
    c3StateA.existingPaths = c3StateB.existingPaths ∧
    buildSnapshot c3StateA ≠ buildSnapshot c3StateB :=
  ⟨rfl, rfl, by decide⟩

/-! ## C7 witness -/

/-- Closed instance of the C7 defect on a concrete file: the first call
inserts the `ETAG` line, and the second call (same digest) changes the file
again. -/
theorem c7_update_etag_not_idempotent_witness :
    updateEtag etagContent =
      .ok (sha256Hex (utf8 (tS "GOAL: g\n")),
        (tS "ATP/0.1\nID: x" ++ '\n' :: (tS "ETAG: " ++ sha256Hex (utf8 (tS "GOAL: g\n")))) ++
          '\n' :: '\n' :: tS "GOAL: g\n") ∧
    (∃ c2,
      updateEtag
          ((tS "ATP/0.1\nID: x" ++ '\n' :: (tS "ETAG: " ++ sha256Hex (utf8 (tS "GOAL: g\n")))) ++
            '\n' :: '\n' :: tS "GOAL: g\n") =
        .ok (sha256Hex (utf8 (tS "GOAL: g\n")), c2) ∧
      c2 ≠ (tS "ATP/0.1\nID: x" ++ '\n' :: (tS "ETAG: " ++ sha256Hex (utf8 (tS "GOAL: g\n")))) ++
            '\n' :: '\n' :: tS "GOAL: g\n") := by
  have hhg := @header_block_good [tS "ATP/0.1", tS "ID: x"] (by decide) (by decide)
  rw [show joinWith (tS "\n") [tS "ATP/0.1", tS "ID: x"] = tS "ATP/0.1\nID: x" from by decide]
    at hhg
  have hsp : splitPacket (tS "ATP/0.1\nID: x" ++ '\n' :: '\n' :: tS "GOAL: g\n") =
      .ok (tS "ATP/0.1\nID: x", tS "GOAL: g\n") :=
    splitPacket_eq hhg.1 hhg.2 (by decide) (by decide)
  have hstable : (splitChar '\n' (tS "ATP/0.1\nID: x")).map
      (fun l => if pyStartsWith (tS "ETAG:") l then
        tS "ETAG: " ++ sha256Hex (utf8 (tS "GOAL: g\n")) else l) =
      splitChar '\n' (tS "ATP/0.1\nID: x") := by
    rw [show splitChar '\n' (tS "ATP/0.1\nID: x") = [tS "ATP/0.1", tS "ID: x"] from by decide]
    simp only [List.map_cons, List.map_nil]
    rw [if_neg (by decide : ¬ pyStartsWith (tS "ETAG:") (tS "ATP/0.1") = true),
      if_neg (by decide : ¬ pyStartsWith (tS "ETAG:") (tS "ID: x") = true)]
  have h1 := updateEtag_stable_header hsp hstable
  rw [show tS "ATP/0.1\nID: x" ++ '\n' :: '\n' :: tS "GOAL: g\n" = etagContent from by decide]
    at h1
  exact ⟨h1, c7_update_etag_not_idempotent etagContent _ _ h1⟩

/-! ## Inversion of `validate_packet` -/

theorem exceptBind_ok_inv {α β : Type} {x : Except String α} {k : α → Except String β} {b : β}
    (h : (x >>= k) = .ok b) : ∃ a, x = .ok a ∧ k a = .ok b := by
  cases x with
  | error e => simp [bind, Except.bind] at h
  | ok a => exact ⟨a, rfl, by simpa [bind, Except.bind] using h⟩

theorem requireString_bind {α : Type} {v : Str} {l : String} {k : Unit → Except String α}
    {u : α} (h : (requireString v l >>= k) = .ok u) :
    pyStrip v ≠ [] ∧ k () = .ok u := by
  obtain ⟨a, ha, hk⟩ := exceptBind_ok_inv h
  unfold requireString at ha
  constructor
  · intro hnil
    rw [if_pos hnil] at ha
    exact Except.noConfusion ha
  · cases a
    exact hk

theorem ite_error_ok {α : Type} {c : Prop} [Decidable c] {m : String}
    {rest : Except String α} {u : α}
    (h : (if c then Except.error m else rest) = .ok u) : ¬c ∧ rest = .ok u := by
  by_cases hc : c
  · rw [if_pos hc] at h
    exact absurd h (by simp)
  · rw [if_neg hc] at h
    exact ⟨hc, h⟩

/-- What `validate_packet` guarantees about the enum-valued headers. -/
theorem validatePacket_ok_inv {p : Packet} (hv : validatePacket p = .ok ()) :
    p.ATP = tS "ATP/0.1" ∧
    (p.APPROVAL = tS "none" ∨ p.APPROVAL = tS "requested" ∨
      p.APPROVAL = tS "granted_by_human") ∧
    (p.FAIL_CLASS = tS "NONE" ∨ p.FAIL_CLASS = tS "SPEC" ∨ p.FAIL_CLASS = tS "ENV" ∨
      p.FAIL_CLASS = tS "TEST" ∨ p.FAIL_CLASS = tS "LOGIC" ∨
      p.FAIL_CLASS = tS "INTEGRATION" ∨ p.FAIL_CLASS = tS "DATA" ∨
      p.FAIL_CLASS = tS "TOOLING") := by
  unfold validatePacket at hv
  obtain ⟨-, hv⟩ := requireString_bind hv
  obtain ⟨hATP, hv⟩ := ite_error_ok hv
  obtain ⟨-, hv⟩ := requireString_bind hv
  obtain ⟨-, hv⟩ := requireString_bind hv
  obtain ⟨-, hv⟩ := requireString_bind hv
  obtain ⟨-, hv⟩ := requireString_bind hv
  obtain ⟨-, hv⟩ := requireString_bind hv
  obtain ⟨hAPP, hv⟩ := ite_error_ok hv
  obtain ⟨hFC, hv⟩ := ite_error_ok hv
  exact ⟨not_not.mp hATP, not_not.mp hAPP, not_not.mp hFC⟩

/-! ## C8: the three derived statuses -/

/-- C8: for a packet that passed `validate_packet` (as every packet reaching
`derive_status` in `build_snapshot` has), the derived status is `"blocked"`
iff some manifest path is missing or `FAIL_CLASS` differs from `"NONE"`;
otherwise it is `"pending"` iff `APPROVAL = "requested"`; otherwise it is
`"running"`. -/
theorem c8_derive_status_cases (ex : List Str) (p : Packet)
    (hv : validatePacket p = .ok ()) :
    (deriveStatus ex p = tS "blocked" ↔
      ((∃ m ∈ p.manifests, m ∉ ex) ∨ p.FAIL_CLASS ≠ tS "NONE")) ∧
    (deriveStatus ex p ≠ tS "blocked" →
      (deriveStatus ex p = tS "pending" ↔ p.APPROVAL = tS "requested")) ∧
    (deriveStatus ex p ≠ tS "blocked" → deriveStatus ex p ≠ tS "pending" →
      deriveStatus ex p = tS "running") := by
  obtain ⟨-, -, hFC⟩ := validatePacket_ok_inv hv
  have hFCne : p.FAIL_CLASS ≠ [] := by
    rcases hFC with h | h | h | h | h | h | h | h <;> rw [h] <;> decide
  unfold deriveStatus
  by_cases hm : p.manifests.any (fun m => ¬ m ∈ ex) = true
  · rw [if_pos hm]
    refine ⟨⟨fun _ => ?_, fun _ => rfl⟩, fun hb => absurd rfl hb, fun hb _ => absurd rfl hb⟩
    left
    obtain ⟨m, hmem, hnm⟩ := List.any_eq_true.mp hm
    exact ⟨m, hmem, by simpa using hnm⟩
  · rw [if_neg hm]
    have hnone : ¬ ∃ m ∈ p.manifests, m ∉ ex := by
      rintro ⟨m, hmem, hnm⟩
      exact hm (List.any_eq_true.mpr ⟨m, hmem, by simpa using hnm⟩)
    by_cases hf : p.FAIL_CLASS ≠ [] ∧ p.FAIL_CLASS ≠ tS "NONE"
    · rw [if_pos hf]
      exact ⟨⟨fun _ => Or.inr hf.2, fun _ => rfl⟩, fun hb => absurd rfl hb,
        fun hb _ => absurd rfl hb⟩
    · rw [if_neg hf]
      have hfEq : p.FAIL_CLASS = tS "NONE" := by
        by_contra hne
        exact hf ⟨hFCne, hne⟩
      by_cases ha : p.APPROVAL = tS "requested"
      · rw [if_pos ha]
        refine ⟨⟨fun hb => absurd hb (by decide), fun hd => ?_⟩,
          fun _ => ⟨fun _ => ha, fun _ => rfl⟩, fun _ hp => absurd rfl hp⟩
        rcases hd with hd | hd
        · exact absurd hd hnone
        · exact absurd hfEq hd
      · rw [if_neg ha]
        refine ⟨⟨fun hb => absurd hb (by decide), fun hd => ?_⟩,
          fun _ => ⟨fun hp => absurd hp (by decide), fun hA => absurd hA ha⟩,
          fun _ _ => rfl⟩
        rcases hd with hd | hd
        · exact absurd hd hnone
        · exact absurd hfEq hd

/-- Closed instance of C8 on a validated packet. -/
theorem c8_derive_status_cases_witness :
    (deriveStatus [] onePacket = tS "blocked" ↔
      ((∃ m ∈ onePacket.manifests, m ∉ ([] : List Str)) ∨
        onePacket.FAIL_CLASS ≠ tS "NONE")) ∧
    (deriveStatus [] onePacket ≠ tS "blocked" →
      (deriveStatus [] onePacket = tS "pending" ↔ onePacket.APPROVAL = tS "requested")) ∧
    (deriveStatus [] onePacket ≠ tS "blocked" → deriveStatus [] onePacket ≠ tS "pending" →
      deriveStatus [] onePacket = tS "running") :=
  c8_derive_status_cases [] onePacket (by decide)

/-! ## C9: `safe_resolve` -/

theorem containsTraversal_of_raw {v : Str} (hbs : '\\' ∉ v)
    (h : pyStartsWith (tS "/") v = true ∨ (tS "..") ∈ splitChar '/' v) :
    containsTraversal v = true := by
  have hnorm : replaceAll (tS "\\") (tS "/") v = v :=
    replaceAll_of_not_mem (show ('\\' : Char) ∈ tS "\\" by decide) hbs
  unfold containsTraversal
  apply List.any_eq_true.mpr
  refine ⟨v, by simp, ?_⟩
  show (pyStartsWith (tS "/") (replaceAll (tS "\\") (tS "/") v) ||
      ((splitChar '/' (replaceAll (tS "\\") (tS "/") v)).filter (fun s => s ≠ [])).any
        (fun s => s = tS "..")) = true
  rw [hnorm]
  rcases h with h | h
  · rw [h, Bool.true_or]
  · rw [Bool.or_eq_true]
    right
    apply List.any_eq_true.mpr
    exact ⟨tS "..", List.mem_filter.mpr ⟨h, by decide⟩, by decide⟩

theorem containsTraversal_of_unquoted {v : Str} (hbs : '\\' ∉ unquote v)
    (h : pyStartsWith (tS "/") (unquote v) = true ∨ (tS "..") ∈ splitChar '/' (unquote v)) :
    containsTraversal v = true := by
  have hnorm : replaceAll (tS "\\") (tS "/") (unquote v) = unquote v :=
    replaceAll_of_not_mem (show ('\\' : Char) ∈ tS "\\" by decide) hbs
  unfold containsTraversal
  apply List.any_eq_true.mpr
  refine ⟨unquote v, by simp, ?_⟩
  show (pyStartsWith (tS "/") (replaceAll (tS "\\") (tS "/") (unquote v)) ||
      ((splitChar '/' (replaceAll (tS "\\") (tS "/") (unquote v))).filter (fun s => s ≠ [])).any
        (fun s => s = tS "..")) = true
  rw [hnorm]
  rcases h with h | h
  · rw [h, Bool.true_or]
  · rw [Bool.or_eq_true]
    right
    apply List.any_eq_true.mpr
    exact ⟨tS "..", List.mem_filter.mpr ⟨h, by decide⟩, by decide⟩

/-- C9: any part that is an absolute path, carries a `..` segment, or
percent-decodes to either, makes `safe_resolve` fail with the invalid-path
error; and any path it returns is the base or strictly inside it. -/
theorem c9_safe_resolve_safety (base parts : List Str) :
    (∀ part ∈ parts,
      ('\\' ∉ part ∧ (pyStartsWith (tS "/") part = true ∨ (tS "..") ∈ splitChar '/' part)) ∨
      ('\\' ∉ unquote part ∧
        (pyStartsWith (tS "/") (unquote part) = true ∨
          (tS "..") ∈ splitChar '/' (unquote part))) →
      safeResolve base parts = .error "Invalid path") ∧
    (∀ p, safeResolve base parts = .ok p →
      p = base ∨ (base.isPrefixOf p = true ∧ p ≠ base)) := by
  constructor
  · intro part hmem hcase
    have hct : containsTraversal part = true := by
      rcases hcase with ⟨hbs, h⟩ | ⟨hbs, h⟩
      · exact containsTraversal_of_raw hbs h
      · exact containsTraversal_of_unquoted hbs h
    unfold safeResolve
    rw [if_pos (List.any_eq_true.mpr ⟨part, hmem, hct⟩)]
  · intro p hok
    unfold safeResolve at hok
    by_cases h1 : parts.any containsTraversal = true
    · rw [if_pos h1] at hok
      exact Except.noConfusion hok
    · rw [if_neg h1] at hok
      by_cases h2 : resolveSegs (parts.foldl joinPart base) = base
      · rw [if_pos h2] at hok
        left
        simp only [Except.ok.injEq] at hok
        rw [← hok, h2]
      · rw [if_neg h2] at hok
        by_cases h3 : base.isPrefixOf (resolveSegs (parts.foldl joinPart base)) = true ∧
            base ≠ resolveSegs (parts.foldl joinPart base)
        · rw [if_pos h3] at hok
          right
          simp only [Except.ok.injEq] at hok
          rw [← hok]
          exact ⟨h3.1, fun hh => h3.2 hh.symm⟩
        · rw [if_neg h3] at hok
          exact Except.noConfusion hok

/-- Closed instance of C9: a percent-encoded traversal is rejected and a
plain relative part resolves strictly inside the base. -/
theorem c9_safe_resolve_safety_witness :
    safeResolve [tS "d"] [tS "%2e%2e%2f"] = .error "Invalid path" ∧
    ([tS "d", tS "x", tS "y"] = [tS "d"] ∨
      ([tS "d"].isPrefixOf [tS "d", tS "x", tS "y"] = true ∧
        [tS "d", tS "x", tS "y"] ≠ [tS "d"])) :=
  ⟨(c9_safe_resolve_safety [tS "d"] [tS "%2e%2e%2f"]).1 (tS "%2e%2e%2f") (by decide)
      (Or.inr ⟨by decide, Or.inr (by decide)⟩),
   (c9_safe_resolve_safety [tS "d"] [tS "x", tS "y"]).2 [tS "d", tS "x", tS "y"] (by decide)⟩

/-! ## C10: the epoch fallback for `as_of` -/

/-- The stream fold of `build_snapshot` keeps no timestamp when no visited
stream contributes one. -/
theorem snapshot_fold_no_ts (st : RootState) (sids : List Str)
    (h : ∀ sid ∈ sids, noTsFindB st sid = true) :
    ∀ (acc r : List StreamSummary × Option DTime), acc.2 = none →
      sids.foldlM (snapshotFoldStep st) acc = Except.ok r → r.2 = none := by
  induction sids with
  | nil =>
    intro acc r hacc hf
    rw [List.foldlM_nil] at hf
    have : acc = r := by simpa [pure, Except.pure] using hf
    rw [← this]
    exact hacc
  | cons sid rest ih =>
    intro acc r hacc hf
    have hrest : ∀ s ∈ rest, noTsFindB st s = true :=
      fun s hm => h s (List.mem_cons_of_mem _ hm)
    rw [List.foldlM_cons] at hf
    obtain ⟨init, hI, hK⟩ := exceptBind_ok_inv hf
    unfold snapshotFoldStep at hI
    have hns := h sid (List.mem_cons_self _ _)
    unfold noTsFindB at hns
    cases hfind : (loadIndex st).streams.find? (fun e => e.1 = sid) with
    | none =>
      rw [hfind] at hI
      replace hI : (Except.ok acc : Except String (List StreamSummary × Option DTime)) =
        Except.ok init := hI
      injection hI with hI
      subst hI
      exact ih hrest acc r hacc hK
    | some e =>
      rw [hfind] at hI hns
      replace hI : (do
          match ← summarizeStream st.streams st.existingPaths sid e.2 with
          | none => (Except.ok acc : Except String (List StreamSummary × Option DTime))
          | some (summary, newest) =>
            Except.ok (acc.1 ++ [summary], mergeLatest newest acc.2)) = Except.ok init := hI
      replace hns : noTsB (summarizeStream st.streams st.existingPaths sid e.2) = true := hns
      obtain ⟨o, hs, ho⟩ := exceptBind_ok_inv hI
      rw [hs] at hns
      cases o with
      | none =>
        replace ho : (Except.ok acc : Except String (List StreamSummary × Option DTime)) =
          Except.ok init := ho
        injection ho with ho
        subst ho
        exact ih hrest acc r hacc hK
      | some pr =>
        obtain ⟨summary, newest⟩ := pr
        cases newest with
        | some d => simp [noTsB] at hns
        | none =>
          replace ho : (Except.ok (acc.1 ++ [summary], mergeLatest none acc.2) :
              Except String (List StreamSummary × Option DTime)) = Except.ok init := ho
          injection ho with ho
          subst ho
          refine ih hrest _ r ?_ hK
          simp [mergeLatest, hacc]

/-- C10: when every stream of the persisted index contributes no parseable
timestamp (no events line and no parseable latest-packet `TS`), a successful
`build_snapshot` serialises `as_of` as exactly `1970-01-01T00:00:00Z`. -/
theorem c10_as_of_epoch_fallback (st : RootState) (snap : Snapshot)
    (hsnap : buildSnapshot st = .ok snap)
    (h : ∀ sid ∈ sortStr ((loadIndex st).streams.map (fun e => e.1)),
      noTsFindB st sid = true) :
    snap.as_of = tS "1970-01-01T00:00:00Z" := by
  unfold buildSnapshot at hsnap
  obtain ⟨folded, hfold, hk⟩ := exceptBind_ok_inv hsnap
  have hnone : folded.2 = none :=
    snapshot_fold_no_ts st (sortStr ((loadIndex st).streams.map (fun e => e.1))) h
      ([], none) folded rfl hfold
  simp only [Except.ok.injEq] at hk
  subst hk
  rw [hnone]
  show replaceAll (tS "+00:00") (tS "Z") (dtIso (Option.getD none epochDT)) =
    tS "1970-01-01T00:00:00Z"
  decide

/-- Closed instance of C10: a root whose single stream has no events file and
an unparseable packet `TS` snapshots with the epoch `as_of`. -/
theorem c10_as_of_epoch_fallback_witness :
    buildSnapshot noTsState = .ok noTsSnap ∧
      noTsSnap.as_of = tS "1970-01-01T00:00:00Z" := by
  have hs : buildSnapshot noTsState = .ok noTsSnap := by decide
  exact ⟨hs, c10_as_of_epoch_fallback noTsState noTsSnap hs (by decide)⟩

/-! ## Further string lemmas (towards the C4 round trip) -/

theorem pyStrip_cons_space (s : Str) : pyStrip (' ' :: s) = pyStrip s := by
  unfold pyStrip
  rw [show stripLeft (' ' :: s) = stripLeft s from by simp [stripLeft, pyIsSpace]]

theorem stripLeft_nil_all {s : Str} (h : stripLeft s = []) :
    ∀ c ∈ s, pyIsSpace c = true := by
  induction s with
  | nil => simp
  | cons c cs ih =>
    unfold stripLeft at h
    split at h
    · next hc =>
      intro d hd
      rcases List.mem_cons.mp hd with rfl | hd2
      · exact hc
      · exact ih h d hd2
    · exact absurd h (by simp)

theorem mem_stripLeft_of_not_space {s : Str} {c : Char} (hc : c ∈ s)
    (hns : pyIsSpace c = false) : c ∈ stripLeft s := by
  induction s with
  | nil => simp at hc
  | cons d ds ih =>
    unfold stripLeft
    split
    · next hd =>
      rcases List.mem_cons.mp hc with rfl | h2
      · rw [hd] at hns; exact absurd hns (by simp)
      · exact ih h2
    · exact hc

theorem pyStrip_ne_nil_of_mem {s : Str} {c : Char} (hc : c ∈ s)
    (hns : pyIsSpace c = false) : pyStrip s ≠ [] := by
  intro h
  unfold pyStrip stripRight at h
  rw [List.reverse_eq_nil_iff] at h
  have hmem : c ∈ (stripLeft s).reverse := by
    rw [List.mem_reverse]
    exact mem_stripLeft_of_not_space hc hns
  have := stripLeft_nil_all h c hmem
  rw [this] at hns
  exact absurd hns (by simp)

theorem pyStrip_eq_self_of_ends {s : Str}
    (h1 : ∀ c, s.head? = some c → pyIsSpace c = false)
    (h2 : ∀ c, s.getLast? = some c → pyIsSpace c = false) :
    pyStrip s = s := by
  cases s with
  | nil => rfl
  | cons c cs =>
    have hc : pyIsSpace c = false := h1 c rfl
    unfold pyStrip
    rw [stripLeft_cons_not_space (by simp [hc])]
    rw [stripRight_eq_self_rev]
    cases hrev : (c :: cs).reverse with
    | nil => simp at hrev
    | cons d ds =>
      have hd : pyIsSpace d = false := by
        apply h2
        rw [← List.head?_reverse, hrev]
        rfl
      exact stripLeft_cons_not_space (by simp [hd])

theorem canon_head_nonspace {g : Str} (h : pyStrip g = g) :
    ∀ c, g.head? = some c → pyIsSpace c = false := by
  intro c hc
  cases g with
  | nil => simp at hc
  | cons d ds =>
    simp only [List.head?_cons, Option.some.injEq] at hc
    subst hc
    exact head_not_space_of_stripLeft_eq (pyStrip_eq_self_parts h).1

theorem canon_last_nonspace {g : Str} (h : pyStrip g = g) :
    ∀ c, g.getLast? = some c → pyIsSpace c = false := by
  intro c hc
  have hr : stripLeft g.reverse = g.reverse :=
    stripRight_eq_self_rev.mp (pyStrip_eq_self_parts h).2
  rw [← List.head?_reverse] at hc
  cases hrev : g.reverse with
  | nil => rw [hrev] at hc; simp at hc
  | cons d ds =>
    rw [hrev] at hc
    simp only [List.head?_cons, Option.some.injEq] at hc
    subst hc
    exact head_not_space_of_stripLeft_eq (hrev ▸ hr)

theorem splitFirstSub_single {c : Char} {a b : Str} (ha : c ∉ a) :
    splitFirstSub [c] (a ++ c :: b) = some (a, b) := by
  induction a with
  | nil =>
    simp only [List.nil_append]
    unfold splitFirstSub
    rw [if_pos (show ([c]).isPrefixOf (c :: b) = true from isPrefixOf_iff.mpr ⟨b, rfl⟩)]
    rfl
  | cons d ds ih =>
    have hd : d ≠ c := fun h => ha (h ▸ List.mem_cons_self d ds)
    have hds : c ∉ ds := fun h => ha (List.mem_cons_of_mem d h)
    simp only [List.cons_append]
    unfold splitFirstSub
    rw [if_neg ?_, ih hds]
    · intro hp
      obtain ⟨t, ht⟩ := isPrefixOf_iff.mp hp
      rw [List.singleton_append] at ht
      injection ht with h1 _
      exact hd h1

theorem replaceFirst_exact {pat rest : Str} (hne : pat ≠ []) :
    replaceFirst pat [] (pat ++ rest) = rest := by
  cases pat with
  | nil => exact absurd rfl hne
  | cons c cs =>
    simp only [List.cons_append]
    unfold replaceFirst
    rw [if_pos ⟨hne, show (c :: cs).isPrefixOf (c :: cs ++ rest) = true from
      isPrefixOf_iff.mpr ⟨rest, by simp⟩⟩]
    simp only [List.nil_append, List.length_cons]
    exact List.drop_left (c :: cs) rest

theorem splitAny_ne_nil (seps : List Char) (s : Str) : splitAny seps s ≠ [] := by
  cases s with
  | nil => simp [splitAny]
  | cons d ds =>
    simp only [splitAny]
    cases hsp : splitAny seps ds <;> by_cases hd : d ∈ seps <;> simp [hd]

theorem splitAny_cons_eq {seps : List Char} {d : Char} {ds h1 : Str} {t1 : List Str}
    (hsp : splitAny seps ds = h1 :: t1) :
    splitAny seps (d :: ds) = if d ∈ seps then [] :: h1 :: t1 else (d :: h1) :: t1 := by
  simp only [splitAny, hsp]

theorem splitAny_append_sep {seps : List Char} {c : Char} (hc : c ∈ seps) (a b : Str) :
    splitAny seps (a ++ c :: b) = splitAny seps a ++ splitAny seps b := by
  induction a with
  | nil =>
    simp only [List.nil_append, splitAny]
    cases hb : splitAny seps b with
    | nil => exact absurd hb (splitAny_ne_nil seps b)
    | cons h t =>
      show (if c ∈ seps then [] :: h :: t else (c :: h) :: t) = [[]] ++ h :: t
      rw [if_pos hc]
      rfl
  | cons d ds ih =>
    simp only [List.cons_append]
    cases hsp : splitAny seps (ds ++ c :: b) with
    | nil => exact absurd hsp (splitAny_ne_nil _ _)
    | cons h t =>
      rw [splitAny_cons_eq hsp]
      rw [ih] at hsp
      cases hds : splitAny seps ds with
      | nil => exact absurd hds (splitAny_ne_nil _ _)
      | cons h2 t2 =>
        rw [hds] at hsp
        simp only [List.cons_append, List.cons.injEq] at hsp
        by_cases hd : d ∈ seps
        · rw [if_pos hd, splitAny_cons_eq hds, if_pos hd]
          simp [hsp.1, hsp.2]
        · rw [if_neg hd, splitAny_cons_eq hds, if_neg hd]
          simp [hsp.1, hsp.2]

theorem splitAny_of_not_mem {seps : List Char} {s : Str} (h : ∀ c ∈ s, c ∉ seps) :
    splitAny seps s = [s] := by
  induction s with
  | nil => rfl
  | cons d ds ih =>
    have hds : ∀ c ∈ ds, c ∉ seps := fun c hc => h c (List.mem_cons_of_mem d hc)
    rw [splitAny_cons_eq (ih hds), if_neg (h d (List.mem_cons_self d ds))]

theorem mem_joinWith_gen {x : Char} {sep : Str} : ∀ {ls : List Str},
    x ∈ joinWith sep ls → x ∈ sep ∨ ∃ l ∈ ls, x ∈ l := by
  intro ls
  induction ls with
  | nil => intro h; simp [joinWith] at h
  | cons a as ih =>
    intro h
    cases as with
    | nil => exact Or.inr ⟨a, by simp, h⟩
    | cons b bs =>
      rw [show joinWith sep (a :: b :: bs) = a ++ sep ++ joinWith sep (b :: bs) from rfl] at h
      rcases List.mem_append.mp h with h2 | h2
      · rcases List.mem_append.mp h2 with h3 | h3
        · exact Or.inr ⟨a, by simp, h3⟩
        · exact Or.inl h3
      · rcases ih h2 with h3 | ⟨l, hl, hxl⟩
        · exact Or.inl h3
        · exact Or.inr ⟨l, List.mem_cons_of_mem a hl, hxl⟩

theorem joinWith_append (sep : Str) : ∀ {xs ys : List Str}, xs ≠ [] → ys ≠ [] →
    joinWith sep (xs ++ ys) = joinWith sep xs ++ sep ++ joinWith sep ys := by
  intro xs
  induction xs with
  | nil => intro ys h; exact absurd rfl h
  | cons x xs ih =>
    intro ys _ hys
    cases xs with
    | nil =>
      cases ys with
      | nil => exact absurd rfl hys
      | cons y ys2 => simp [joinWith]
    | cons x2 xs2 =>
      have hne : (x2 :: xs2) ++ ys ≠ [] := by simp
      calc joinWith sep ((x :: x2 :: xs2) ++ ys)
          = x ++ sep ++ joinWith sep ((x2 :: xs2) ++ ys) := by
            cases hc : (x2 :: xs2) ++ ys with
            | nil => exact absurd hc hne
            | cons z zs => rw [show (x :: x2 :: xs2) ++ ys = x :: z :: zs from by simp [← hc]]; rfl
        _ = x ++ sep ++ (joinWith sep (x2 :: xs2) ++ sep ++ joinWith sep ys) := by
            rw [ih (by simp) hys]
        _ = joinWith sep (x :: x2 :: xs2) ++ sep ++ joinWith sep ys := by
            rw [show joinWith sep (x :: x2 :: xs2) = x ++ sep ++ joinWith sep (x2 :: xs2) from rfl]
            simp [List.append_assoc]

/-! ## Decimal rendering and reading -/

theorem natDigitsRevGo_spec : ∀ (f n : Nat), n ≤ f →
    digitsVal (natDigitsRevGo f n) = n ∧ ∀ d ∈ natDigitsRevGo f n, d < 10 := by
  intro f
  induction f with
  | zero =>
    intro n hn
    interval_cases n
    exact ⟨by decide, by decide⟩
  | succ f ih =>
    intro n hn
    unfold natDigitsRevGo
    by_cases h10 : n < 10
    · rw [if_pos h10]
      refine ⟨by simp [digitsVal], ?_⟩
      intro d hd
      simp only [List.mem_singleton] at hd
      omega
    · rw [if_neg h10]
      have hlt : n / 10 ≤ f := by
        have : n / 10 < n := Nat.div_lt_self (by omega) (by omega)
        omega
      obtain ⟨h1, h2⟩ := ih (n / 10) hlt
      constructor
      · simp only [digitsVal, h1]
        omega
      · intro d hd
        rcases List.mem_cons.mp hd with rfl | hd2
        · exact Nat.mod_lt _ (by omega)
        · exact h2 d hd2

theorem charsToNat_append_digit (xs : Str) (c : Char) :
    charsToNat (xs ++ [c]) = charsToNat xs * 10 + (c.toNat - 48) := by
  unfold charsToNat
  rw [List.foldl_append]
  rfl

theorem digitChar_toNat {d : Nat} (h : d < 10) : (digitChar d).toNat = 48 + d := by
  interval_cases d <;> decide

theorem charsToNat_digits : ∀ (l : List Nat), (∀ d ∈ l, d < 10) →
    charsToNat (l.reverse.map digitChar) = digitsVal l := by
  intro l
  induction l with
  | nil => intro _; rfl
  | cons d ds ih =>
    intro h
    simp only [List.reverse_cons, List.map_append, List.map_cons, List.map_nil]
    rw [charsToNat_append_digit]
    rw [ih (fun x hx => h x (List.mem_cons_of_mem d hx))]
    rw [digitChar_toNat (h d (List.mem_cons_self d ds))]
    simp only [digitsVal]
    omega

theorem charsToNat_natToStr (n : Nat) : charsToNat (natToStr n) = n := by
  unfold natToStr natDigitsRev
  obtain ⟨h1, h2⟩ := natDigitsRevGo_spec n n le_rfl
  rw [charsToNat_digits _ h2, h1]

theorem natDigitsRevGo_ne_nil (f n : Nat) : natDigitsRevGo f n ≠ [] := by
  cases f with
  | zero => simp [natDigitsRevGo]
  | succ f =>
    unfold natDigitsRevGo
    split <;> simp

theorem natToStr_ne_nil (n : Nat) : natToStr n ≠ [] := by
  intro h
  apply natDigitsRevGo_ne_nil n n
  unfold natToStr natDigitsRev at h
  have hlen := congrArg List.length h
  simp only [List.length_map, List.length_reverse, List.length_nil] at hlen
  exact List.length_eq_zero.mp hlen

theorem natToStr_mem_digits (n : Nat) : ∀ c ∈ natToStr n, c ∈ tS "0123456789" := by
  unfold natToStr natDigitsRev
  intro c hc
  rw [List.mem_map] at hc
  obtain ⟨d, hd, rfl⟩ := hc
  rw [List.mem_reverse] at hd
  have hd10 := (natDigitsRevGo_spec n n le_rfl).2 d hd
  interval_cases d <;> decide

theorem natDigitsRevGo_length : ∀ (f n k : Nat), n ≤ f → n < 10 ^ k → 1 ≤ k →
    (natDigitsRevGo f n).length ≤ k := by
  intro f
  induction f with
  | zero =>
    intro n k hn _ h1
    interval_cases n
    simpa [natDigitsRevGo] using h1
  | succ f ih =>
    intro n k hn hk h1
    unfold natDigitsRevGo
    split
    · simpa using h1
    · next h10 =>
      have hdiv : n / 10 < 10 ^ (k - 1) := by
        rw [Nat.div_lt_iff_lt_mul (by omega)]
        calc n < 10 ^ k := hk
          _ = 10 ^ (k - 1) * 10 := by
            rw [← pow_succ]
            congr 1
            have : 10 ≤ 10 ^ k := le_trans (by omega) (le_of_lt hk)
            have hk2 : 1 < k := by
              by_contra hc
              interval_cases k
              omega
            omega
      have hk1 : 1 ≤ k - 1 := by
        by_contra hc
        have : k = 1 := by omega
        subst this
        simp at hk
        omega
      have hle : n / 10 ≤ f := by
        have : n / 10 < n := Nat.div_lt_self (by omega) (by omega)
        omega
      have := ih (n / 10) (k - 1) hle hdiv hk1
      simp only [List.length_cons]
      omega

theorem natToStr_length_le {n k : Nat} (hn : n < 10 ^ k) (hk : 1 ≤ k) :
    (natToStr n).length ≤ k := by
  unfold natToStr natDigitsRev
  simp only [List.length_map, List.length_reverse]
  exact natDigitsRevGo_length n n k le_rfl hn hk

theorem charsToNat_replicate_zero (k : Nat) (s : Str) :
    charsToNat (List.replicate k '0' ++ s) = charsToNat s := by
  induction k with
  | zero => rfl
  | succ k ih =>
    rw [List.replicate_succ]
    show charsToNat ('0' :: (List.replicate k '0' ++ s)) = _
    unfold charsToNat
    simp only [List.foldl_cons]
    show List.foldl (fun acc c => acc * 10 + (c.toNat - 48)) 0 (List.replicate k '0' ++ s) = _
    exact ih

theorem digit_dot_not_space {c : Char} (h : c ∈ tS "0123456789.") :
    pyIsSpace c = false := by
  have h2 : c ∈ ['0', '1', '2', '3', '4', '5', '6', '7', '8', '9', '.'] := h
  fin_cases h2 <;> decide

theorem digit_not_plus_minus {c : Char} (h : c ∈ tS "0123456789") :
    c ≠ '+' ∧ c ≠ '-' ∧ c ∉ (['e', 'E'] : List Char) ∧ c ≠ '.' ∧ c.isDigit = true := by
  have h2 : c ∈ ['0', '1', '2', '3', '4', '5', '6', '7', '8', '9'] := h
  fin_cases h2 <;> exact ⟨by decide, by decide, by decide, by decide, by decide⟩

theorem pyFloatSign_eq {s : Str} (h1 : s.head? ≠ some '+') (h2 : s.head? ≠ some '-') :
    pyFloatSign s = (1, s) := by
  unfold pyFloatSign
  split
  · next r => simp at h1
  · next r => simp at h2
  · rfl

theorem mem_digits_widen {c : Char} (h : c ∈ tS "0123456789") : c ∈ tS "0123456789." :=
  show c ∈ tS "0123456789" ++ ['.'] from List.mem_append_left _ h

theorem digit_dot_props {c : Char} (h : c ∈ tS "0123456789.") :
    pyIsSpace c = false ∧ c ∉ (['e', 'E'] : List Char) ∧ c ≠ '+' ∧ c ≠ '-' := by
  have h2 : c ∈ ['0', '1', '2', '3', '4', '5', '6', '7', '8', '9', '.'] := h
  fin_cases h2 <;> exact ⟨by decide, by decide, by decide, by decide⟩

theorem pyFloatOfStr_digits {i : Str} (hi : i ≠ [])
    (hdig : ∀ c ∈ i, c ∈ tS "0123456789") :
    pyFloatOfStr i = some ((charsToNat i : ℚ)) := by
  have hstrip : pyStrip i = i :=
    pyStrip_eq_self_of_no_space
      (fun c hc => digit_dot_not_space (mem_digits_widen (hdig c hc)))
  have hhead : ∀ c, i.head? = some c → c ∈ tS "0123456789" := by
    intro c hc
    cases i with
    | nil => simp at hc
    | cons a l =>
      simp only [List.head?_cons, Option.some.injEq] at hc
      exact hc ▸ hdig a (List.mem_cons_self a l)
  unfold pyFloatOfStr
  rw [hstrip]
  rw [pyFloatSign_eq (fun hh => (digit_not_plus_minus (hhead _ hh)).1 rfl)
    (fun hh => (digit_not_plus_minus (hhead _ hh)).2.1 rfl)]
  simp only [pyFloatTail]
  rw [splitAny_of_not_mem (fun c hc => (digit_not_plus_minus (hdig c hc)).2.2.1)]
  show pyFloatMant 1 i 1 = some (charsToNat i)
  unfold pyFloatMant
  rw [splitChar_of_not_mem
    (fun hc => (digit_not_plus_minus (hdig '.' hc)).2.2.2.1 rfl)]
  show (if i = [] ∨ ¬ i.all Char.isDigit = true then none
    else some (1 * (charsToNat i : ℚ) * 1)) = some ((charsToNat i : ℚ))
  rw [if_neg (by
    push_neg
    exact ⟨hi, List.all_eq_true.mpr
      (fun c hc => (digit_not_plus_minus (hdig c hc)).2.2.2.2)⟩)]
  norm_num

theorem pyFloatOfStr_decimal {i f : Str} (hi : i ≠ [])
    (hdi : ∀ c ∈ i, c ∈ tS "0123456789") (hdf : ∀ c ∈ f, c ∈ tS "0123456789") :
    pyFloatOfStr (i ++ '.' :: f) =
      some ((charsToNat i : ℚ) + (charsToNat f : ℚ) / 10 ^ f.length) := by
  have hmem : ∀ c ∈ i ++ '.' :: f, c ∈ tS "0123456789." := by
    intro c hc
    rcases List.mem_append.mp hc with h | h
    · exact mem_digits_widen (hdi c h)
    · rcases List.mem_cons.mp h with rfl | h2
      · decide
      · exact mem_digits_widen (hdf c h2)
  have hstrip : pyStrip (i ++ '.' :: f) = i ++ '.' :: f :=
    pyStrip_eq_self_of_no_space (fun c hc => digit_dot_not_space (hmem c hc))
  have hhead : ∀ c, (i ++ '.' :: f).head? = some c → c ∈ tS "0123456789" := by
    intro c hc
    cases i with
    | nil => exact absurd rfl hi
    | cons a l =>
      simp only [List.cons_append, List.head?_cons, Option.some.injEq] at hc
      exact hc ▸ hdi a (List.mem_cons_self a l)
  unfold pyFloatOfStr
  rw [hstrip]
  rw [pyFloatSign_eq (fun hh => (digit_not_plus_minus (hhead _ hh)).1 rfl)
    (fun hh => (digit_not_plus_minus (hhead _ hh)).2.1 rfl)]
  simp only [pyFloatTail]
  rw [splitAny_of_not_mem (fun c hc => (digit_dot_props (hmem c hc)).2.1)]
  show pyFloatMant 1 (i ++ '.' :: f) 1 = _
  unfold pyFloatMant
  rw [splitChar_append_sep '.' i f]
  rw [splitChar_of_not_mem (fun hc => (digit_not_plus_minus (hdi '.' hc)).2.2.2.1 rfl),
    splitChar_of_not_mem (fun hc => (digit_not_plus_minus (hdf '.' hc)).2.2.2.1 rfl)]
  show (if ¬ i.all Char.isDigit = true ∨ ¬ f.all Char.isDigit = true ∨ (i = [] ∧ f = [])
      then none
      else some (1 * ((charsToNat i : ℚ) + (charsToNat f : ℚ) / 10 ^ f.length) * 1)) = _
  rw [if_neg (by
    push_neg
    refine ⟨List.all_eq_true.mpr
        (fun c hc => (digit_not_plus_minus (hdi c hc)).2.2.2.2),
      List.all_eq_true.mpr (fun c hc => (digit_not_plus_minus (hdf c hc)).2.2.2.2),
      fun hc => absurd hc hi⟩)]
  norm_num

theorem decScale_prop {q : ℚ} {d : Nat} (h : decScale q = some d) :
    (q * 10 ^ d).den = 1 := by
  have := List.find?_some h
  simpa using this

theorem num_natAbs_cast {x : ℚ} (h0 : 0 ≤ x) (hden : x.den = 1) :
    (x.num.natAbs : ℚ) = x := by
  have hnum : 0 ≤ x.num := Rat.num_nonneg.mpr h0
  have h2 : (x.num : ℚ) = x := by
    conv_rhs => rw [← Rat.num_div_den x]
    rw [hden]
    simp
  obtain ⟨m, hm⟩ : ∃ m : ℕ, x.num = (m : ℤ) :=
    ⟨x.num.toNat, (Int.toNat_of_nonneg hnum).symm⟩
  rw [← h2, hm]
  simp

theorem renderConf_int {q : ℚ} (hq0 : 0 ≤ q) (h : decScale q = some 0) :
    pyFloatOfStr (renderConf q) = some q := by
  have hden : q.den = 1 := by
    have := decScale_prop h
    simpa using this
  unfold renderConf
  rw [h]
  show pyFloatOfStr (intToStr q.num) = some q
  unfold intToStr
  rw [if_neg (not_lt.mpr (Rat.num_nonneg.mpr hq0))]
  rw [pyFloatOfStr_digits (natToStr_ne_nil _) (natToStr_mem_digits _)]
  rw [charsToNat_natToStr]
  rw [num_natAbs_cast hq0 hden]

theorem renderConf_frac {q : ℚ} (hq0 : 0 ≤ q) {d : Nat} (h : decScale q = some (d + 1)) :
    pyFloatOfStr (renderConf q) = some q := by
  have hden : (q * 10 ^ (d + 1)).den = 1 := decScale_prop h
  have hx0 : 0 ≤ q * 10 ^ (d + 1) := by positivity
  have hn : ((q * 10 ^ (d + 1)).num.natAbs : ℚ) = q * 10 ^ (d + 1) :=
    num_natAbs_cast hx0 hden
  unfold renderConf
  rw [h]
  show pyFloatOfStr ((if q < 0 then tS "-" else []) ++
      natToStr ((q * 10 ^ (d + 1)).num.natAbs / 10 ^ (d + 1)) ++ tS "." ++
      (List.replicate
          (d + 1 - (natToStr ((q * 10 ^ (d + 1)).num.natAbs % 10 ^ (d + 1))).length) '0' ++
        natToStr ((q * 10 ^ (d + 1)).num.natAbs % 10 ^ (d + 1)))) = some q
  rw [if_neg (not_lt.mpr hq0)]
  simp only [List.nil_append]
  set n := (q * 10 ^ (d + 1)).num.natAbs with hndef
  rw [show natToStr (n / 10 ^ (d + 1)) ++ tS "." ++
      (List.replicate (d + 1 - (natToStr (n % 10 ^ (d + 1))).length) '0' ++
        natToStr (n % 10 ^ (d + 1))) =
      natToStr (n / 10 ^ (d + 1)) ++ '.' ::
        (List.replicate (d + 1 - (natToStr (n % 10 ^ (d + 1))).length) '0' ++
          natToStr (n % 10 ^ (d + 1))) from by simp [tS, List.append_assoc]]
  rw [pyFloatOfStr_decimal (natToStr_ne_nil _) (natToStr_mem_digits _) (by
    intro c hc
    rcases List.mem_append.mp hc with h2 | h2
    · rw [List.mem_replicate] at h2
      rw [h2.2]
      decide
    · exact natToStr_mem_digits _ c h2)]
  congr 1
  rw [charsToNat_natToStr, charsToNat_replicate_zero, charsToNat_natToStr]
  rw [List.length_append, List.length_replicate]
  have hDpos : 0 < 10 ^ (d + 1) := by positivity
  have hlen : (natToStr (n % 10 ^ (d + 1))).length ≤ d + 1 :=
    natToStr_length_le (Nat.mod_lt _ hDpos) (by omega)
  rw [show d + 1 - (natToStr (n % 10 ^ (d + 1))).length +
      (natToStr (n % 10 ^ (d + 1))).length = d + 1 from by omega]
  have hD : ((10 : ℚ)) ^ (d + 1) ≠ 0 := by positivity
  have key : ((n / 10 ^ (d + 1) : Nat) : ℚ) + ((n % 10 ^ (d + 1) : Nat) : ℚ) / 10 ^ (d + 1) =
      (n : ℚ) / 10 ^ (d + 1) := by
    field_simp
    exact_mod_cast Nat.div_add_mod' n (10 ^ (d + 1))
  rw [key, hn]
  exact mul_div_cancel_right₀ q hD

theorem pyFloat_renderConf {q : ℚ} (hq0 : 0 ≤ q) {d : Nat} (hd : decScale q = some d) :
    pyFloatOfStr (renderConf q) = some q := by
  cases d with
  | zero => exact renderConf_int hq0 hd
  | succ d => exact renderConf_frac hq0 hd

theorem renderConf_chars {q : ℚ} (hq0 : 0 ≤ q) :
    (∀ c ∈ renderConf q, c ∈ tS "0123456789.") ∧ renderConf q ≠ [] := by
  unfold renderConf
  cases hd : decScale q with
  | none =>
    refine ⟨fun c hc => ?_, show tS "0" ≠ [] by decide⟩
    have h2 : c ∈ ['0'] := hc
    fin_cases h2
    decide
  | some d =>
    cases d with
    | zero =>
      show (∀ c ∈ intToStr q.num, c ∈ tS "0123456789.") ∧ intToStr q.num ≠ []
      unfold intToStr
      rw [if_neg (not_lt.mpr (Rat.num_nonneg.mpr hq0))]
      exact ⟨fun c hc => mem_digits_widen (natToStr_mem_digits _ c hc), natToStr_ne_nil _⟩
    | succ d =>
      show (∀ c ∈ (if q < 0 then tS "-" else []) ++
          natToStr ((q * 10 ^ (d + 1)).num.natAbs / 10 ^ (d + 1)) ++ tS "." ++
          (List.replicate
              (d + 1 -
                (natToStr ((q * 10 ^ (d + 1)).num.natAbs % 10 ^ (d + 1))).length) '0' ++
            natToStr ((q * 10 ^ (d + 1)).num.natAbs % 10 ^ (d + 1))),
          c ∈ tS "0123456789.") ∧
        (if q < 0 then tS "-" else []) ++
          natToStr ((q * 10 ^ (d + 1)).num.natAbs / 10 ^ (d + 1)) ++ tS "." ++
          (List.replicate
              (d + 1 -
                (natToStr ((q * 10 ^ (d + 1)).num.natAbs % 10 ^ (d + 1))).length) '0' ++
            natToStr ((q * 10 ^ (d + 1)).num.natAbs % 10 ^ (d + 1))) ≠ []
      rw [if_neg (not_lt.mpr hq0)]
      simp only [List.nil_append]
      constructor
      · intro c hc
        rcases List.mem_append.mp hc with h2 | h2
        · rcases List.mem_append.mp h2 with h3 | h3
          · exact mem_digits_widen (natToStr_mem_digits _ c h3)
          · have h4 : c ∈ ['.'] := h3
            fin_cases h4
            decide
        · rcases List.mem_append.mp h2 with h3 | h3
          · rw [List.mem_replicate] at h3
            rw [h3.2]
            decide
          · exact mem_digits_widen (natToStr_mem_digits _ c h3)
      · intro hnil
        have hlen := congrArg List.length hnil
        simp only [List.length_append, List.length_nil] at hlen
        have h1 := natToStr_ne_nil ((q * 10 ^ (d + 1)).num.natAbs / 10 ^ (d + 1))
        have h2 := List.length_pos.mpr h1
        omega


/-! ## Body-line processing lemmas -/

theorem not_true_of_eq_false {b : Bool} (h : b = false) : ¬ b = true := by
  rw [h]
  exact Bool.false_ne_true

theorem push_active (acc : BodyAcc) (sec : Sec) (it : Str) :
    (acc.push sec it).active = acc.active := by
  cases sec <;> rfl

theorem secOfStr_dash (r : Str) : secOfStr ('-' :: r) = none := by
  have k : ∀ (c : Char) (t : Str), c ≠ '-' → ¬(('-' :: r) = (c :: t)) := by
    intro c t hc h
    injection h with h1 _
    exact hc h1.symm
  unfold secOfStr
  rw [if_neg (show ¬('-' :: r = tS "NOW") from k 'N' _ (by decide)),
    if_neg (show ¬('-' :: r = tS "NEXT") from k 'N' _ (by decide)),
    if_neg (show ¬('-' :: r = tS "RISKS") from k 'R' _ (by decide)),
    if_neg (show ¬('-' :: r = tS "ACCEPT") from k 'A' _ (by decide)),
    if_neg (show ¬('-' :: r = tS "ARTIFACTS") from k 'A' _ (by decide)),
    if_neg (show ¬('-' :: r = tS "QUESTIONS") from k 'Q' _ (by decide))]

theorem mem_of_getLast?' {l : Str} {c : Char} (h : l.getLast? = some c) : c ∈ l := by
  cases l with
  | nil => simp at h
  | cons a as =>
    rw [List.getLast?_eq_getLast _ (by simp)] at h
    simp only [Option.some.injEq] at h
    exact h ▸ List.getLast_mem (by simp)

theorem cons_append_ne_nil {c : Char} {a b : Str} : ¬((c :: a) ++ b = []) := by simp

theorem parseBodyLines_blank (rest : List Str) (acc : BodyAcc) :
    parseBodyLines ([] :: rest) acc = parseBodyLines rest acc := rfl

theorem parseBodyLines_now (rest : List Str) (acc : BodyAcc) :
    parseBodyLines (tS "NOW:" :: rest) acc =
      parseBodyLines rest { acc with active := some Sec.NOW } := rfl

theorem parseBodyLines_next (rest : List Str) (acc : BodyAcc) :
    parseBodyLines (tS "NEXT:" :: rest) acc =
      parseBodyLines rest { acc with active := some Sec.NEXT } := rfl

theorem parseBodyLines_risks (rest : List Str) (acc : BodyAcc) :
    parseBodyLines (tS "RISKS:" :: rest) acc =
      parseBodyLines rest { acc with active := some Sec.RISKS } := rfl

theorem parseBodyLines_accept (rest : List Str) (acc : BodyAcc) :
    parseBodyLines (tS "ACCEPT:" :: rest) acc =
      parseBodyLines rest { acc with active := some Sec.ACCEPT } := rfl

theorem parseBodyLines_artifacts (rest : List Str) (acc : BodyAcc) :
    parseBodyLines (tS "ARTIFACTS:" :: rest) acc =
      parseBodyLines rest { acc with active := some Sec.ARTIFACTS } := rfl

theorem parseBodyLines_questions (rest : List Str) (acc : BodyAcc) :
    parseBodyLines (tS "QUESTIONS:" :: rest) acc =
      parseBodyLines rest { acc with active := some Sec.QUESTIONS } := rfl

theorem parseBodyLines_goal {g : Str} (hg : strCanonB g = true) (hgne : g ≠ [])
    (rest : List Str) (acc : BodyAcc) :
    parseBodyLines ((tS "GOAL: " ++ g) :: rest) acc =
      parseBodyLines rest { acc with goal := g, active := none } := by
  obtain ⟨hstrip, hnl, hcr⟩ := strCanonB_iff.mp hg
  have hline : pyStrip (tS "GOAL: " ++ g) = tS "GOAL: " ++ g := by
    apply pyStrip_eq_self_of_ends
    · intro c hc
      rw [show (tS "GOAL: " ++ g).head? = some 'G' from rfl] at hc
      simp only [Option.some.injEq] at hc
      rw [← hc]
      decide
    · intro c hc
      rw [List.getLast?_append_of_ne_nil _ hgne] at hc
      exact canon_last_nonspace hstrip c hc
  conv_lhs => unfold parseBodyLines
  rw [hline]
  rw [if_neg (show ¬(tS "GOAL: " ++ g = []) from cons_append_ne_nil),
    if_pos (show pyStartsWith (tS "GOAL:") (tS "GOAL: " ++ g) = true from
      isPrefixOf_iff.mpr ⟨' ' :: g, rfl⟩)]
  rw [show replaceFirst (tS "GOAL:") [] (tS "GOAL: " ++ g) = ' ' :: g from
    replaceFirst_exact (by decide)]
  rw [pyStrip_cons_space, hstrip]

theorem parseBodyLines_conf {q : ℚ} (hq0 : 0 ≤ q) {d : Nat} (hd : decScale q = some d)
    (rest : List Str) (acc : BodyAcc) :
    parseBodyLines ((tS "CONFIDENCE: " ++ renderConf q) :: rest) acc =
      parseBodyLines rest { acc with confidence := some q, active := none } := by
  obtain ⟨hchars, hne⟩ := renderConf_chars hq0
  have hline : pyStrip (tS "CONFIDENCE: " ++ renderConf q) =
      tS "CONFIDENCE: " ++ renderConf q := by
    apply pyStrip_eq_self_of_ends
    · intro c hc
      rw [show (tS "CONFIDENCE: " ++ renderConf q).head? = some 'C' from rfl] at hc
      simp only [Option.some.injEq] at hc
      rw [← hc]
      decide
    · intro c hc
      rw [List.getLast?_append_of_ne_nil _ hne] at hc
      exact digit_dot_not_space (hchars c (mem_of_getLast?' hc))
  conv_lhs => unfold parseBodyLines
  rw [hline]
  rw [if_neg (show ¬(tS "CONFIDENCE: " ++ renderConf q = []) from cons_append_ne_nil)]
  rw [if_neg (not_true_of_eq_false
    (rfl : pyStartsWith (tS "GOAL:") (tS "CONFIDENCE: " ++ renderConf q) = false))]
  rw [if_pos (show pyStartsWith (tS "CONFIDENCE:") (tS "CONFIDENCE: " ++ renderConf q) = true
    from isPrefixOf_iff.mpr ⟨' ' :: renderConf q, rfl⟩)]
  rw [show replaceFirst (tS "CONFIDENCE:") [] (tS "CONFIDENCE: " ++ renderConf q) =
    ' ' :: renderConf q from replaceFirst_exact (by decide)]
  rw [pyStrip_cons_space,
    pyStrip_eq_self_of_no_space (fun c hc => digit_dot_not_space (hchars c hc))]
  rw [pyFloat_renderConf hq0 hd]

theorem parseBodyLines_items (sec : Sec) : ∀ (items : List Str) (rest : List Str)
    (acc : BodyAcc), acc.active = some sec → (∀ it ∈ items, pyStrip it = it) →
    parseBodyLines (items.map (fun it => tS "- " ++ it) ++ rest) acc =
      parseBodyLines rest (items.foldl (fun a it => a.push sec it) acc) := by
  intro items
  induction items with
  | nil => intro rest acc _ _; rfl
  | cons it items ih =>
    intro rest acc hact hstrip
    have hit : pyStrip it = it := hstrip it (List.mem_cons_self it items)
    have hrest : ∀ x ∈ items, pyStrip x = x :=
      fun x hx => hstrip x (List.mem_cons_of_mem it hx)
    rw [List.map_cons, List.cons_append, List.foldl_cons]
    by_cases hit0 : it = []
    · subst hit0
      rw [List.append_nil]
      conv_lhs => unfold parseBodyLines
      rw [show pyStrip (tS "- ") = tS "-" from rfl]
      rw [if_neg (by decide), if_neg (by decide), if_neg (by decide)]
      rw [if_neg (by decide)]
      rw [hact]
      exact ih rest (acc.push sec []) (by rw [push_active]; exact hact) hrest
    · have hlast : ∀ c, it.getLast? = some c → pyIsSpace c = false :=
        canon_last_nonspace hit
      have hline : pyStrip (tS "- " ++ it) = tS "- " ++ it := by
        apply pyStrip_eq_self_of_ends
        · intro c hc
          rw [show (tS "- " ++ it).head? = some '-' from rfl] at hc
          simp only [Option.some.injEq] at hc
          rw [← hc]
          decide
        · intro c hc
          rw [List.getLast?_append_of_ne_nil _ hit0] at hc
          exact hlast c hc
      conv_lhs => unfold parseBodyLines
      rw [hline]
      rw [if_neg (show ¬(tS "- " ++ it = []) from cons_append_ne_nil),
        if_neg (not_true_of_eq_false
          (rfl : pyStartsWith (tS "GOAL:") (tS "- " ++ it) = false)),
        if_neg (not_true_of_eq_false
          (rfl : pyStartsWith (tS "CONFIDENCE:") (tS "- " ++ it) = false))]
      have hsec : (if pyEndsWith (tS ":") (tS "- " ++ it) then
          secOfStr (tS "- " ++ it).dropLast else none) = none := by
        by_cases hB : pyEndsWith (tS ":") (tS "- " ++ it) = true
        · rw [if_pos hB]
          rw [show (tS "- " ++ it).dropLast = '-' :: (' ' :: it).dropLast from rfl]
          exact secOfStr_dash _
        · rw [if_neg hB]
      rw [hsec, hact]
      rw [show (tS "- " ++ it).drop 1 = ' ' :: it from rfl]
      rw [pyStrip_cons_space, hit]
      exact ih rest (acc.push sec it) (by rw [push_active]; exact hact) hrest

theorem foldl_push_now : ∀ (items : List Str) (acc : BodyAcc),
    items.foldl (fun a it => a.push Sec.NOW it) acc = { acc with now := acc.now ++ items } := by
  intro items
  induction items with
  | nil => intro acc; simp
  | cons it items ih =>
    intro acc
    rw [List.foldl_cons, ih]
    simp [BodyAcc.push]

theorem foldl_push_next : ∀ (items : List Str) (acc : BodyAcc),
    items.foldl (fun a it => a.push Sec.NEXT it) acc =
      { acc with next := acc.next ++ items } := by
  intro items
  induction items with
  | nil => intro acc; simp
  | cons it items ih =>
    intro acc
    rw [List.foldl_cons, ih]
    simp [BodyAcc.push]

theorem foldl_push_risks : ∀ (items : List Str) (acc : BodyAcc),
    items.foldl (fun a it => a.push Sec.RISKS it) acc =
      { acc with risks := acc.risks ++ items } := by
  intro items
  induction items with
  | nil => intro acc; simp
  | cons it items ih =>
    intro acc
    rw [List.foldl_cons, ih]
    simp [BodyAcc.push]

theorem foldl_push_accept : ∀ (items : List Str) (acc : BodyAcc),
    items.foldl (fun a it => a.push Sec.ACCEPT it) acc =
      { acc with accept := acc.accept ++ items } := by
  intro items
  induction items with
  | nil => intro acc; simp
  | cons it items ih =>
    intro acc
    rw [List.foldl_cons, ih]
    simp [BodyAcc.push]

theorem foldl_push_artifacts : ∀ (items : List Str) (acc : BodyAcc),
    items.foldl (fun a it => a.push Sec.ARTIFACTS it) acc =
      { acc with artifacts := acc.artifacts ++ items } := by
  intro items
  induction items with
  | nil => intro acc; simp
  | cons it items ih =>
    intro acc
    rw [List.foldl_cons, ih]
    simp [BodyAcc.push]

theorem foldl_push_questions : ∀ (items : List Str) (acc : BodyAcc),
    items.foldl (fun a it => a.push Sec.QUESTIONS it) acc =
      { acc with questions := acc.questions ++ items } := by
  intro items
  induction items with
  | nil => intro acc; simp
  | cons it items ih =>
    intro acc
    rw [List.foldl_cons, ih]
    simp [BodyAcc.push]


/-! ## Header-side lemmas -/

theorem toolCanonB_parts {t : Str} (h : toolCanonB t = true) :
    strCanonB t = true ∧ t ≠ [] ∧ ',' ∉ t ∧ '|' ∉ t := by
  unfold toolCanonB at h
  rw [Bool.and_eq_true, Bool.and_eq_true, Bool.and_eq_true] at h
  obtain ⟨⟨⟨hA, hB⟩, hC⟩, hD⟩ := h
  refine ⟨hA, ?_, ?_, ?_⟩
  · intro h0
    rw [h0] at hB
    simp at hB
  · simpa using hC
  · simpa using hD

theorem normalizeNullable_of_canon {v : Str} (h : optNullableCanonB (some v) = true) :
    normalizeNullable v = some v := by
  unfold optNullableCanonB at h
  rw [Bool.and_eq_true, Bool.and_eq_true, Bool.and_eq_true] at h
  obtain ⟨⟨⟨hA, hB⟩, hC⟩, hD⟩ := h
  have hstrip : pyStrip v = v := (strCanonB_iff.mp hA).1
  unfold normalizeNullable
  rw [hstrip]
  rw [if_neg ?_]
  intro hc
  rcases hc with hc | hc | hc
  · rw [hc] at hB
    simp at hB
  · rw [hc] at hC
    simp at hC
  · rw [hc] at hD
    simp [List.isEmpty] at hD

theorem splitAny_join_tools : ∀ (rest : List Str) (t : Str),
    (∀ x ∈ t :: rest, toolCanonB x = true) →
    splitAny ['|', ','] (joinWith (tS ", ") (t :: rest)) =
      t :: rest.map (fun r => ' ' :: r) := by
  intro rest
  induction rest with
  | nil =>
    intro t h
    show splitAny ['|', ','] (joinWith (tS ", ") [t]) = [t]
    have ht := toolCanonB_parts (h t (by simp))
    apply splitAny_of_not_mem
    intro c hc hcsep
    rcases List.mem_cons.mp hcsep with rfl | h2
    · exact ht.2.2.2 hc
    · rcases List.mem_cons.mp h2 with rfl | h3
      · exact ht.2.2.1 hc
      · simp at h3
  | cons r rest ih =>
    intro t h
    have ht := toolCanonB_parts (h t (by simp))
    have hj : joinWith (tS ", ") (t :: r :: rest) =
        t ++ ',' :: ' ' :: joinWith (tS ", ") (r :: rest) := by
      show t ++ tS ", " ++ joinWith (tS ", ") (r :: rest) = _
      rw [List.append_assoc]
      rfl
    rw [hj]
    rw [splitAny_append_sep (by decide)]
    rw [splitAny_of_not_mem (fun c hc hcsep => by
      rcases List.mem_cons.mp hcsep with rfl | h2
      · exact ht.2.2.2 hc
      · rcases List.mem_cons.mp h2 with rfl | h3
        · exact ht.2.2.1 hc
        · simp at h3)]
    rw [splitAny_cons_eq (ih r (fun x hx => h x (List.mem_cons_of_mem t hx)))]
    rw [if_neg (by decide)]
    rfl

theorem joinWith_ne_nil_gen {sep : Str} {ls : List Str} (h : ∀ l ∈ ls, l ≠ [])
    (hne : ls ≠ []) : joinWith sep ls ≠ [] := by
  cases ls with
  | nil => exact absurd rfl hne
  | cons x xs =>
    cases xs with
    | nil => exact h x (by simp)
    | cons y ys =>
      rw [show joinWith sep (x :: y :: ys) = x ++ sep ++ joinWith sep (y :: ys) from rfl]
      intro h0
      rw [List.append_eq_nil, List.append_eq_nil] at h0
      exact h x (by simp) h0.1.1

theorem joinWith_getLast {sep : Str} : ∀ {ts : List Str} {t : Str},
    (∀ x ∈ ts, x ≠ []) → ts.getLast? = some t →
    (joinWith sep ts).getLast? = t.getLast? := by
  intro ts
  induction ts with
  | nil => intro t _ h; simp at h
  | cons x xs ih =>
    intro t hne hlast
    cases xs with
    | nil =>
      simp only [List.getLast?_singleton, Option.some.injEq] at hlast
      rw [← hlast]
      rfl
    | cons y ys =>
      rw [List.getLast?_cons_cons] at hlast
      rw [show joinWith sep (x :: y :: ys) = x ++ sep ++ joinWith sep (y :: ys) from rfl]
      rw [List.getLast?_append_of_ne_nil]
      · exact ih (fun z hz => hne z (List.mem_cons_of_mem x hz)) hlast
      · exact joinWith_ne_nil_gen (fun z hz => hne z (List.mem_cons_of_mem x hz)) (by simp)

theorem joinWith_head_gen {sep : Str} {x : Str} {xs : List Str} (hx : x ≠ []) :
    (joinWith sep (x :: xs)).head? = x.head? := by
  cases xs with
  | nil => rfl
  | cons y ys =>
    rw [show joinWith sep (x :: y :: ys) = x ++ sep ++ joinWith sep (y :: ys) from rfl]
    cases x with
    | nil => exact absurd rfl hx
    | cons c cs => rfl

theorem tools_join_strip {ts : List Str} (h : ∀ x ∈ ts, toolCanonB x = true) :
    pyStrip (joinWith (tS ", ") ts) = joinWith (tS ", ") ts := by
  cases ts with
  | nil => rfl
  | cons t rest =>
    have ht := toolCanonB_parts (h t (by simp))
    apply pyStrip_eq_self_of_ends
    · intro c hc
      rw [joinWith_head_gen ht.2.1] at hc
      exact canon_head_nonspace (strCanonB_iff.mp ht.1).1 c hc
    · intro c hc
      have hne : ∀ x ∈ t :: rest, x ≠ [] :=
        fun x hx => (toolCanonB_parts (h x hx)).2.1
      have hlast : (t :: rest).getLast? = some ((t :: rest).getLast (by simp)) :=
        List.getLast?_eq_getLast _ (by simp)
      rw [joinWith_getLast hne hlast] at hc
      have hmem := List.getLast_mem (show t :: rest ≠ [] by simp)
      exact canon_last_nonspace
        (strCanonB_iff.mp (toolCanonB_parts (h _ hmem)).1).1 c hc

theorem parseTools_join {ts : List Str} (h : ts.all toolCanonB = true) :
    parseTools (joinWith (tS ", ") ts) = ts := by
  have hall := List.all_eq_true.mp h
  cases ts with
  | nil => rfl
  | cons t rest =>
    have hne : ∀ x ∈ t :: rest, x ≠ [] :=
      fun x hx => (toolCanonB_parts (hall x hx)).2.1
    unfold parseTools
    rw [if_neg (joinWith_ne_nil_gen hne (by simp))]
    rw [splitAny_join_tools rest t hall]
    rw [List.map_cons, List.map_map]
    rw [show pyStrip t = t from (strCanonB_iff.mp (toolCanonB_parts (hall t (by simp))).1).1]
    rw [List.map_congr_left (show ∀ r ∈ rest, (pyStrip ∘ fun r => ' ' :: r) r = id r by
      intro r hr
      show pyStrip (' ' :: r) = r
      rw [pyStrip_cons_space]
      exact (strCanonB_iff.mp
        (toolCanonB_parts (hall r (List.mem_cons_of_mem t hr))).1).1)]
    rw [List.map_id]
    rw [List.filter_eq_self.mpr ?_]
    intro a ha
    simp only [decide_eq_true_eq]
    exact hne a ha

theorem collapseManifests_round {ms : List Str} (h : ∀ m ∈ ms, strCanonB m = true) :
    collapseManifests (ms.map (fun m => tS "manifest: " ++ m)) = ms := by
  unfold collapseManifests
  rw [List.map_map]
  rw [List.map_congr_left ?_, List.map_id]
  intro m hm
  simp only [Function.comp_apply, id_eq]
  rw [if_pos (show ':' ∈ tS "manifest: " ++ m from List.mem_append_left _ (by decide))]
  rw [show (tS "manifest: " ++ m : Str) = tS "manifest" ++ ':' :: (' ' :: m) from rfl]
  rw [splitFirstSub_single (by decide)]
  show (if lowerStr (pyStrip (tS "manifest")) = tS "manifest" ∨
      lowerStr (pyStrip (tS "manifest")) = tS "manifests" then pyStrip (' ' :: m)
    else pyStrip (tS "manifest" ++ ':' :: ' ' :: m)) = m
  rw [if_pos (Or.inl (show lowerStr (pyStrip (tS "manifest")) = tS "manifest" from rfl))]
  rw [pyStrip_cons_space]
  exact (strCanonB_iff.mp (h m hm)).1

theorem parseHeaderLines_step {key v : Str} (hkey : ':' ∉ key)
    (rest : List Str) (m : List (Str × Str)) :
    parseHeaderLines ((key ++ ':' :: ' ' :: v) :: rest) m =
      parseHeaderLines rest (aSet m (pyStrip key) (pyStrip v)) := by
  conv_lhs => unfold parseHeaderLines
  rw [if_pos (List.mem_append_right key (List.mem_cons_self ':' (' ' :: v)))]
  rw [splitFirstSub_single hkey]
  show parseHeaderLines rest (aSet m (pyStrip key) (pyStrip (' ' :: v))) = _
  rw [pyStrip_cons_space]

/-! ## C4: remaining round-trip infrastructure -/

theorem validatePacket_ok_inv2 {p : Packet} (hv : validatePacket p = .ok ()) :
    pyStrip p.ID ≠ [] ∧ pyStrip p.TS ≠ [] ∧ pyStrip p.MODE ≠ [] ∧
    pyStrip p.TASK ≠ [] ∧ pyStrip p.STATE ≠ [] ∧ pyStrip p.goal ≠ [] ∧
    (∀ c, p.confidence = some c → 0 ≤ c ∧ c ≤ 1) := by
  unfold validatePacket at hv
  obtain ⟨-, hv⟩ := requireString_bind hv
  obtain ⟨-, hv⟩ := ite_error_ok hv
  obtain ⟨hID, hv⟩ := requireString_bind hv
  obtain ⟨hTS, hv⟩ := requireString_bind hv
  obtain ⟨hMODE, hv⟩ := requireString_bind hv
  obtain ⟨hTASK, hv⟩ := requireString_bind hv
  obtain ⟨hSTATE, hv⟩ := requireString_bind hv
  obtain ⟨-, hv⟩ := ite_error_ok hv
  obtain ⟨-, hv⟩ := ite_error_ok hv
  obtain ⟨hGoal, hv⟩ := requireString_bind hv
  refine ⟨hID, hTS, hMODE, hTASK, hSTATE, hGoal, ?_⟩
  intro c hc
  rw [hc] at hv
  replace hv : (if c < 0 ∨ c > 1 then
      (Except.error "confidence must be between 0 and 1." : Except String Unit)
    else .ok ()) = .ok () := hv
  obtain ⟨hc2, -⟩ := ite_error_ok hv
  push_neg at hc2
  exact hc2

theorem approval_canon {v : Str}
    (h : v = tS "none" ∨ v = tS "requested" ∨ v = tS "granted_by_human") :
    pyStrip v = v ∧ '\n' ∉ v ∧ '\r' ∉ v := by
  rcases h with h | h | h <;> subst h <;> exact ⟨by decide, by decide, by decide⟩

theorem failclass_canon {v : Str}
    (h : v = tS "NONE" ∨ v = tS "SPEC" ∨ v = tS "ENV" ∨ v = tS "TEST" ∨ v = tS "LOGIC" ∨
      v = tS "INTEGRATION" ∨ v = tS "DATA" ∨ v = tS "TOOLING") :
    pyStrip v = v ∧ '\n' ∉ v ∧ '\r' ∉ v := by
  rcases h with h | h | h | h | h | h | h | h <;> subst h <;>
    exact ⟨by decide, by decide, by decide⟩

theorem optHeaderVal_canon {o : Option Str} (h : optNullableCanonB o = true) :
    pyStrip (optHeaderVal o) = optHeaderVal o ∧
      '\n' ∉ optHeaderVal o ∧ '\r' ∉ optHeaderVal o := by
  cases o with
  | none => exact ⟨by decide, by decide, by decide⟩
  | some v =>
    unfold optNullableCanonB at h
    rw [Bool.and_eq_true, Bool.and_eq_true, Bool.and_eq_true] at h
    exact strCanonB_iff.mp h.1.1.1

theorem normalizeNullable_optHeaderVal {o : Option Str} (h : optNullableCanonB o = true) :
    normalizeNullable (optHeaderVal o) = o := by
  cases o with
  | none => decide
  | some v => exact normalizeNullable_of_canon h

theorem tools_join_no_nl {ts : List Str} (h : ts.all toolCanonB = true) :
    '\n' ∉ joinWith (tS ", ") ts := by
  intro hmem
  rcases mem_joinWith_gen hmem with hs | ⟨l, hl, hcl⟩
  · exact absurd hs (by decide)
  · exact (strCanonB_iff.mp (toolCanonB_parts (List.all_eq_true.mp h l hl)).1).2.1 hcl

theorem tools_join_no_cr {ts : List Str} (h : ts.all toolCanonB = true) :
    '\r' ∉ joinWith (tS ", ") ts := by
  intro hmem
  rcases mem_joinWith_gen hmem with hs | ⟨l, hl, hcl⟩
  · exact absurd hs (by decide)
  · exact (strCanonB_iff.mp (toolCanonB_parts (List.all_eq_true.mp h l hl)).1).2.2 hcl

theorem manifest_item_strip {m : Str} (hc : strCanonB m = true) (hne : m ≠ []) :
    pyStrip (tS "manifest: " ++ m) = tS "manifest: " ++ m := by
  obtain ⟨hstrip, -, -⟩ := strCanonB_iff.mp hc
  apply pyStrip_eq_self_of_ends
  · intro c hcc
    rw [show (tS "manifest: " ++ m).head? = some 'm' from rfl] at hcc
    simp only [Option.some.injEq] at hcc
    rw [← hcc]
    decide
  · intro c hcc
    rw [List.getLast?_append_of_ne_nil _ hne] at hcc
    exact canon_last_nonspace hstrip c hcc

theorem not_mem_append' {c : Char} {a b : Str} (h1 : c ∉ a) (h2 : c ∉ b) :
    c ∉ a ++ b := by
  intro h
  rcases List.mem_append.mp h with h | h
  · exact h1 h
  · exact h2 h

theorem confLines_no_nl_cr {o : Option ℚ}
    (hq : ∀ q, o = some q → 0 ≤ q) :
    ∀ l ∈ confLines o, '\n' ∉ l ∧ '\r' ∉ l := by
  cases o with
  | none => intro l hl; simp [confLines] at hl
  | some q =>
    intro l hl
    have hchars := (renderConf_chars (hq q rfl)).1
    have hl2 : l ∈ [([] : Str), tS "CONFIDENCE: " ++ renderConf q] := hl
    simp only [List.mem_cons] at hl2
    rcases hl2 with hl | hl | hl
    · subst hl; exact ⟨by decide, by decide⟩
    · subst hl
      constructor
      · apply not_mem_append' (by decide)
        intro hmem
        exact absurd (hchars '\n' hmem) (by decide)
      · apply not_mem_append' (by decide)
        intro hmem
        exact absurd (hchars '\r' hmem) (by decide)
    · simp at hl

theorem parseBodyLines_confTail {o : Option ℚ}
    (hq : ∀ q, o = some q → 0 ≤ q ∧ ∃ d, decScale q = some d) :
    ∀ (acc : BodyAcc), acc.confidence = none →
    parseBodyLines (confLines o ++ [[]]) acc =
      .ok { acc with confidence := o, active := confActive o acc.active } := by
  intro acc hacc
  obtain ⟨n, nx, r, a, ar, qs, g, cf, ac⟩ := acc
  simp only at hacc
  subst hacc
  cases o with
  | none => rfl
  | some q =>
    obtain ⟨hq0, d, hd⟩ := hq q rfl
    show parseBodyLines ([] :: (tS "CONFIDENCE: " ++ renderConf q) :: [[]]) _ = _
    rw [parseBodyLines_blank, parseBodyLines_conf hq0 hd]
    rfl

theorem exceptBind_ok {α β : Type} (a : α) (k : α → Except String β) :
    (Except.ok a >>= k) = k a := rfl

theorem ne_nil_of_not_isEmpty {m : Str} (h : (!m.isEmpty) = true) : m ≠ [] := by
  cases m with
  | nil => simp at h
  | cons a as => simp

theorem joinWith_split_blank {hdr : List Str} {t : Str} {rest : List Str} (h1 : hdr ≠ []) :
    joinWith (tS "\n") (hdr ++ [] :: t :: rest) =
      joinWith (tS "\n") hdr ++ '\n' :: '\n' :: joinWith (tS "\n") (t :: rest) := by
  rw [joinWith_append (tS "\n") h1 (by simp)]
  rw [List.append_assoc]
  rfl

theorem parseBodyLines_now_app (rest : List Str) (acc : BodyAcc) :
    parseBodyLines ((tS "NOW" ++ tS ":") :: rest) acc =
      parseBodyLines rest { acc with active := some Sec.NOW } := rfl

theorem parseBodyLines_next_app (rest : List Str) (acc : BodyAcc) :
    parseBodyLines ((tS "NEXT" ++ tS ":") :: rest) acc =
      parseBodyLines rest { acc with active := some Sec.NEXT } := rfl

theorem parseBodyLines_risks_app (rest : List Str) (acc : BodyAcc) :
    parseBodyLines ((tS "RISKS" ++ tS ":") :: rest) acc =
      parseBodyLines rest { acc with active := some Sec.RISKS } := rfl

theorem parseBodyLines_accept_app (rest : List Str) (acc : BodyAcc) :
    parseBodyLines ((tS "ACCEPT" ++ tS ":") :: rest) acc =
      parseBodyLines rest { acc with active := some Sec.ACCEPT } := rfl

theorem parseBodyLines_artifacts_app (rest : List Str) (acc : BodyAcc) :
    parseBodyLines ((tS "ARTIFACTS" ++ tS ":") :: rest) acc =
      parseBodyLines rest { acc with active := some Sec.ARTIFACTS } := rfl

theorem parseBodyLines_questions_app (rest : List Str) (acc : BodyAcc) :
    parseBodyLines ((tS "QUESTIONS" ++ tS ":") :: rest) acc =
      parseBodyLines rest { acc with active := some Sec.QUESTIONS } := rfl

theorem parseHeaderBlock_cons (rest : List Str) :
    parseHeaderBlock (tS "ATP/0.1" :: rest) =
      parseHeaderLines rest [(tS "ATP", tS "ATP/0.1")] := rfl

theorem parsePacketText_eq {text H B : Str} (hsp : splitPacket text = .ok (H, B)) :
    parsePacketText text =
      (parseHeaderBlock ((splitChar '\n' H).filter (fun l => pyStrip l ≠ [])) >>= fun hs =>
       parseBodyLines (splitChar '\n' B) BodyAcc.init >>= fun acc =>
       Except.ok (packetOfParts hs acc)) := by
  unfold parsePacketText
  rw [hsp]
  rfl

theorem renderPacket_lines (p : Packet) :
    renderPacket p = joinWith (tS "\n")
      ([tS "ATP/0.1", tS "ID: " ++ p.ID, tS "TS: " ++ p.TS, tS "MODE: " ++ p.MODE,
        tS "TASK: " ++ p.TASK, tS "STATE: " ++ p.STATE,
        tS "PARENT: " ++ optHeaderVal p.PARENT, tS "ETAG: " ++ optHeaderVal p.ETAG,
        tS "TOOLS: " ++ joinWith (tS ", ") p.TOOLS, tS "APPROVAL: " ++ p.APPROVAL,
        tS "FAIL_CLASS: " ++ p.FAIL_CLASS] ++
       [] :: (tS "GOAL: " ++ p.goal) :: [] :: (tS "NOW" ++ tS ":") ::
         (p.nowS.map (fun item => tS "- " ++ item) ++
       [] :: (tS "NEXT" ++ tS ":") :: (p.nextS.map (fun item => tS "- " ++ item) ++
       [] :: (tS "RISKS" ++ tS ":") :: (p.risksS.map (fun item => tS "- " ++ item) ++
       [] :: (tS "ACCEPT" ++ tS ":") :: (p.acceptS.map (fun item => tS "- " ++ item) ++
       [] :: (tS "ARTIFACTS" ++ tS ":") ::
         ((p.manifests.map (fun m => tS "manifest: " ++ m)).map
           (fun item => tS "- " ++ item) ++
       [] :: (tS "QUESTIONS" ++ tS ":") :: (p.questionsS.map (fun item => tS "- " ++ item) ++
       (confLines p.confidence ++ [[]])))))))) := by
  unfold renderPacket
  simp only [renderSection, List.append_assoc, List.cons_append, List.nil_append]

set_option maxHeartbeats 2000000 in
/-- The round-trip law on validated, wire-canonical packets: rendering and
re-parsing is the identity. -/
theorem parse_render_canonical {p : Packet} (hv : validatePacket p = .ok ())
    (hw : wireCanonB p = true) :
    parsePacketText (renderPacket p) = .ok p := by
  unfold wireCanonB at hw
  simp only [Bool.and_eq_true] at hw
  obtain ⟨⟨⟨⟨⟨⟨⟨⟨⟨⟨⟨⟨⟨⟨⟨hwID, hwTS⟩, hwMODE⟩, hwTASK⟩, hwSTATE⟩, hwPAR⟩, hwETAG⟩,
    hwTOOLS⟩, hwGOAL⟩, hwNOW⟩, hwNEXT⟩, hwRISKS⟩, hwACCEPT⟩, hwQUESTIONS⟩, hwMANIF⟩,
    hwCONF⟩ := hw
  obtain ⟨hATP, hAPP, hFC⟩ := validatePacket_ok_inv hv
  obtain ⟨hID0, hTS0, hMODE0, hTASK0, hSTATE0, hGOAL0, hCONF01⟩ := validatePacket_ok_inv2 hv
  obtain ⟨hsID, hnID, hrID⟩ := strCanonB_iff.mp hwID
  obtain ⟨hsTS, hnTS, hrTS⟩ := strCanonB_iff.mp hwTS
  obtain ⟨hsMODE, hnMODE, hrMODE⟩ := strCanonB_iff.mp hwMODE
  obtain ⟨hsTASK, hnTASK, hrTASK⟩ := strCanonB_iff.mp hwTASK
  obtain ⟨hsSTATE, hnSTATE, hrSTATE⟩ := strCanonB_iff.mp hwSTATE
  obtain ⟨hsGOAL, hnGOAL, hrGOAL⟩ := strCanonB_iff.mp hwGOAL
  obtain ⟨hsPAR, hnPAR, hrPAR⟩ := optHeaderVal_canon hwPAR
  obtain ⟨hsETAG, hnETAG, hrETAG⟩ := optHeaderVal_canon hwETAG
  obtain ⟨hsAPP, hnAPP, hrAPP⟩ := approval_canon hAPP
  obtain ⟨hsFC, hnFC, hrFC⟩ := failclass_canon hFC
  have hnTOOLS := tools_join_no_nl hwTOOLS
  have hrTOOLS := tools_join_no_cr hwTOOLS
  have hsTOOLS := tools_join_strip (List.all_eq_true.mp hwTOOLS)
  have hgne : p.goal ≠ [] := fun h0 => hGOAL0 (by rw [h0]; rfl)
  have hq : ∀ q, p.confidence = some q → 0 ≤ q ∧ ∃ d, decScale q = some d := by
    intro q hcq
    refine ⟨(hCONF01 q hcq).1, ?_⟩
    have hc := hwCONF
    rw [hcq] at hc
    exact Option.isSome_iff_exists.mp hc
  have hhdr : ∀ l ∈ [tS "ATP/0.1", tS "ID: " ++ p.ID, tS "TS: " ++ p.TS,
      tS "MODE: " ++ p.MODE, tS "TASK: " ++ p.TASK, tS "STATE: " ++ p.STATE,
      tS "PARENT: " ++ optHeaderVal p.PARENT, tS "ETAG: " ++ optHeaderVal p.ETAG,
      tS "TOOLS: " ++ joinWith (tS ", ") p.TOOLS, tS "APPROVAL: " ++ p.APPROVAL,
      tS "FAIL_CLASS: " ++ p.FAIL_CLASS],
      ('\n' ∉ l ∧ '\r' ∉ l) ∧ (l ≠ [] ∧ pyStrip l ≠ []) := by
    intro l hl
    simp only [List.mem_cons, List.not_mem_nil, or_false] at hl
    rcases hl with h | h | h | h | h | h | h | h | h | h | h <;> subst h
    · exact ⟨⟨by decide, by decide⟩, by decide, by decide⟩
    · exact ⟨⟨not_mem_append' (by decide) hnID, not_mem_append' (by decide) hrID⟩,
        cons_append_ne_nil,
        pyStrip_ne_nil_of_mem
          (List.mem_append_left _ (show ('I' : Char) ∈ tS "ID: " by decide))
          (by decide)⟩
    · exact ⟨⟨not_mem_append' (by decide) hnTS, not_mem_append' (by decide) hrTS⟩,
        cons_append_ne_nil,
        pyStrip_ne_nil_of_mem
          (List.mem_append_left _ (show ('T' : Char) ∈ tS "TS: " by decide))
          (by decide)⟩
    · exact ⟨⟨not_mem_append' (by decide) hnMODE, not_mem_append' (by decide) hrMODE⟩,
        cons_append_ne_nil,
        pyStrip_ne_nil_of_mem
          (List.mem_append_left _ (show ('M' : Char) ∈ tS "MODE: " by decide))
          (by decide)⟩
    · exact ⟨⟨not_mem_append' (by decide) hnTASK, not_mem_append' (by decide) hrTASK⟩,
        cons_append_ne_nil,
        pyStrip_ne_nil_of_mem
          (List.mem_append_left _ (show ('T' : Char) ∈ tS "TASK: " by decide))
          (by decide)⟩
    · exact ⟨⟨not_mem_append' (by decide) hnSTATE, not_mem_append' (by decide) hrSTATE⟩,
        cons_append_ne_nil,
        pyStrip_ne_nil_of_mem
          (List.mem_append_left _ (show ('S' : Char) ∈ tS "STATE: " by decide))
          (by decide)⟩
    · exact ⟨⟨not_mem_append' (by decide) hnPAR, not_mem_append' (by decide) hrPAR⟩,
        cons_append_ne_nil,
        pyStrip_ne_nil_of_mem
          (List.mem_append_left _ (show ('P' : Char) ∈ tS "PARENT: " by decide))
          (by decide)⟩
    · exact ⟨⟨not_mem_append' (by decide) hnETAG, not_mem_append' (by decide) hrETAG⟩,
        cons_append_ne_nil,
        pyStrip_ne_nil_of_mem
          (List.mem_append_left _ (show ('E' : Char) ∈ tS "ETAG: " by decide))
          (by decide)⟩
    · exact ⟨⟨not_mem_append' (by decide) hnTOOLS, not_mem_append' (by decide) hrTOOLS⟩,
        cons_append_ne_nil,
        pyStrip_ne_nil_of_mem
          (List.mem_append_left _ (show ('T' : Char) ∈ tS "TOOLS: " by decide))
          (by decide)⟩
    · exact ⟨⟨not_mem_append' (by decide) hnAPP, not_mem_append' (by decide) hrAPP⟩,
        cons_append_ne_nil,
        pyStrip_ne_nil_of_mem
          (List.mem_append_left _ (show ('A' : Char) ∈ tS "APPROVAL: " by decide))
          (by decide)⟩
    · exact ⟨⟨not_mem_append' (by decide) hnFC, not_mem_append' (by decide) hrFC⟩,
        cons_append_ne_nil,
        pyStrip_ne_nil_of_mem
          (List.mem_append_left _ (show ('F' : Char) ∈ tS "FAIL_CLASS: " by decide))
          (by decide)⟩
  have hbody : ∀ l ∈ (tS "GOAL: " ++ p.goal) :: [] :: (tS "NOW" ++ tS ":") ::
      (p.nowS.map (fun item => tS "- " ++ item) ++
      [] :: (tS "NEXT" ++ tS ":") :: (p.nextS.map (fun item => tS "- " ++ item) ++
      [] :: (tS "RISKS" ++ tS ":") :: (p.risksS.map (fun item => tS "- " ++ item) ++
      [] :: (tS "ACCEPT" ++ tS ":") :: (p.acceptS.map (fun item => tS "- " ++ item) ++
      [] :: (tS "ARTIFACTS" ++ tS ":") ::
        ((p.manifests.map (fun m => tS "manifest: " ++ m)).map
          (fun item => tS "- " ++ item) ++
      [] :: (tS "QUESTIONS" ++ tS ":") :: (p.questionsS.map (fun item => tS "- " ++ item) ++
      (confLines p.confidence ++ [[]]))))))), '\n' ∉ l ∧ '\r' ∉ l := by
    intro l hl
    simp only [List.mem_cons, List.mem_append, List.mem_map, List.not_mem_nil,
      or_false] at hl
    rcases hl with h | h | h | ⟨it, hit, h⟩ | h | h | ⟨it, hit, h⟩ | h | h | ⟨it, hit, h⟩ |
      h | h | ⟨it, hit, h⟩ | h | h | ⟨a, ⟨m, hm, ha⟩, h⟩ | h | h | ⟨it, hit, h⟩ | hc | h
    · subst h
      exact ⟨not_mem_append' (by decide) hnGOAL, not_mem_append' (by decide) hrGOAL⟩
    · subst h; exact ⟨List.not_mem_nil _, List.not_mem_nil _⟩
    · subst h; exact ⟨by decide, by decide⟩
    · subst h
      have hcn := strCanonB_iff.mp (List.all_eq_true.mp hwNOW it hit)
      exact ⟨not_mem_append' (by decide) hcn.2.1, not_mem_append' (by decide) hcn.2.2⟩
    · subst h; exact ⟨List.not_mem_nil _, List.not_mem_nil _⟩
    · subst h; exact ⟨by decide, by decide⟩
    · subst h
      have hcn := strCanonB_iff.mp (List.all_eq_true.mp hwNEXT it hit)
      exact ⟨not_mem_append' (by decide) hcn.2.1, not_mem_append' (by decide) hcn.2.2⟩
    · subst h; exact ⟨List.not_mem_nil _, List.not_mem_nil _⟩
    · subst h; exact ⟨by decide, by decide⟩
    · subst h
      have hcn := strCanonB_iff.mp (List.all_eq_true.mp hwRISKS it hit)
      exact ⟨not_mem_append' (by decide) hcn.2.1, not_mem_append' (by decide) hcn.2.2⟩
    · subst h; exact ⟨List.not_mem_nil _, List.not_mem_nil _⟩
    · subst h; exact ⟨by decide, by decide⟩
    · subst h
      have hcn := strCanonB_iff.mp (List.all_eq_true.mp hwACCEPT it hit)
      exact ⟨not_mem_append' (by decide) hcn.2.1, not_mem_append' (by decide) hcn.2.2⟩
    · subst h; exact ⟨List.not_mem_nil _, List.not_mem_nil _⟩
    · subst h; exact ⟨by decide, by decide⟩
    · subst ha
      subst h
      have h2 := List.all_eq_true.mp hwMANIF m hm
      rw [Bool.and_eq_true] at h2
      have hcn := strCanonB_iff.mp h2.1
      exact ⟨not_mem_append' (by decide) (not_mem_append' (by decide) hcn.2.1),
        not_mem_append' (by decide) (not_mem_append' (by decide) hcn.2.2)⟩
    · subst h; exact ⟨List.not_mem_nil _, List.not_mem_nil _⟩
    · subst h; exact ⟨by decide, by decide⟩
    · subst h
      have hcn := strCanonB_iff.mp (List.all_eq_true.mp hwQUESTIONS it hit)
      exact ⟨not_mem_append' (by decide) hcn.2.1, not_mem_append' (by decide) hcn.2.2⟩
    · exact confLines_no_nl_cr (fun q hq' => (hCONF01 q hq').1) l hc
    · subst h; exact ⟨List.not_mem_nil _, List.not_mem_nil _⟩
  have hHgood := header_block_good (fun l hl => ⟨(hhdr l hl).1.1, (hhdr l hl).2.1⟩)
    (by simp)
  have hcrH : '\r' ∉ joinWith (tS "\n") [tS "ATP/0.1", tS "ID: " ++ p.ID,
      tS "TS: " ++ p.TS, tS "MODE: " ++ p.MODE, tS "TASK: " ++ p.TASK,
      tS "STATE: " ++ p.STATE, tS "PARENT: " ++ optHeaderVal p.PARENT,
      tS "ETAG: " ++ optHeaderVal p.ETAG, tS "TOOLS: " ++ joinWith (tS ", ") p.TOOLS,
      tS "APPROVAL: " ++ p.APPROVAL, tS "FAIL_CLASS: " ++ p.FAIL_CLASS] := by
    intro hmem
    rcases mem_joinWith_gen hmem with hs | ⟨l, hl, hcl⟩
    · exact absurd hs (by decide)
    · exact (hhdr l hl).1.2 hcl
  have hcrB : '\r' ∉ joinWith (tS "\n") ((tS "GOAL: " ++ p.goal) :: [] ::
      (tS "NOW" ++ tS ":") :: (p.nowS.map (fun item => tS "- " ++ item) ++
      [] :: (tS "NEXT" ++ tS ":") :: (p.nextS.map (fun item => tS "- " ++ item) ++
      [] :: (tS "RISKS" ++ tS ":") :: (p.risksS.map (fun item => tS "- " ++ item) ++
      [] :: (tS "ACCEPT" ++ tS ":") :: (p.acceptS.map (fun item => tS "- " ++ item) ++
      [] :: (tS "ARTIFACTS" ++ tS ":") ::
        ((p.manifests.map (fun m => tS "manifest: " ++ m)).map
          (fun item => tS "- " ++ item) ++
      [] :: (tS "QUESTIONS" ++ tS ":") :: (p.questionsS.map (fun item => tS "- " ++ item) ++
      (confLines p.confidence ++ [[]])))))))) := by
    intro hmem
    rcases mem_joinWith_gen hmem with hs | ⟨l, hl, hcl⟩
    · exact absurd hs (by decide)
    · exact (hbody l hl).2 hcl
  have hsp := splitPacket_eq hHgood.1 hHgood.2 hcrH hcrB
  have hHS : parseHeaderBlock [tS "ATP/0.1", tS "ID: " ++ p.ID, tS "TS: " ++ p.TS,
      tS "MODE: " ++ p.MODE, tS "TASK: " ++ p.TASK, tS "STATE: " ++ p.STATE,
      tS "PARENT: " ++ optHeaderVal p.PARENT, tS "ETAG: " ++ optHeaderVal p.ETAG,
      tS "TOOLS: " ++ joinWith (tS ", ") p.TOOLS, tS "APPROVAL: " ++ p.APPROVAL,
      tS "FAIL_CLASS: " ++ p.FAIL_CLASS] = .ok
      [(tS "ATP", tS "ATP/0.1"), (tS "ID", p.ID), (tS "TS", p.TS), (tS "MODE", p.MODE),
       (tS "TASK", p.TASK), (tS "STATE", p.STATE), (tS "PARENT", optHeaderVal p.PARENT),
       (tS "ETAG", optHeaderVal p.ETAG), (tS "TOOLS", joinWith (tS ", ") p.TOOLS),
       (tS "APPROVAL", p.APPROVAL), (tS "FAIL_CLASS", p.FAIL_CLASS)] := by
    rw [parseHeaderBlock_cons]
    rw [show (tS "ID: " ++ p.ID : Str) = tS "ID" ++ ':' :: ' ' :: p.ID from rfl,
      parseHeaderLines_step (show (':' : Char) ∉ tS "ID" by decide)]
    rw [show (tS "TS: " ++ p.TS : Str) = tS "TS" ++ ':' :: ' ' :: p.TS from rfl,
      parseHeaderLines_step (show (':' : Char) ∉ tS "TS" by decide)]
    rw [show (tS "MODE: " ++ p.MODE : Str) = tS "MODE" ++ ':' :: ' ' :: p.MODE from rfl,
      parseHeaderLines_step (show (':' : Char) ∉ tS "MODE" by decide)]
    rw [show (tS "TASK: " ++ p.TASK : Str) = tS "TASK" ++ ':' :: ' ' :: p.TASK from rfl,
      parseHeaderLines_step (show (':' : Char) ∉ tS "TASK" by decide)]
    rw [show (tS "STATE: " ++ p.STATE : Str) = tS "STATE" ++ ':' :: ' ' :: p.STATE from rfl,
      parseHeaderLines_step (show (':' : Char) ∉ tS "STATE" by decide)]
    rw [show (tS "PARENT: " ++ optHeaderVal p.PARENT : Str) =
        tS "PARENT" ++ ':' :: ' ' :: optHeaderVal p.PARENT from rfl,
      parseHeaderLines_step (show (':' : Char) ∉ tS "PARENT" by decide)]
    rw [show (tS "ETAG: " ++ optHeaderVal p.ETAG : Str) =
        tS "ETAG" ++ ':' :: ' ' :: optHeaderVal p.ETAG from rfl,
      parseHeaderLines_step (show (':' : Char) ∉ tS "ETAG" by decide)]
    rw [show (tS "TOOLS: " ++ joinWith (tS ", ") p.TOOLS : Str) =
        tS "TOOLS" ++ ':' :: ' ' :: joinWith (tS ", ") p.TOOLS from rfl,
      parseHeaderLines_step (show (':' : Char) ∉ tS "TOOLS" by decide)]
    rw [show (tS "APPROVAL: " ++ p.APPROVAL : Str) =
        tS "APPROVAL" ++ ':' :: ' ' :: p.APPROVAL from rfl,
      parseHeaderLines_step (show (':' : Char) ∉ tS "APPROVAL" by decide)]
    rw [show (tS "FAIL_CLASS: " ++ p.FAIL_CLASS : Str) =
        tS "FAIL_CLASS" ++ ':' :: ' ' :: p.FAIL_CLASS from rfl,
      parseHeaderLines_step (show (':' : Char) ∉ tS "FAIL_CLASS" by decide)]
    rw [hsID, hsTS, hsMODE, hsTASK, hsSTATE, hsPAR, hsETAG, hsTOOLS, hsAPP, hsFC]
    rfl
  rw [renderPacket_lines, joinWith_split_blank (by simp)]
  rw [parsePacketText_eq hsp]
  rw [splitChar_joinWith_nl (by simp) (fun l hl => (hhdr l hl).1.1)]
  rw [List.filter_eq_self.mpr (fun l hl => decide_eq_true (hhdr l hl).2.2)]
  rw [hHS]
  simp only [exceptBind_ok]
  rw [splitChar_joinWith_nl (by simp) (fun l hl => (hbody l hl).1)]
  rw [parseBodyLines_goal hwGOAL hgne, parseBodyLines_blank, parseBodyLines_now_app]
  rw [parseBodyLines_items Sec.NOW, foldl_push_now, parseBodyLines_blank,
    parseBodyLines_next_app]
  rw [parseBodyLines_items Sec.NEXT, foldl_push_next, parseBodyLines_blank,
    parseBodyLines_risks_app]
  rw [parseBodyLines_items Sec.RISKS, foldl_push_risks, parseBodyLines_blank,
    parseBodyLines_accept_app]
  rw [parseBodyLines_items Sec.ACCEPT, foldl_push_accept, parseBodyLines_blank,
    parseBodyLines_artifacts_app]
  rw [parseBodyLines_items Sec.ARTIFACTS, foldl_push_artifacts, parseBodyLines_blank,
    parseBodyLines_questions_app]
  rw [parseBodyLines_items Sec.QUESTIONS, foldl_push_questions]
  rw [parseBodyLines_confTail hq]
  simp only [exceptBind_ok]
  refine congrArg Except.ok ?_
  show Packet.mk (tS "ATP/0.1") p.ID p.TS p.MODE p.TASK p.STATE
      (normalizeNullable (optHeaderVal p.PARENT)) (normalizeNullable (optHeaderVal p.ETAG))
      (parseTools (joinWith (tS ", ") p.TOOLS)) p.APPROVAL p.FAIL_CLASS p.goal p.nowS
      p.nextS p.risksS p.acceptS p.questionsS
      (collapseManifests (p.manifests.map (fun m => tS "manifest: " ++ m))) p.confidence =
    Packet.mk p.ATP p.ID p.TS p.MODE p.TASK p.STATE p.PARENT p.ETAG p.TOOLS p.APPROVAL
      p.FAIL_CLASS p.goal p.nowS p.nextS p.risksS p.acceptS p.questionsS p.manifests
      p.confidence
  rw [Packet.mk.injEq]
  refine ⟨hATP.symm, rfl, rfl, rfl, rfl, rfl, normalizeNullable_optHeaderVal hwPAR,
    normalizeNullable_optHeaderVal hwETAG, parseTools_join hwTOOLS, rfl, rfl, rfl, rfl,
    rfl, rfl, rfl, rfl, collapseManifests_round (fun m hm => by
      have h2 := List.all_eq_true.mp hwMANIF m hm
      rw [Bool.and_eq_true] at h2
      exact h2.1), rfl⟩
  · rfl
  · rfl
  · exact fun it hit => (strCanonB_iff.mp (List.all_eq_true.mp hwQUESTIONS it hit)).1
  · rfl
  · intro it hit
    obtain ⟨m, hm, hmi⟩ := List.mem_map.mp hit
    subst hmi
    have h2 := List.all_eq_true.mp hwMANIF m hm
    rw [Bool.and_eq_true] at h2
    exact manifest_item_strip h2.1 (ne_nil_of_not_isEmpty h2.2)
  · rfl
  · exact fun it hit => (strCanonB_iff.mp (List.all_eq_true.mp hwACCEPT it hit)).1
  · rfl
  · exact fun it hit => (strCanonB_iff.mp (List.all_eq_true.mp hwRISKS it hit)).1
  · rfl
  · exact fun it hit => (strCanonB_iff.mp (List.all_eq_true.mp hwNEXT it hit)).1
  · rfl
  · exact fun it hit => (strCanonB_iff.mp (List.all_eq_true.mp hwNOW it hit)).1

/-- C4 (amended): for every packet that passes `validate_packet` and is
wire-canonical — every free-text field strip-invariant and free of CR/LF,
nullable headers not a spelling of `null`/`none`, tool tokens free of the
`[|,]` separators, manifest entries nonempty, confidence (when present) an
exact decimal — `parse_packet_text (render_packet p)` returns exactly `p`,
including PARENT/ETAG nullability, the TOOLS list, `artifacts.manifests`, all
body list sections and the optional confidence. -/
theorem c4_parse_render_round_trip (p : Packet) (hv : validatePacket p = .ok ())
    (hw : wireCanonB p = true) :
    parsePacketText (renderPacket p) = .ok p :=
  parse_render_canonical hv hw

/-- C4 witness: the round trip at a rich wire-canonical packet exercising
every optional feature. -/
theorem c4_parse_render_round_trip_witness :
    validatePacket pCanon = .ok () ∧ wireCanonB pCanon = true ∧
      parsePacketText (renderPacket pCanon) = .ok pCanon :=
  ⟨by with_unfolding_all decide, by with_unfolding_all decide,
    c4_parse_render_round_trip pCanon (by with_unfolding_all decide)
      (by with_unfolding_all decide)⟩

/-- C4 counterexample to the unrestricted claim: a packet whose `goal` holds a
trailing space passes `validate_packet`, yet parsing its rendering strips the
space, so the round trip is not the identity on all validated packets. -/
theorem c4_trailing_space_breaks_round_trip :
    validatePacket pTrail = .ok () ∧ parsePacketText (renderPacket pTrail) ≠ .ok pTrail := by
  constructor
  · decide
  · decide

/-! ## C5: decimal filenames, lexicographic order, and the store -/

theorem charsToNat_go (cs : Str) : ∀ acc : Nat,
    List.foldl (fun a c => a * 10 + (c.toNat - 48)) acc cs =
      acc * 10 ^ cs.length + charsToNat cs := by
  induction cs with
  | nil => intro acc; simp [charsToNat]
  | cons c cs ih =>
    intro acc
    rw [List.foldl_cons, ih]
    have h2 : charsToNat (c :: cs) = (c.toNat - 48) * 10 ^ cs.length + charsToNat cs := by
      show List.foldl _ (0 * 10 + (c.toNat - 48)) cs = _
      rw [ih]
      ring_nf
    rw [h2, List.length_cons]
    ring

theorem charsToNat_cons (c : Char) (cs : Str) :
    charsToNat (c :: cs) = (c.toNat - 48) * 10 ^ cs.length + charsToNat cs := by
  show List.foldl _ (0 * 10 + (c.toNat - 48)) cs = _
  rw [charsToNat_go]
  ring_nf

theorem charsToNat_append (a b : Str) :
    charsToNat (a ++ b) = charsToNat a * 10 ^ b.length + charsToNat b := by
  unfold charsToNat
  rw [List.foldl_append]
  exact charsToNat_go b _

theorem digit_toNat_range {c : Char} (h : c ∈ tS "0123456789") :
    48 ≤ c.toNat ∧ c.toNat ≤ 57 := by
  have h2 : c ∈ ['0', '1', '2', '3', '4', '5', '6', '7', '8', '9'] := h
  fin_cases h2 <;> exact ⟨by decide, by decide⟩

theorem digit_mem_isDigit {c : Char} (h : c ∈ tS "0123456789") : c.isDigit = true := by
  have h2 : c ∈ ['0', '1', '2', '3', '4', '5', '6', '7', '8', '9'] := h
  fin_cases h2 <;> decide

theorem digit_mem_facts {c : Char} (h : c ∈ tS "0123456789") :
    pyIsSpace c = false ∧ c ≠ '\n' ∧ c ≠ '\r' := by
  have h2 : c ∈ ['0', '1', '2', '3', '4', '5', '6', '7', '8', '9'] := h
  fin_cases h2 <;> exact ⟨by decide, by decide, by decide⟩

theorem charsToNat_lt {cs : Str} (h : ∀ c ∈ cs, 48 ≤ c.toNat ∧ c.toNat ≤ 57) :
    charsToNat cs < 10 ^ cs.length := by
  induction cs with
  | nil => decide
  | cons c cs ih =>
    rw [charsToNat_cons, List.length_cons]
    have hc := h c (List.mem_cons_self c cs)
    have hrest := ih (fun x hx => h x (List.mem_cons_of_mem c hx))
    have hv : c.toNat - 48 ≤ 9 := by omega
    calc (c.toNat - 48) * 10 ^ cs.length + charsToNat cs
        < (c.toNat - 48) * 10 ^ cs.length + 10 ^ cs.length := by omega
      _ = (c.toNat - 48 + 1) * 10 ^ cs.length := by ring
      _ ≤ 10 * 10 ^ cs.length := Nat.mul_le_mul_right _ (by omega)
      _ = 10 ^ (cs.length + 1) := by ring

theorem strLtB_asymm : ∀ {a b : Str}, strLtB a b = true → strLtB b a = false := by
  intro a
  induction a with
  | nil =>
    intro b h
    cases b with
    | nil => exact absurd h (by decide)
    | cons d bs => rfl
  | cons c as ih =>
    intro b h
    cases b with
    | nil => exact absurd h (by simp [strLtB])
    | cons d bs =>
      unfold strLtB at h ⊢
      by_cases h1 : c.toNat < d.toNat
      · rw [if_neg (by omega), if_pos h1]
      · rw [if_neg h1] at h
        by_cases h2 : d.toNat < c.toNat
        · rw [if_pos h2] at h
          exact absurd h (by decide)
        · rw [if_neg h2] at h
          rw [if_neg h2, if_neg h1]
          exact ih h

theorem strLtB_append_digits : ∀ {a b : Str}, a.length = b.length →
    (∀ c ∈ a, 48 ≤ c.toNat ∧ c.toNat ≤ 57) → (∀ c ∈ b, 48 ≤ c.toNat ∧ c.toNat ≤ 57) →
    charsToNat a < charsToNat b → ∀ (X Y : Str), strLtB (a ++ X) (b ++ Y) = true := by
  intro a
  induction a with
  | nil =>
    intro b hlen _ _ hval X Y
    cases b with
    | nil => exact absurd hval (by decide)
    | cons d bs => simp at hlen
  | cons c as ih =>
    intro b hlen ha hb hval X Y
    cases b with
    | nil => simp at hlen
    | cons d bs =>
      simp only [List.length_cons, Nat.succ.injEq] at hlen
      have hc := ha c (List.mem_cons_self c as)
      have hd := hb d (List.mem_cons_self d bs)
      have hav := charsToNat_lt (fun x hx => ha x (List.mem_cons_of_mem c hx))
      have hbv := charsToNat_lt (fun x hx => hb x (List.mem_cons_of_mem d hx))
      rw [charsToNat_cons, charsToNat_cons] at hval
      rw [List.cons_append, List.cons_append]
      unfold strLtB
      by_cases h1 : c.toNat < d.toNat
      · rw [if_pos h1]
      · rw [if_neg h1]
        by_cases h2 : d.toNat < c.toNat
        · exfalso
          have hge : c.toNat - 48 ≥ d.toNat - 48 + 1 := by omega
          have : (d.toNat - 48) * 10 ^ bs.length + charsToNat bs <
              (c.toNat - 48) * 10 ^ as.length + charsToNat as := by
            calc (d.toNat - 48) * 10 ^ bs.length + charsToNat bs
                < (d.toNat - 48) * 10 ^ bs.length + 10 ^ bs.length := by omega
              _ = (d.toNat - 48 + 1) * 10 ^ bs.length := by ring
              _ ≤ (c.toNat - 48) * 10 ^ as.length := by
                  rw [hlen]
                  exact Nat.mul_le_mul_right _ hge
              _ ≤ (c.toNat - 48) * 10 ^ as.length + charsToNat as := Nat.le_add_right _ _
          omega
        · rw [if_neg h2]
          have hcd : c.toNat = d.toNat := by omega
          rw [hcd, hlen] at hval
          have hval2 : charsToNat as < charsToNat bs := by omega
          exact ih hlen (fun x hx => ha x (List.mem_cons_of_mem c hx))
            (fun x hx => hb x (List.mem_cons_of_mem d hx)) hval2 X Y

theorem pad6_mem_digits {n : Nat} : ∀ c ∈ pad6 n, c ∈ tS "0123456789" := by
  intro c hc
  unfold pad6 at hc
  rcases List.mem_append.mp hc with h | h
  · rw [List.eq_of_mem_replicate h]
    decide
  · exact natToStr_mem_digits n c h

theorem pad6_length6 {n : Nat} (h : n < 1000000) : (pad6 n).length = 6 := by
  have hL : (natToStr n).length ≤ 6 :=
    natToStr_length_le (by norm_num; omega) (by norm_num)
  unfold pad6
  rw [List.length_append, List.length_replicate]
  omega

theorem charsToNat_pad6 (n : Nat) : charsToNat (pad6 n) = n := by
  unfold pad6
  rw [charsToNat_replicate_zero]
  exact charsToNat_natToStr n

theorem pad6_ne_nil (n : Nat) : pad6 n ≠ [] := by
  unfold pad6
  intro h
  rcases List.append_eq_nil.mp h with ⟨-, h2⟩
  exact natToStr_ne_nil n h2

theorem matchPacketName_build {n : Nat} (hn : n < 1000000) {sfx : Str} (hs : sfx ≠ [])
    (hnl : '\n' ∉ sfx) :
    matchPacketName (pad6 n ++ ('.' :: (sfx ++ tS ".atp"))) = some n := by
  have h6 := pad6_length6 hn
  simp only [matchPacketName]
  rw [List.take_left' h6, List.drop_left' h6]
  split
  · rw [charsToNat_pad6]
  · next hcond =>
    exfalso
    apply hcond
    have hlen5 : ('.' :: (sfx ++ tS ".atp")).length - 5 = sfx.length := by
      simp [List.length_append, show (tS ".atp").length = 4 from rfl]
    refine ⟨h6, List.all_eq_true.mpr
      (fun c hc => digit_mem_isDigit (pad6_mem_digits c hc)), rfl, ?_, ?_, ?_⟩
    · show (tS ".atp").isSuffixOf (sfx ++ tS ".atp") = true
      rw [List.isSuffixOf_iff_suffix]
      exact List.suffix_append _ _
    · have : 1 ≤ sfx.length := List.length_pos.mpr hs
      simp [List.length_append, show (tS ".atp").length = 4 from rfl]
      omega
    · show ¬ '\n' ∈ (sfx ++ tS ".atp").take (('.' :: (sfx ++ tS ".atp")).length - 5)
      rw [hlen5, List.take_left]
      exact hnl

theorem insSortedNat_append {x : Nat} : ∀ {l : List Nat}, (∀ y ∈ l, y ≤ x) →
    insSortedNat x l = l ++ [x] := by
  intro l
  induction l with
  | nil => intro _; rfl
  | cons y ys ih =>
    intro h
    unfold insSortedNat
    rw [if_pos (h y (List.mem_cons_self y ys))]
    rw [ih (fun z hz => h z (List.mem_cons_of_mem y hz))]
    rfl

theorem sortNat_concat (l : List Nat) (x : Nat) :
    sortNat (l ++ [x]) = insSortedNat x (sortNat l) := by
  unfold sortNat
  rw [List.foldl_append]
  rfl

theorem range'_getLast (k : Nat) : (List.range' 1 (k + 1)).getLast? = some (k + 1) := by
  rw [List.range'_concat, List.getLast?_concat]
  simp [Nat.add_comm]

theorem insSortedNat_range (k : Nat) :
    insSortedNat (k + 1) (List.range' 1 k) = List.range' 1 (k + 1) := by
  rw [insSortedNat_append (fun y hy => by rw [List.mem_range'_1] at hy; omega)]
  rw [List.range'_concat]
  simp [Nat.add_comm]

theorem insSorted_append_le {x : Str} : ∀ {l : List Str}, (∀ y ∈ l, strLeB y x = true) →
    insSorted strLeB x l = l ++ [x] := by
  intro l
  induction l with
  | nil => intro _; rfl
  | cons y ys ih =>
    intro h
    unfold insSorted
    rw [if_pos (h y (List.mem_cons_self y ys))]
    rw [ih (fun z hz => h z (List.mem_cons_of_mem y hz))]
    rfl

theorem sortStr_concat (l : List Str) (x : Str) :
    sortStr (l ++ [x]) = insSorted strLeB x (sortStr l) := by
  unfold sortStr
  rw [List.foldl_append]
  rfl

theorem mem_sortStr {y : Str} : ∀ {l : List Str}, y ∈ sortStr l → y ∈ l := by
  have hins : ∀ (x y : Str) (l : List Str), y ∈ insSorted strLeB x l → y = x ∨ y ∈ l := by
    intro x y l
    induction l with
    | nil => intro h; simpa [insSorted] using h
    | cons z zs ih =>
      unfold insSorted
      by_cases h : strLeB z x = true
      · rw [if_pos h]
        intro hm
        rcases List.mem_cons.mp hm with h2 | h2
        · right; exact h2 ▸ List.mem_cons_self z zs
        · rcases ih h2 with h3 | h3
          · left; exact h3
          · right; exact List.mem_cons_of_mem z h3
      · rw [if_neg h]
        intro hm
        rcases List.mem_cons.mp hm with h2 | h2
        · left; exact h2
        · right; exact h2
  have hgo : ∀ (l acc : List Str), y ∈ l.foldl (fun a x => insSorted strLeB x a) acc →
      y ∈ acc ∨ y ∈ l := by
    intro l
    induction l with
    | nil => intro acc h; left; exact h
    | cons x xs ih =>
      intro acc h
      rw [List.foldl_cons] at h
      rcases ih _ h with h2 | h2
      · rcases hins x y acc h2 with h3 | h3
        · right; exact h3 ▸ List.mem_cons_self x xs
        · left; exact h3
      · right; exact List.mem_cons_of_mem x h2
  intro l h
  rcases hgo l [] h with h2 | h2
  · simp at h2
  · exact h2

theorem writeFile_fresh {files : List (Str × Str)} {name : Str} (content : Str)
    (h : files.find? (fun e => e.1 = name) = none) :
    writeFile files name content = files ++ [(name, content)] := by
  induction files with
  | nil => rfl
  | cons e es ih =>
    rw [List.find?_eq_none] at h
    have he : ¬ (e.1 = name) := by
      have := h e (List.mem_cons_self e es)
      simpa using this
    unfold writeFile
    rw [if_neg he, ih (List.find?_eq_none.mpr
      (fun x hx => h x (List.mem_cons_of_mem e hx)))]
    rfl

theorem find?_append_none {α : Type} {p : α → Bool} {l1 l2 : List α}
    (h : l1.find? p = none) : (l1 ++ l2).find? p = l2.find? p := by
  rw [List.find?_append, h]
  rfl

theorem find?_pair_self (name : Str) (content : Str) (rest : List (Str × Str)) :
    ((name, content) :: rest).find? (fun e => e.1 = name) = some (name, content) := by
  simp

theorem updateStream_find (streams : List (Str × StreamDir)) (sid : Str) (d : StreamDir) :
    (updateStream streams sid d).find? (fun e => e.1 = sid) = some (sid, d) := by
  induction streams with
  | nil => simp [updateStream]
  | cons e es ih =>
    unfold updateStream
    by_cases he : e.1 = sid
    · rw [if_pos he]
      simp
    · rw [if_neg he]
      rw [List.find?_cons_of_neg _ (by simpa using he)]
      exact ih

theorem ensureStream_absent {streams : List (Str × StreamDir)} {sid : Str}
    (h : streams.find? (fun e => e.1 = sid) = none) :
    ensureStream streams sid = streams ++ [(sid, ⟨[], none⟩)] := by
  unfold ensureStream
  rw [h]
  rfl

theorem ensureStream_present {streams : List (Str × StreamDir)} {sid : Str} {e : Str × StreamDir}
    (h : streams.find? (fun e => e.1 = sid) = some e) :
    ensureStream streams sid = streams := by
  unfold ensureStream
  rw [h]
  rfl

theorem ensureLayout_streams (st : RootState) : (ensureLayout st).streams = st.streams := rfl

theorem sid_pad6_canon {stream : Str} (h : strCanonB stream = true) (n : Nat) :
    strCanonB (stream ++ tS "/" ++ pad6 n) = true := by
  obtain ⟨hstrip, hnl, hcr⟩ := strCanonB_iff.mp h
  refine strCanonB_iff.mpr ⟨pyStrip_eq_self_of_ends ?_ ?_, ?_, ?_⟩
  · intro c hc
    cases stream with
    | nil =>
      rw [show (([] : Str) ++ tS "/" ++ pad6 n).head? = some '/' from rfl] at hc
      simp only [Option.some.injEq] at hc
      rw [← hc]
      decide
    | cons a as =>
      rw [show (((a :: as : Str)) ++ tS "/" ++ pad6 n).head? = some a from rfl] at hc
      simp only [Option.some.injEq] at hc
      rw [← hc]
      exact canon_head_nonspace hstrip a rfl
  · intro c hc
    rw [List.getLast?_append_of_ne_nil _ (pad6_ne_nil n)] at hc
    exact (digit_mem_facts (pad6_mem_digits c (mem_of_getLast?' hc))).1
  · exact not_mem_append' (not_mem_append' hnl (by decide))
      (fun hm => (digit_mem_facts (pad6_mem_digits _ hm)).2.1 rfl)
  · exact not_mem_append' (not_mem_append' hcr (by decide))
      (fun hm => (digit_mem_facts (pad6_mem_digits _ hm)).2.2 rfl)

theorem sid_pad6_strip_ne (stream : Str) (n : Nat) :
    pyStrip (stream ++ tS "/" ++ pad6 n) ≠ [] :=
  pyStrip_ne_nil_of_mem
    (List.mem_append_left _ (List.mem_append_right stream
      (show ('/' : Char) ∈ tS "/" by decide))) (by decide)

theorem sid_pad6_length {stream : Str} {n : Nat} (hn : n < 1000000) :
    (stream ++ tS "/" ++ pad6 n).length = stream.length + 7 := by
  rw [List.length_append, List.length_append, pad6_length6 hn]
  rfl

theorem sid_nullable_canon {stream : Str} (h : strCanonB stream = true) {n : Nat}
    (hn : n < 1000000) :
    optNullableCanonB (some (stream ++ tS "/" ++ pad6 n)) = true := by
  simp only [optNullableCanonB, Bool.and_eq_true]
  refine ⟨⟨⟨sid_pad6_canon h n, ?_⟩, ?_⟩, ?_⟩
  · rw [Bool.not_eq_true', beq_eq_false_iff_ne]
    intro heq
    have := congrArg List.length heq
    rw [show (lowerStr (stream ++ tS "/" ++ pad6 n)).length =
      (stream ++ tS "/" ++ pad6 n).length from List.length_map _ _] at this
    rw [sid_pad6_length hn, show (tS "null").length = 4 from rfl] at this
    omega
  · rw [Bool.not_eq_true', beq_eq_false_iff_ne]
    intro heq
    have := congrArg List.length heq
    rw [show (lowerStr (stream ++ tS "/" ++ pad6 n)).length =
      (stream ++ tS "/" ++ pad6 n).length from List.length_map _ _] at this
    rw [sid_pad6_length hn, show (tS "none").length = 4 from rfl] at this
    omega
  · rw [Bool.not_eq_true']
    cases hc : stream ++ tS "/" ++ pad6 n with
    | nil =>
      exfalso
      exact pad6_ne_nil n (List.append_eq_nil.mp hc).2
    | cons a as => rfl

theorem validatePacket_intro {p : Packet} (hATP : p.ATP = tS "ATP/0.1")
    (hID : pyStrip p.ID ≠ []) (hTS : pyStrip p.TS ≠ []) (hMODE : pyStrip p.MODE ≠ [])
    (hTASK : pyStrip p.TASK ≠ []) (hSTATE : pyStrip p.STATE ≠ [])
    (hAPP : p.APPROVAL = tS "none" ∨ p.APPROVAL = tS "requested" ∨
      p.APPROVAL = tS "granted_by_human")
    (hFC : p.FAIL_CLASS = tS "NONE" ∨ p.FAIL_CLASS = tS "SPEC" ∨ p.FAIL_CLASS = tS "ENV" ∨
      p.FAIL_CLASS = tS "TEST" ∨ p.FAIL_CLASS = tS "LOGIC" ∨
      p.FAIL_CLASS = tS "INTEGRATION" ∨ p.FAIL_CLASS = tS "DATA" ∨
      p.FAIL_CLASS = tS "TOOLING")
    (hgoal : pyStrip p.goal ≠ []) (hconf : p.confidence = none) :
    validatePacket p = .ok () := by
  unfold validatePacket requireString
  rw [hATP, hconf]
  rw [if_neg (show ¬(pyStrip (tS "ATP/0.1") = []) by decide)]
  simp only [exceptBind_ok]
  rw [if_neg (show ¬(tS "ATP/0.1" ≠ tS "ATP/0.1") by decide)]
  rw [if_neg hID]
  simp only [exceptBind_ok]
  rw [if_neg hTS]
  simp only [exceptBind_ok]
  rw [if_neg hMODE]
  simp only [exceptBind_ok]
  rw [if_neg hTASK]
  simp only [exceptBind_ok]
  rw [if_neg hSTATE]
  simp only [exceptBind_ok]
  rw [if_neg (not_not.mpr hAPP), if_neg (not_not.mpr hFC)]
  rw [if_neg hgoal]
  simp only [exceptBind_ok]

theorem packetApproval_mem (mode : Str) :
    packetApproval mode = tS "none" ∨ packetApproval mode = tS "requested" := by
  unfold packetApproval
  split
  · right; rfl
  · left; rfl

theorem packetTools_canon (mode : Str) : (packetTools mode).all toolCanonB = true := by
  unfold packetTools
  split
  · decide
  · split
    · decide
    · split
      · decide
      · decide

theorem buildPacketRecord_valid {mode task ts gs stream : Str} (seq : Nat)
    (hmode : pyStrip mode ≠ []) (htask : pyStrip task ≠ []) (hts : pyStrip ts ≠ [])
    (hgs : pyStrip gs ≠ []) :
    validatePacket (buildPacketRecord mode task seq stream ts gs) = .ok () :=
  validatePacket_intro rfl (sid_pad6_strip_ne stream seq) hts hmode htask hgs
    (Or.elim (packetApproval_mem mode) Or.inl (fun h => Or.inr (Or.inl h)))
    (Or.inl rfl) (show pyStrip (tS "<fill_in>") ≠ [] by decide) rfl

theorem buildPacketRecord_canon {mode task ts gs stream : Str} {seq : Nat}
    (hseq : seq < 1000000) (hstream : strCanonB stream = true)
    (hmode : strCanonB mode = true) (htask : strCanonB task = true)
    (hts : strCanonB ts = true) (hgs : strCanonB gs = true) :
    wireCanonB (buildPacketRecord mode task seq stream ts gs) = true := by
  unfold wireCanonB
  simp only [Bool.and_eq_true]
  refine ⟨⟨⟨⟨⟨⟨⟨⟨⟨⟨⟨⟨⟨⟨⟨sid_pad6_canon hstream seq, hts⟩, hmode⟩, htask⟩, hgs⟩, ?_⟩,
    rfl⟩, packetTools_canon mode⟩,
    show strCanonB (tS "<fill_in>") = true by decide⟩,
    show ([tS "<fact 1>"] : List Str).all strCanonB = true by decide⟩,
    show ([tS "<action 1>"] : List Str).all strCanonB = true by decide⟩,
    show ([tS "<risk 1>"] : List Str).all strCanonB = true by decide⟩,
    show ([tS "<acceptance 1>"] : List Str).all strCanonB = true by decide⟩,
    show ([tS "none"] : List Str).all strCanonB = true by decide⟩,
    show ([tS "state/artifacts/<hash>/manifest.json"] : List Str).all
      (fun m => strCanonB m && !m.isEmpty) = true by decide⟩, rfl⟩
  show optNullableCanonB (if seq = 1 then none
    else some (stream ++ tS "/" ++ pad6 (seq - 1))) = true
  by_cases h1 : seq = 1
  · rw [if_pos h1]
    rfl
  · rw [if_neg h1]
    exact sid_nullable_canon hstream (by omega)

theorem wireCanonB_parts {p : Packet} (h : wireCanonB p = true) :
    strCanonB p.ID = true ∧ strCanonB p.TS = true ∧ strCanonB p.MODE = true ∧
    strCanonB p.TASK = true ∧ strCanonB p.STATE = true ∧
    optNullableCanonB p.PARENT = true ∧ optNullableCanonB p.ETAG = true ∧
    p.TOOLS.all toolCanonB = true ∧ strCanonB p.goal = true ∧
    p.nowS.all strCanonB = true ∧ p.nextS.all strCanonB = true ∧
    p.risksS.all strCanonB = true ∧ p.acceptS.all strCanonB = true ∧
    p.questionsS.all strCanonB = true ∧
    p.manifests.all (fun m => strCanonB m && !m.isEmpty) = true ∧
    confCanonB p.confidence = true := by
  unfold wireCanonB at h
  simp only [Bool.and_eq_true] at h
  obtain ⟨⟨⟨⟨⟨⟨⟨⟨⟨⟨⟨⟨⟨⟨⟨h1, h2⟩, h3⟩, h4⟩, h5⟩, h6⟩, h7⟩, h8⟩, h9⟩, h10⟩, h11⟩, h12⟩,
    h13⟩, h14⟩, h15⟩, h16⟩ := h
  exact ⟨h1, h2, h3, h4, h5, h6, h7, h8, h9, h10, h11, h12, h13, h14, h15, h16⟩

theorem prefix_canon_line (pre : Str) (c : Char) (hhead : pre.head? = some c)
    (hcs : pyIsSpace c = false) (hnlp : '\n' ∉ pre) (hcrp : '\r' ∉ pre)
    {v : Str} (hv : pyStrip v = v) (hvn : v ≠ []) (hnl : '\n' ∉ v) (hcr : '\r' ∉ v) :
    strCanonB (pre ++ v) = true := by
  refine strCanonB_iff.mpr ⟨pyStrip_eq_self_of_ends ?_ ?_, not_mem_append' hnlp hnl,
    not_mem_append' hcrp hcr⟩
  · intro x hx
    cases pre with
    | nil => simp at hhead
    | cons a as =>
      rw [show ((a :: as : Str) ++ v).head? = some a from rfl] at hx
      simp only [List.head?_cons, Option.some.injEq] at hhead hx
      rw [← hx, hhead]
      exact hcs
  · intro x hx
    rw [List.getLast?_append_of_ne_nil _ hvn] at hx
    exact canon_last_nonspace hv x hx

theorem sid_pad6_ne_nil (stream : Str) (n : Nat) : stream ++ tS "/" ++ pad6 n ≠ [] :=
  fun hc => pad6_ne_nil n (List.append_eq_nil.mp hc).2

theorem approved_line_canon {stream : Str} (h : strCanonB stream = true) (n : Nat) :
    strCanonB (tS "Approved " ++ (stream ++ tS "/" ++ pad6 n)) = true := by
  have hc := strCanonB_iff.mp (sid_pad6_canon h n)
  exact prefix_canon_line (tS "Approved ") 'A' rfl (by decide) (by decide) (by decide)
    hc.1 (sid_pad6_ne_nil stream n) hc.2.1 hc.2.2

theorem approvePacket_valid {streamId : Str} {latest : Packet} (seq : Nat) {r ts gs : Str}
    (htask : pyStrip latest.TASK ≠ []) (hts : pyStrip ts ≠ []) (hgs : pyStrip gs ≠ []) :
    validatePacket (approvePacket streamId latest seq r ts gs) = .ok () :=
  validatePacket_intro rfl (sid_pad6_strip_ne streamId seq) hts
    (show pyStrip (tS "REVIEW") ≠ [] by decide) htask hgs
    (Or.inr (Or.inr rfl)) (Or.inl rfl)
    (show pyStrip (tS "Human approval recorded.") ≠ [] by decide) rfl

theorem approvePacket_canon {streamId : Str} {latest : Packet} {seq : Nat} {r ts gs : Str}
    (hstream : strCanonB streamId = true)
    (hts : strCanonB ts = true) (hgs : strCanonB gs = true) (hr : strCanonB r = true)
    (hPID : optNullableCanonB (some latest.ID) = true)
    (hnow : ([tS "Approved " ++ latest.ID] : List Str).all strCanonB = true)
    (htaskc : strCanonB latest.TASK = true)
    (hmanif : latest.manifests.all (fun m => strCanonB m && !m.isEmpty) = true) :
    wireCanonB (approvePacket streamId latest seq r ts gs) = true := by
  unfold wireCanonB
  simp only [Bool.and_eq_true]
  refine ⟨⟨⟨⟨⟨⟨⟨⟨⟨⟨⟨⟨⟨⟨⟨sid_pad6_canon hstream seq, hts⟩,
    show strCanonB (tS "REVIEW") = true by decide⟩, htaskc⟩, hgs⟩, hPID⟩, rfl⟩,
    show ([tS "read"] : List Str).all toolCanonB = true by decide⟩,
    show strCanonB (tS "Human approval recorded.") = true by decide⟩, hnow⟩,
    show ([tS "Continue execution."] : List Str).all strCanonB = true by decide⟩,
    show ([tS "Human approval could mask unresolved evidence."] : List Str).all
      strCanonB = true by decide⟩, ?_⟩,
    show ([tS "none"] : List Str).all strCanonB = true by decide⟩, hmanif⟩, rfl⟩
  show (if r ≠ [] then [tS "Rationale: " ++ r] else [tS "Rationale: none"]).all
    strCanonB = true
  by_cases hrne : r ≠ []
  · rw [if_pos hrne]
    have hc := strCanonB_iff.mp hr
    have hline := prefix_canon_line (tS "Rationale: ") 'R' rfl (by decide) (by decide)
      (by decide) hc.1 hrne hc.2.1 hc.2.2
    simp [hline]
  · rw [if_neg hrne]
    decide

theorem isDigit_toNat_range {c : Char} (h : c.isDigit = true) :
    48 ≤ c.toNat ∧ c.toNat ≤ 57 := by
  unfold Char.isDigit at h
  rw [Bool.and_eq_true] at h
  obtain ⟨h1, h2⟩ := h
  have g1 : (48 : UInt32) ≤ c.val := by exact_mod_cast of_decide_eq_true h1
  have g2 : c.val ≤ (57 : UInt32) := by exact_mod_cast of_decide_eq_true h2
  exact ⟨g1, g2⟩

theorem matchPacketName_inv {name : Str} {s : Nat} (h : matchPacketName name = some s) :
    (name.take 6).length = 6 ∧ (∀ c ∈ name.take 6, 48 ≤ c.toNat ∧ c.toNat ≤ 57) ∧
    charsToNat (name.take 6) = s := by
  simp only [matchPacketName] at h
  split at h
  · next hcond =>
    simp only [Option.some.injEq] at h
    exact ⟨hcond.1, fun c hc =>
      isDigit_toNat_range (List.all_eq_true.mp hcond.2.1 c hc), h⟩
  · exact absurd h (by simp)

theorem name_lt_new {old new : Str} {s t : Nat} (hold : matchPacketName old = some s)
    (hnew : matchPacketName new = some t) (hst : s < t) : strLeB old new = true := by
  obtain ⟨hl1, hr1, hv1⟩ := matchPacketName_inv hold
  obtain ⟨hl2, hr2, hv2⟩ := matchPacketName_inv hnew
  have hlt : strLtB old new = true := by
    conv_lhs => rw [← List.take_append_drop 6 old, ← List.take_append_drop 6 new]
    exact strLtB_append_digits (by rw [hl1, hl2]) hr1 hr2 (by rw [hv1, hv2]; omega) _ _
  unfold strLeB
  rw [strLtB_asymm hlt]
  rfl

theorem listSequences_snoc {files : List (Str × Str)} {k : Nat}
    (hseq : sortNat (files.filterMap (fun e => matchPacketName e.1)) = List.range' 1 k)
    {name : Str} (content : Str) (hmatch : matchPacketName name = some (k + 1)) :
    sortNat ((files ++ [(name, content)]).filterMap (fun e => matchPacketName e.1)) =
      List.range' 1 (k + 1) := by
  rw [List.filterMap_append]
  rw [show ([(name, content)] : List (Str × Str)).filterMap
    (fun e => matchPacketName e.1) = [k + 1] from by simp [hmatch]]
  rw [sortNat_concat, hseq, insSortedNat_range]

theorem listPacketFiles_snoc {files : List (Str × Str)} {k : Nat}
    (hall : ∀ f ∈ files, ∃ s, matchPacketName f.1 = some s ∧ s ≤ k)
    {name : Str} (content : Str) (hmatch : matchPacketName name = some (k + 1)) :
    sortStr (((files ++ [(name, content)]).filter
        (fun e => (matchPacketName e.1).isSome)).map (fun e => e.1)) =
      sortStr ((files.filter (fun e => (matchPacketName e.1).isSome)).map
        (fun e => e.1)) ++ [name] := by
  rw [List.filter_append, List.map_append]
  rw [show (([(name, content)] : List (Str × Str)).filter
      (fun e => (matchPacketName e.1).isSome)).map (fun e => e.1) = [name] from by
    simp [hmatch]]
  rw [sortStr_concat]
  apply insSorted_append_le
  intro y hy
  obtain ⟨f, hf, hfeq⟩ := List.mem_map.mp (mem_sortStr hy)
  obtain ⟨s, hs, hsk⟩ := hall f (List.mem_filter.mp hf).1
  rw [← hfeq]
  exact name_lt_new hs hmatch (by omega)

theorem readStreamFile_of_find {streams : List (Str × StreamDir)} {sid : Str}
    {d : StreamDir} (hfind : streams.find? (fun e => e.1 = sid) = some (sid, d))
    {name content : Str}
    (hfile : d.files.find? (fun f => f.1 = name) = some (name, content)) :
    readStreamFile streams sid name = .ok content := by
  unfold readStreamFile
  rw [hfind]
  show (match d.files.find? (fun f => f.1 = name) with
    | none => (Except.error "FileNotFoundError" : Except String Str)
    | some e => Except.ok e.2) = Except.ok content
  rw [hfile]

theorem parsePacketFileM_roundtrip {streams : List (Str × StreamDir)} {sid name : Str}
    {pk : Packet} (hread : readStreamFile streams sid name = .ok (renderPacket pk))
    (hval : validatePacket pk = .ok ()) (hcanon : wireCanonB pk = true) :
    parsePacketFileM streams sid name = .ok pk := by
  unfold parsePacketFileM
  rw [hread]
  simp only [exceptBind_ok]
  rw [parse_render_canonical hval hcanon]
  simp only [exceptBind_ok]
  rw [hval]
  rfl

theorem nextSequence_eq {d : StreamDir} {k : Nat}
    (hseq : listSequences d = List.range' 1 k) : nextSequence d = k + 1 := by
  unfold nextSequence
  rw [hseq]
  cases k with
  | zero => rfl
  | succ m => rw [range'_getLast]

theorem buildPacket_ok {mode task ts gs stream : Str} {seq : Nat}
    (hval : validatePacket (buildPacketRecord mode task seq stream ts gs) = .ok ()) :
    buildPacket mode task seq stream ts gs =
      .ok (buildPacketRecord mode task seq stream ts gs) := by
  unfold buildPacket
  rw [hval]

theorem packetSuffix_facts (mode : Str) :
    packetSuffix mode ≠ [] ∧ '\n' ∉ packetSuffix mode := by
  unfold packetSuffix
  split
  · exact ⟨by decide, by decide⟩
  · split
    · exact ⟨by decide, by decide⟩
    · split
      · exact ⟨by decide, by decide⟩
      · exact ⟨by decide, by decide⟩

theorem wpApply_streams (stream fname content : Str) (st : RootState) :
    (wpApply stream fname content st).streams =
      updateStream st.streams stream
        ({ getStream st.streams stream with
           files := writeFile (getStream st.streams stream).files fname content }) := rfl

theorem find?_pair_self' {β : Type} (name : Str) (b : β) (rest : List (Str × β)) :
    ((name, b) :: rest).find? (fun e => e.1 = name) = some (name, b) := by
  simp

theorem fname_assoc (n : Nat) (sfx : Str) :
    (pad6 n ++ tS "." ++ sfx ++ tS ".atp" : Str) =
      pad6 n ++ ('.' :: (sfx ++ tS ".atp")) := by
  simp only [List.append_assoc]
  rfl

theorem dirInv_snoc {d : StreamDir} {k : Nat} (fname content : Str)
    (hseq : listSequences d = List.range' 1 k)
    (hall : ∀ f ∈ d.files, ∃ s, matchPacketName f.1 = some s ∧ s ≤ k)
    (hmatch : matchPacketName fname = some (k + 1))
    (hfresh : d.files.find? (fun e => e.1 = fname) = none) :
    listSequences ({ d with files := writeFile d.files fname content }) =
        List.range' 1 (k + 1) ∧
    (listPacketFiles ({ d with files := writeFile d.files fname content })).getLast? =
        some fname ∧
    ({ d with files := writeFile d.files fname content }).files =
        d.files ++ [(fname, content)] := by
  have hw : writeFile d.files fname content = d.files ++ [(fname, content)] :=
    writeFile_fresh _ hfresh
  refine ⟨?_, ?_, hw⟩
  · show sortNat ((writeFile d.files fname content).filterMap
      (fun e => matchPacketName e.1)) = _
    rw [hw]
    exact listSequences_snoc hseq _ hmatch
  · show (sortStr (((writeFile d.files fname content).filter
      (fun e => (matchPacketName e.1).isSome)).map (fun e => e.1))).getLast? = _
    rw [hw, listPacketFiles_snoc hall _ hmatch, List.getLast?_concat]

theorem writePacketAt_step {stream : Str} {k : Nat} {st : RootState} {d : StreamDir}
    (hstream : strCanonB stream = true)
    (hfind : st.streams.find? (fun e => e.1 = stream) = some (stream, d))
    (hseq : listSequences d = List.range' 1 k)
    (hfiles : ∀ f ∈ d.files, pFileFact stream k f)
    (hk : k + 1 < 1000000)
    {mode task ts gs : Str}
    (hmode : strCanonB mode = true) (hmodene : pyStrip mode ≠ [])
    (htask : strCanonB task = true) (htaskne : pyStrip task ≠ [])
    (hts : strCanonB ts = true) (htsne : pyStrip ts ≠ [])
    (hgs : strCanonB gs = true) (hgsne : pyStrip gs ≠ []) :
    writePacketAt mode task stream ts gs st =
      .ok (wpApply stream (pad6 (k + 1) ++ tS "." ++ packetSuffix mode ++ tS ".atp")
            (renderPacket (buildPacketRecord mode task (k + 1) stream ts gs)) st,
           ⟨stream, k + 1, pad6 (k + 1) ++ tS "." ++ packetSuffix mode ++ tS ".atp"⟩) ∧
      StreamInv stream (k + 1)
        (wpApply stream (pad6 (k + 1) ++ tS "." ++ packetSuffix mode ++ tS ".atp")
          (renderPacket (buildPacketRecord mode task (k + 1) stream ts gs)) st) := by
  have hget : getStream st.streams stream = d := by
    unfold getStream
    rw [hfind]
  have hmatch : matchPacketName
      (pad6 (k + 1) ++ tS "." ++ packetSuffix mode ++ tS ".atp") = some (k + 1) := by
    rw [fname_assoc]
    exact matchPacketName_build hk (packetSuffix_facts mode).1 (packetSuffix_facts mode).2
  have hfresh : d.files.find? (fun e =>
      e.1 = pad6 (k + 1) ++ tS "." ++ packetSuffix mode ++ tS ".atp") = none := by
    cases hfd : d.files.find? (fun e =>
        e.1 = pad6 (k + 1) ++ tS "." ++ packetSuffix mode ++ tS ".atp") with
    | none => rfl
    | some f =>
      exfalso
      have hmem := List.mem_of_find?_eq_some hfd
      have hfeq : f.1 = pad6 (k + 1) ++ tS "." ++ packetSuffix mode ++ tS ".atp" := by
        simpa using List.find?_some hfd
      obtain ⟨s, p, hm, -, hsk, -⟩ := hfiles f hmem
      rw [hfeq, hmatch] at hm
      simp only [Option.some.injEq] at hm
      omega
  have hall' : ∀ f ∈ d.files, ∃ s, matchPacketName f.1 = some s ∧ s ≤ k := by
    intro f hf
    obtain ⟨s, p, hm, -, hsk, -⟩ := hfiles f hf
    exact ⟨s, hm, hsk⟩
  have h3 := dirInv_snoc
    (pad6 (k + 1) ++ tS "." ++ packetSuffix mode ++ tS ".atp")
    (renderPacket (buildPacketRecord mode task (k + 1) stream ts gs))
    hseq hall' hmatch hfresh
  constructor
  · unfold writePacketAt
    rw [hget, nextSequence_eq hseq,
      buildPacket_ok (buildPacketRecord_valid (k + 1) hmodene htaskne htsne hgsne)]
  · unfold StreamInv
    rw [wpApply_streams, hget, updateStream_find]
    refine ⟨rfl, by omega, h3.1, ?_, packetSuffix mode,
      buildPacketRecord mode task (k + 1) stream ts gs, h3.2.1, ?_, rfl,
      buildPacketRecord_valid (k + 1) hmodene htaskne htsne hgsne,
      buildPacketRecord_canon hk hstream hmode htask hts hgs⟩
    · intro f hf
      rw [h3.2.2] at hf
      rcases List.mem_append.mp hf with h | h
      · obtain ⟨s, p, hm, h1, hsk, hrest⟩ := hfiles f h
        exact ⟨s, p, hm, h1, by omega, hrest⟩
      · rw [List.mem_singleton.mp h]
        exact ⟨k + 1, buildPacketRecord mode task (k + 1) stream ts gs, hmatch,
          by omega, le_refl _, rfl, rfl, rfl⟩
    · rw [h3.2.2]
      rw [find?_append_none hfresh]
      exact find?_pair_self' _ _ _

theorem writeFileState_streams (stream fname content : Str) (d : StreamDir)
    (st : RootState) :
    (writeFileState stream fname content d st).streams =
      updateStream st.streams stream
        ({ d with files := writeFile d.files fname content }) := rfl

theorem latestSequenceForStream_eq {d : StreamDir} {k : Nat}
    (hseq : listSequences d = List.range' 1 (k + 1)) :
    latestSequenceForStream d = .ok (k + 1) := by
  unfold latestSequenceForStream
  rw [hseq, range'_getLast]

theorem validateEvent_eventPayload {stream evType summary : Str} {pid : Option Str}
    {tsv : Str} {seq : Nat} (hts : pyStrip tsv ≠ []) (hty : pyStrip evType ≠ [])
    (hsum : pyStrip summary ≠ []) :
    validateEvent (eventPayload stream evType summary [] pid tsv seq) = .ok () := by
  unfold validateEvent
  rw [show aGet (eventPayload stream evType summary [] pid tsv seq) (tS "ts") [] = tsv
      from rfl,
    show aGet (eventPayload stream evType summary [] pid tsv seq) (tS "id") [] =
      stream ++ tS "/" ++ pad6 seq from rfl,
    show aGet (eventPayload stream evType summary [] pid tsv seq) (tS "type") [] = evType
      from rfl,
    show aGet (eventPayload stream evType summary [] pid tsv seq) (tS "summary") [] =
      summary from rfl]
  unfold requireString
  rw [if_neg hts]
  simp only [exceptBind_ok]
  rw [if_neg (sid_pad6_strip_ne stream seq)]
  simp only [exceptBind_ok]
  rw [if_neg hty]
  simp only [exceptBind_ok]
  rw [if_neg hsum]
  simp only [exceptBind_ok]

theorem fnameR_eq (n : Nat) :
    (pad6 n ++ tS "." ++ tS "review" ++ tS ".atp" : Str) = pad6 n ++ tS ".review.atp" := by
  simp only [List.append_assoc]
  rfl

theorem approveApply_streams (streamId : Str) (latest : Packet) (seq : Nat)
    (rationale ts tsEvent gitState : Str) (d : StreamDir) (st : RootState) :
    (approveApply streamId latest seq rationale ts tsEvent gitState d st).streams =
      updateStream (updateStream st.streams streamId
        { d with files := writeFile d.files (pad6 seq ++ tS ".review.atp")
                            (renderPacket (approvePacket streamId latest seq rationale ts
                              gitState)) })
        streamId (approveDirApply streamId latest seq rationale ts tsEvent gitState d) := rfl

theorem approveStreamAt_step {stream : Str} {k : Nat} {st : RootState} {d : StreamDir}
    (hstream : strCanonB stream = true)
    (hfind : st.streams.find? (fun e => e.1 = stream) = some (stream, d))
    (hk1 : 1 ≤ k)
    (hseq : listSequences d = List.range' 1 k)
    (hfiles : ∀ f ∈ d.files, pFileFact stream k f)
    {sfx : Str} {pk : Packet}
    (hlast : (listPacketFiles d).getLast? = some (pad6 k ++ tS "." ++ sfx ++ tS ".atp"))
    (hlfind : d.files.find? (fun f => f.1 = pad6 k ++ tS "." ++ sfx ++ tS ".atp") =
      some (pad6 k ++ tS "." ++ sfx ++ tS ".atp", renderPacket pk))
    (hpkID : pk.ID = stream ++ tS "/" ++ pad6 k)
    (hpkval : validatePacket pk = .ok ()) (hpkcanon : wireCanonB pk = true)
    (hk : k + 1 < 1000000)
    {r ts tsE gs : Str} (hr : strCanonB r = true) (hts : strCanonB ts = true)
    (htsne : pyStrip ts ≠ []) (htsEne : pyStrip tsE ≠ []) (hgs : strCanonB gs = true)
    (hgsne : pyStrip gs ≠ []) :
    ∃ st2, approveStreamAt stream r ts tsE gs d st =
        .ok (st2, ⟨stream, k + 1, pad6 (k + 1) ++ tS ".review.atp"⟩) ∧
      StreamInv stream (k + 1) st2 ∧
      (∃ dF, st2.streams.find? (fun e => e.1 = stream) = some (stream, dF) ∧
        dF.files.find? (fun f => f.1 = pad6 (k + 1) ++ tS ".review.atp") =
          some (pad6 (k + 1) ++ tS ".review.atp",
            renderPacket (approvePacket stream pk (k + 1) r ts gs)) ∧
        dF.eventsFile = some (d.eventsFile.getD [] ++
          [jsonDumpsFlat (eventPayload stream (tS "APPROVAL_GRANTED")
            (tS "Human approval granted") []
            (some (approvePacket stream pk (k + 1) r ts gs).ID) tsE (k + 1))])) := by
  have hparts := wireCanonB_parts hpkcanon
  have hinv2 := validatePacket_ok_inv2 hpkval
  have hlatest : latestPacketFile d = .ok (pad6 k ++ tS "." ++ sfx ++ tS ".atp") := by
    unfold latestPacketFile
    rw [hlast]
  have hparse : parsePacketFileM st.streams stream
      (pad6 k ++ tS "." ++ sfx ++ tS ".atp") = .ok pk :=
    parsePacketFileM_roundtrip (readStreamFile_of_find hfind hlfind) hpkval hpkcanon
  have hvalA : validatePacket (approvePacket stream pk (k + 1) r ts gs) = .ok () :=
    approvePacket_valid (k + 1) hinv2.2.2.2.1 htsne hgsne
  have hcanonA : wireCanonB (approvePacket stream pk (k + 1) r ts gs) = true := by
    refine approvePacket_canon hstream hts hgs hr ?_ ?_ hparts.2.2.2.1
      hparts.2.2.2.2.2.2.2.2.2.2.2.2.2.2.1
    · rw [hpkID]
      exact sid_nullable_canon hstream (by omega)
    · rw [hpkID]
      simp only [List.all_cons, List.all_nil, Bool.and_true]
      exact approved_line_canon hstream k
  have hmatchR : matchPacketName (pad6 (k + 1) ++ tS ".review.atp") = some (k + 1) := by
    rw [show (pad6 (k + 1) ++ tS ".review.atp" : Str) =
      pad6 (k + 1) ++ ('.' :: (tS "review" ++ tS ".atp")) from rfl]
    exact matchPacketName_build hk (by decide) (by decide)
  have hfreshR : d.files.find? (fun e => e.1 = pad6 (k + 1) ++ tS ".review.atp") = none := by
    cases hfd : d.files.find? (fun e => e.1 = pad6 (k + 1) ++ tS ".review.atp") with
    | none => rfl
    | some f =>
      exfalso
      have hmem := List.mem_of_find?_eq_some hfd
      have hfeq : f.1 = pad6 (k + 1) ++ tS ".review.atp" := by
        simpa using List.find?_some hfd
      obtain ⟨s, p, hm, -, hsk, -⟩ := hfiles f hmem
      rw [hfeq, hmatchR] at hm
      simp only [Option.some.injEq] at hm
      omega
  have hall' : ∀ f ∈ d.files, ∃ s, matchPacketName f.1 = some s ∧ s ≤ k := by
    intro f hf
    obtain ⟨s, p, hm, -, hsk, -⟩ := hfiles f hf
    exact ⟨s, hm, hsk⟩
  have h3 := dirInv_snoc (pad6 (k + 1) ++ tS ".review.atp")
    (renderPacket (approvePacket stream pk (k + 1) r ts gs)) hseq hall' hmatchR hfreshR
  have hvev := @validateEvent_eventPayload stream (tS "APPROVAL_GRANTED")
    (tS "Human approval granted") (some (approvePacket stream pk (k + 1) r ts gs).ID)
    tsE (k + 1) htsEne
    (show pyStrip (tS "APPROVAL_GRANTED") ≠ [] by decide)
    (show pyStrip (tS "Human approval granted") ≠ [] by decide)
  refine ⟨approveApply stream pk (k + 1) r ts tsE gs d st, ?_, ?_, ?_⟩
  · unfold approveStreamAt
    rw [hlatest]
    simp only [exceptBind_ok]
    rw [hparse]
    simp only [exceptBind_ok]
    rw [nextSequence_eq hseq, hvalA]
    simp only [exceptBind_ok]
    unfold appendEvent
    rw [ensureLayout_streams, writeFileState_streams, updateStream_find]
    simp only [Option.elim]
    unfold appendEventAt
    rw [latestSequenceForStream_eq h3.1]
    simp only [exceptBind_ok]
    rw [hvev]
    simp only [exceptBind_ok]
    rfl
  · unfold StreamInv
    rw [approveApply_streams, updateStream_find]
    refine ⟨rfl, by omega, h3.1, ?_, tS "review", approvePacket stream pk (k + 1) r ts gs,
      ?_, ?_, rfl, hvalA, hcanonA⟩
    · intro f hf
      have hf0 : f ∈ ({ files := writeFile d.files (pad6 (k + 1) ++ tS ".review.atp")
                                   (renderPacket (approvePacket stream pk (k + 1) r ts gs)),
                        eventsFile := d.eventsFile } : StreamDir).files := hf
      rw [h3.2.2] at hf0
      rcases List.mem_append.mp hf0 with h | h
      · obtain ⟨s, p, hm, h1, hsk, hrest⟩ := hfiles f h
        exact ⟨s, p, hm, h1, by omega, hrest⟩
      · rw [List.mem_singleton.mp h]
        refine ⟨k + 1, approvePacket stream pk (k + 1) r ts gs, hmatchR,
          by omega, le_refl _, rfl, rfl, ?_⟩
        rw [if_neg (show ¬ (k + 1 = 1) by omega)]
        show some pk.ID = some (stream ++ tS "/" ++ pad6 (k + 1 - 1))
        rw [hpkID, Nat.add_sub_cancel]
    · rw [fnameR_eq]
      exact h3.2.1
    · rw [fnameR_eq]
      show (writeFile d.files (pad6 (k + 1) ++ tS ".review.atp")
          (renderPacket (approvePacket stream pk (k + 1) r ts gs))).find?
          (fun f => f.1 = pad6 (k + 1) ++ tS ".review.atp") =
        some (pad6 (k + 1) ++ tS ".review.atp",
          renderPacket (approvePacket stream pk (k + 1) r ts gs))
      rw [writeFile_fresh _ hfreshR, find?_append_none hfreshR]
      exact find?_pair_self' _ _ _
  · refine ⟨approveDirApply stream pk (k + 1) r ts tsE gs d, ?_, ?_, rfl⟩
    · rw [approveApply_streams]
      exact updateStream_find _ _ _
    · show (writeFile d.files (pad6 (k + 1) ++ tS ".review.atp")
          (renderPacket (approvePacket stream pk (k + 1) r ts gs))).find?
          (fun f => f.1 = pad6 (k + 1) ++ tS ".review.atp") =
        some (pad6 (k + 1) ++ tS ".review.atp",
          renderPacket (approvePacket stream pk (k + 1) r ts gs))
      rw [writeFile_fresh _ hfreshR, find?_append_none hfreshR]
      exact find?_pair_self' _ _ _

theorem streamInv_none {stream : Str} {k : Nat} {st : RootState}
    (hinv : StreamInv stream k st)
    (hfd : st.streams.find? (fun x => x.1 = stream) = none) : k = 0 := by
  unfold StreamInv at hinv
  rw [hfd] at hinv
  exact hinv

theorem streamInv_some {stream : Str} {k : Nat} {st : RootState} {e : Str × StreamDir}
    (hinv : StreamInv stream k st)
    (hfd : st.streams.find? (fun x => x.1 = stream) = some e) :
    e.1 = stream ∧ 1 ≤ k ∧ listSequences e.2 = List.range' 1 k ∧
    (∀ f ∈ e.2.files, pFileFact stream k f) ∧
    ∃ sfx pk,
      (listPacketFiles e.2).getLast? = some (pad6 k ++ tS "." ++ sfx ++ tS ".atp") ∧
      e.2.files.find? (fun f => f.1 = pad6 k ++ tS "." ++ sfx ++ tS ".atp") =
        some (pad6 k ++ tS "." ++ sfx ++ tS ".atp", renderPacket pk) ∧
      pk.ID = stream ++ tS "/" ++ pad6 k ∧
      validatePacket pk = .ok () ∧ wireCanonB pk = true := by
  unfold StreamInv at hinv
  rw [hfd] at hinv
  exact hinv

theorem runOp_write_step {stream : Str} {k : Nat} {st : RootState}
    (hstream : strCanonB stream = true) (hsne : stream ≠ [])
    (hstart : StreamInv0 stream k st) (hk : k + 1 < 1000000)
    {mode task ts gs : Str}
    (hwf : opWellFormedB (SeqOp.write mode task ts gs) = true) :
    ∃ st2, runOp stream st (SeqOp.write mode task ts gs) =
        .ok (st2, ⟨stream, k + 1,
          pad6 (k + 1) ++ tS "." ++ packetSuffix mode ++ tS ".atp"⟩) ∧
      StreamInv stream (k + 1) st2 := by
  simp only [opWellFormedB, Bool.and_eq_true] at hwf
  obtain ⟨⟨⟨⟨⟨⟨⟨hmode, hmodene⟩, htask⟩, htaskne⟩, hts⟩, htsne⟩, hgs⟩, hgsne⟩ := hwf
  have hsid : orElseStr (some stream) [] = stream := by
    show (if stream = [] then ([] : Str) else stream) = stream
    rw [if_neg hsne]
  rcases hstart with hinv | ⟨hk0, d, hfd, hdnil⟩
  · cases hfd : st.streams.find? (fun x => x.1 = stream) with
    | none =>
      have hk0 := streamInv_none hinv hfd
      subst hk0
      have hens : ensureStream (ensureLayout st).streams stream =
          st.streams ++ [(stream, (⟨[], none⟩ : StreamDir))] := by
        rw [ensureLayout_streams]
        exact ensureStream_absent hfd
      have hfind1 : (st.streams ++ [(stream, (⟨[], none⟩ : StreamDir))]).find?
          (fun e => e.1 = stream) = some (stream, (⟨[], none⟩ : StreamDir)) := by
        rw [find?_append_none hfd]
        exact find?_pair_self' _ _ _
      have hstep := @writePacketAt_step stream 0
        ({ ensureLayout st with
           streams := st.streams ++ [(stream, (⟨[], none⟩ : StreamDir))] })
        ⟨[], none⟩ hstream hfind1 rfl
        (fun f hf => absurd hf (List.not_mem_nil f)) hk mode task ts gs
        hmode (ne_nil_of_not_isEmpty hmodene) htask (ne_nil_of_not_isEmpty htaskne)
        hts (ne_nil_of_not_isEmpty htsne) hgs (ne_nil_of_not_isEmpty hgsne)
      refine ⟨_, ?_, hstep.2⟩
      unfold runOp writePacket
      rw [hsid, hens]
      exact hstep.1
    | some e =>
      have h := streamInv_some hinv hfd
      have he : e = (stream, e.2) := by
        rw [← h.1]
      have hens : ensureStream (ensureLayout st).streams stream = st.streams := by
        rw [ensureLayout_streams]
        exact ensureStream_present hfd
      have hfind1 : st.streams.find? (fun x => x.1 = stream) = some (stream, e.2) := by
        rw [hfd]
        exact congrArg some he
      have hstep := @writePacketAt_step stream k
        ({ ensureLayout st with streams := st.streams }) e.2 hstream hfind1
        h.2.2.1 h.2.2.2.1 hk mode task ts gs
        hmode (ne_nil_of_not_isEmpty hmodene) htask (ne_nil_of_not_isEmpty htaskne)
        hts (ne_nil_of_not_isEmpty htsne) hgs (ne_nil_of_not_isEmpty hgsne)
      refine ⟨_, ?_, hstep.2⟩
      unfold runOp writePacket
      rw [hsid, hens]
      exact hstep.1
  · subst hk0
    have hseq0 : listSequences d = List.range' 1 0 := by
      unfold listSequences
      rw [hdnil]
      rfl
    have hfiles0 : ∀ f ∈ d.files, pFileFact stream 0 f := by
      intro f hf
      rw [hdnil] at hf
      exact absurd hf (List.not_mem_nil f)
    have hens : ensureStream (ensureLayout st).streams stream = st.streams := by
      rw [ensureLayout_streams]
      exact ensureStream_present hfd
    have hstep := @writePacketAt_step stream 0
      ({ ensureLayout st with streams := st.streams }) d hstream hfd hseq0 hfiles0
      hk mode task ts gs
      hmode (ne_nil_of_not_isEmpty hmodene) htask (ne_nil_of_not_isEmpty htaskne)
      hts (ne_nil_of_not_isEmpty htsne) hgs (ne_nil_of_not_isEmpty hgsne)
    refine ⟨_, ?_, hstep.2⟩
    unfold runOp writePacket
    rw [hsid, hens]
    exact hstep.1

theorem runOp_approve_step {stream : Str} {k : Nat} {st : RootState}
    (hstream : strCanonB stream = true) (hk1 : 1 ≤ k)
    (hstart : StreamInv0 stream k st) (hk : k + 1 < 1000000)
    {r ts tsE gs : Str}
    (hwf : opWellFormedB (SeqOp.approve r ts tsE gs) = true) :
    ∃ st2, runOp stream st (SeqOp.approve r ts tsE gs) =
        .ok (st2, ⟨stream, k + 1, pad6 (k + 1) ++ tS ".review.atp"⟩) ∧
      StreamInv stream (k + 1) st2 := by
  simp only [opWellFormedB, Bool.and_eq_true] at hwf
  obtain ⟨⟨⟨⟨⟨hr, hts⟩, htsne⟩, htsEne⟩, hgs⟩, hgsne⟩ := hwf
  rcases hstart with hinv | ⟨hk0, -⟩
  · cases hfd : st.streams.find? (fun x => x.1 = stream) with
    | none => exact absurd (streamInv_none hinv hfd) (by omega)
    | some e =>
      obtain ⟨he1, -, hseq, hfiles, sfx, pk, hlast, hlfind, hpkID, hpkval, hpkcanon⟩ :=
        streamInv_some hinv hfd
      have hfindE : (ensureLayout st).streams.find? (fun x => x.1 = stream) =
          some (stream, e.2) := by
        rw [ensureLayout_streams, hfd]
        exact congrArg some (by rw [← he1])
      obtain ⟨st2, heq, hinv2, -⟩ := approveStreamAt_step hstream hfindE hk1 hseq hfiles
        hlast hlfind hpkID hpkval hpkcanon hk hr hts (ne_nil_of_not_isEmpty htsne)
        (ne_nil_of_not_isEmpty htsEne) hgs (ne_nil_of_not_isEmpty hgsne)
      refine ⟨st2, ?_, hinv2⟩
      unfold runOp approveStream
      rw [ensureLayout_streams, hfd]
      simp only [Option.elim]
      exact heq
  · omega

theorem runOpsAcc_cons_ok {stream : Str} {op : SeqOp} {ops : List SeqOp}
    {st st2 : RootState} {info : PacketInfoM}
    (h : runOp stream st op = .ok (st2, info)) :
    runOpsAcc stream (op :: ops) st =
      match runOpsAcc stream ops st2 with
      | .ok (stf, infos) => .ok (stf, info :: infos)
      | .error e => .error e := by
  conv_lhs => unfold runOpsAcc
  rw [h]

theorem range'_succ_eq (s n : Nat) :
    List.range' s (n + 1) = s :: List.range' (s + 1) n := rfl

theorem runOpsAcc_inv {stream : Str} (hstream : strCanonB stream = true)
    (hsne : stream ≠ []) :
    ∀ (ops : List SeqOp) (k : Nat) (st : RootState),
      ops.all opWellFormedB = true →
      (k = 0 → firstIsWriteB ops = true) →
      k + ops.length < 1000000 →
      StreamInv0 stream k st →
      ∃ stf infos, runOpsAcc stream ops st = .ok (stf, infos) ∧
        infos.map (fun i => i.seq) = List.range' (k + 1) ops.length ∧
        (∀ pr ∈ infos.zip ops, pr.1.stream_id = stream ∧
          pr.1.path = pad6 pr.1.seq ++ tS "." ++ opSuffix pr.2 ++ tS ".atp") ∧
        StreamInv0 stream (k + ops.length) stf := by
  intro ops
  induction ops with
  | nil =>
    intro k st hall hfirst hlen hinv0
    exact ⟨st, [], rfl, rfl,
      fun pr hpr => absurd hpr (List.not_mem_nil pr), hinv0⟩
  | cons op ops ih =>
    intro k st hall hfirst hlen hinv0
    simp only [List.all_cons, Bool.and_eq_true] at hall
    obtain ⟨hop, hall'⟩ := hall
    have hk : k + 1 < 1000000 := by
      simp only [List.length_cons] at hlen
      omega
    have hstep : ∃ st2, runOp stream st op =
        .ok (st2, ⟨stream, k + 1,
          pad6 (k + 1) ++ tS "." ++ opSuffix op ++ tS ".atp"⟩) ∧
        StreamInv stream (k + 1) st2 := by
      cases op with
      | write mode task ts gs => exact runOp_write_step hstream hsne hinv0 hk hop
      | approve r ts tsE gs =>
        have hk1 : 1 ≤ k := by
          rcases Nat.eq_zero_or_pos k with h0 | h
          · exfalso
            have hw := hfirst h0
            simp [firstIsWriteB] at hw
          · exact h
        obtain ⟨st2, heq, hinv2⟩ := runOp_approve_step hstream hk1 hinv0 hk hop
        refine ⟨st2, ?_, hinv2⟩
        show runOp stream st (SeqOp.approve r ts tsE gs) =
          .ok (st2, ⟨stream, k + 1, pad6 (k + 1) ++ tS "." ++ tS "review" ++ tS ".atp"⟩)
        rw [fnameR_eq]
        exact heq
    obtain ⟨st2, hopEq, hinv2⟩ := hstep
    obtain ⟨stf, infos, hrecEq, hseqs, hpaths, hinvf⟩ :=
      ih (k + 1) st2 hall' (fun h0 => absurd h0 (by omega))
        (by simp only [List.length_cons] at hlen; omega) (Or.inl hinv2)
    refine ⟨stf,
      ⟨stream, k + 1, pad6 (k + 1) ++ tS "." ++ opSuffix op ++ tS ".atp"⟩ :: infos,
      ?_, ?_, ?_, ?_⟩
    · rw [runOpsAcc_cons_ok hopEq, hrecEq]
    · rw [List.map_cons, hseqs, List.length_cons, range'_succ_eq]
    · intro pr hpr
      rw [List.zip_cons_cons] at hpr
      rcases List.mem_cons.mp hpr with h | h
      · rw [h]
        exact ⟨rfl, rfl⟩
      · exact hpaths pr h
    · rw [List.length_cons, show k + (ops.length + 1) = k + 1 + ops.length from by omega]
      exact hinvf

/-- C5: starting from a stream with no packet files (its directory absent or
empty), any run of well-formed `write_packet` / `approve_stream` calls on
that one stream succeeds and yields sequences exactly `1..N` in call order,
each written under the filename `<seq:06d>.<suffix>.atp` with the suffix
determined by the call's MODE, and the resulting directory holds exactly the
packet run `1..N` in which packet 1 has PARENT null and every packet `s > 1`
has PARENT equal to the ID of packet `s - 1`. -/
theorem c5_single_writer_sequencing {stream : Str} {ops : List SeqOp} {st0 : RootState}
    (hstream : strCanonB stream = true) (hsne : stream ≠ [])
    (hall : ops.all opWellFormedB = true)
    (hfirst : firstIsWriteB ops = true)
    (hlen : ops.length < 1000000)
    (hstart : st0.streams.find? (fun e => e.1 = stream) = none ∨
      ∃ d, st0.streams.find? (fun e => e.1 = stream) = some (stream, d) ∧
        d.files = []) :
    ∃ stf infos, runOpsAcc stream ops st0 = .ok (stf, infos) ∧
      infos.map (fun i => i.seq) = List.range' 1 ops.length ∧
      (∀ pr ∈ infos.zip ops, pr.1.stream_id = stream ∧
        pr.1.path = pad6 pr.1.seq ++ tS "." ++ opSuffix pr.2 ++ tS ".atp") ∧
      (ops ≠ [] → ∃ dF, stf.streams.find? (fun e => e.1 = stream) = some (stream, dF) ∧
        listSequences dF = List.range' 1 ops.length ∧
        ∀ f ∈ dF.files, pFileFact stream ops.length f) := by
  have hinv0 : StreamInv0 stream 0 st0 := by
    rcases hstart with h | ⟨d, hf, hn⟩
    · refine Or.inl ?_
      unfold StreamInv
      rw [h]
    · exact Or.inr ⟨rfl, d, hf, hn⟩
  obtain ⟨stf, infos, h1, h2, h3, h4⟩ :=
    runOpsAcc_inv hstream hsne ops 0 st0 hall (fun _ => hfirst) (by omega) hinv0
  refine ⟨stf, infos, h1, h2, h3, ?_⟩
  intro hne
  have h4' : StreamInv0 stream ops.length stf := by
    rw [Nat.zero_add] at h4
    exact h4
  have hlen1 : 1 ≤ ops.length := by
    cases ops with
    | nil => exact absurd rfl hne
    | cons a l =>
      simp only [List.length_cons]
      omega
  rcases h4' with hinv | ⟨h0, -⟩
  · cases hfd : stf.streams.find? (fun x => x.1 = stream) with
    | none =>
      have h0 := streamInv_none hinv hfd
      omega
    | some e =>
      obtain ⟨he1, -, hseq, hfiles, -⟩ := streamInv_some hinv hfd
      refine ⟨e.2, ?_, hseq, hfiles⟩
      exact congrArg some (by rw [← he1])
  · omega

/-- Closed instance of C5: the three-call run (PLAN write, EXEC write,
approval) on a fresh root succeeds with sequences `1, 2, 3`, the expected
filenames, and a directory satisfying the parent-chain invariant. -/
theorem c5_single_writer_sequencing_witness :
    ∃ stf infos, runOpsAcc (tS "s1") opsC5 stEmptyRoot = .ok (stf, infos) ∧
      infos.map (fun i => i.seq) = List.range' 1 opsC5.length ∧
      (∀ pr ∈ infos.zip opsC5, pr.1.stream_id = tS "s1" ∧
        pr.1.path = pad6 pr.1.seq ++ tS "." ++ opSuffix pr.2 ++ tS ".atp") ∧
      (opsC5 ≠ [] → ∃ dF,
        stf.streams.find? (fun e => e.1 = tS "s1") = some (tS "s1", dF) ∧
        listSequences dF = List.range' 1 opsC5.length ∧
        ∀ f ∈ dF.files, pFileFact (tS "s1") opsC5.length f) :=
  c5_single_writer_sequencing (by decide) (by decide) (by decide) (by decide)
    (by decide) (Or.inl rfl)

/-- C6: on a stream whose directory exists and whose latest packet `pk` has
sequence `k`, `approve_stream` writes packet `k + 1` under
`<k+1:06d>.review.atp` as the review packet (`MODE = REVIEW`,
`PARENT = pk.ID`, `APPROVAL = granted_by_human`, manifests carried over
unchanged, `accept = ["Rationale: " ++ r]`, or `["Rationale: none"]` for an
empty rationale) and appends exactly one `APPROVAL_GRANTED` event line whose
payload carries the new packet's ID; on a root without the stream's
directory it fails with the missing-stream error. -/
theorem c6_approve_stream_detail {stream : Str} {k : Nat} {st : RootState} {d : StreamDir}
    (hstream : strCanonB stream = true)
    (hfind : st.streams.find? (fun e => e.1 = stream) = some (stream, d))
    (hk1 : 1 ≤ k)
    (hseq : listSequences d = List.range' 1 k)
    (hfiles : ∀ f ∈ d.files, pFileFact stream k f)
    {sfx : Str} {pk : Packet}
    (hlast : (listPacketFiles d).getLast? = some (pad6 k ++ tS "." ++ sfx ++ tS ".atp"))
    (hlfind : d.files.find? (fun f => f.1 = pad6 k ++ tS "." ++ sfx ++ tS ".atp") =
      some (pad6 k ++ tS "." ++ sfx ++ tS ".atp", renderPacket pk))
    (hpkID : pk.ID = stream ++ tS "/" ++ pad6 k)
    (hpkval : validatePacket pk = .ok ()) (hpkcanon : wireCanonB pk = true)
    (hk : k + 1 < 1000000)
    {r ts tsE gs : Str} (hr : strCanonB r = true) (hts : strCanonB ts = true)
    (htsne : pyStrip ts ≠ []) (htsEne : pyStrip tsE ≠ []) (hgs : strCanonB gs = true)
    (hgsne : pyStrip gs ≠ []) :
    (approvePacket stream pk (k + 1) r ts gs).MODE = tS "REVIEW" ∧
    (approvePacket stream pk (k + 1) r ts gs).PARENT = some pk.ID ∧
    (approvePacket stream pk (k + 1) r ts gs).APPROVAL = tS "granted_by_human" ∧
    (approvePacket stream pk (k + 1) r ts gs).manifests = pk.manifests ∧
    (approvePacket stream pk (k + 1) r ts gs).acceptS =
      (if r ≠ [] then [tS "Rationale: " ++ r] else [tS "Rationale: none"]) ∧
    (∃ st2, approveStream stream r ts tsE gs st =
        .ok (st2, ⟨stream, k + 1, pad6 (k + 1) ++ tS ".review.atp"⟩) ∧
      ∃ dF, st2.streams.find? (fun e => e.1 = stream) = some (stream, dF) ∧
        dF.files.find? (fun f => f.1 = pad6 (k + 1) ++ tS ".review.atp") =
          some (pad6 (k + 1) ++ tS ".review.atp",
            renderPacket (approvePacket stream pk (k + 1) r ts gs)) ∧
        dF.eventsFile = some (d.eventsFile.getD [] ++
          [jsonDumpsFlat (eventPayload stream (tS "APPROVAL_GRANTED")
            (tS "Human approval granted") []
            (some (approvePacket stream pk (k + 1) r ts gs).ID) tsE (k + 1))])) ∧
    (∀ st' : RootState, st'.streams.find? (fun e => e.1 = stream) = none →
      approveStream stream r ts tsE gs st' = .error "Stream not found") := by
  refine ⟨rfl, rfl, rfl, rfl, rfl, ?_, ?_⟩
  · have hfindE : (ensureLayout st).streams.find? (fun e => e.1 = stream) =
        some (stream, d) := by
      rw [ensureLayout_streams]
      exact hfind
    obtain ⟨st2, heq, -, hdF⟩ := approveStreamAt_step hstream hfindE hk1 hseq hfiles
      hlast hlfind hpkID hpkval hpkcanon hk hr hts htsne htsEne hgs hgsne
    refine ⟨st2, ?_, hdF⟩
    unfold approveStream
    rw [ensureLayout_streams, hfind]
    simp only [Option.elim]
    exact heq
  · intro st' hnone
    unfold approveStream
    rw [ensureLayout_streams, hnone]
    rfl

/-- Closed instance of C6: approving stream `s6` (latest packet `s6/000001`)
writes `000002.review.atp` with the review packet over `pkC6`, appends the
one `APPROVAL_GRANTED` event, and the same call on the empty root fails. -/
theorem c6_approve_stream_detail_witness :
    (approvePacket (tS "s6") pkC6 (1 + 1) (tS "ok") (tS "2024-03-01T00:00:10Z")
      (tS "clean")).MODE = tS "REVIEW" ∧
    (approvePacket (tS "s6") pkC6 (1 + 1) (tS "ok") (tS "2024-03-01T00:00:10Z")
      (tS "clean")).PARENT = some pkC6.ID ∧
    (approvePacket (tS "s6") pkC6 (1 + 1) (tS "ok") (tS "2024-03-01T00:00:10Z")
      (tS "clean")).APPROVAL = tS "granted_by_human" ∧
    (approvePacket (tS "s6") pkC6 (1 + 1) (tS "ok") (tS "2024-03-01T00:00:10Z")
      (tS "clean")).manifests = pkC6.manifests ∧
    (approvePacket (tS "s6") pkC6 (1 + 1) (tS "ok") (tS "2024-03-01T00:00:10Z")
      (tS "clean")).acceptS =
      (if (tS "ok") ≠ [] then [tS "Rationale: " ++ tS "ok"]
       else [tS "Rationale: none"]) ∧
    (∃ st2, approveStream (tS "s6") (tS "ok") (tS "2024-03-01T00:00:10Z")
        (tS "2024-03-01T00:00:11Z") (tS "clean") stC6 =
        .ok (st2, ⟨tS "s6", 1 + 1, pad6 (1 + 1) ++ tS ".review.atp"⟩) ∧
      ∃ dF, st2.streams.find? (fun e => e.1 = tS "s6") = some (tS "s6", dF) ∧
        dF.files.find? (fun f => f.1 = pad6 (1 + 1) ++ tS ".review.atp") =
          some (pad6 (1 + 1) ++ tS ".review.atp",
            renderPacket (approvePacket (tS "s6") pkC6 (1 + 1) (tS "ok")
              (tS "2024-03-01T00:00:10Z") (tS "clean"))) ∧
        dF.eventsFile = some (dC6.eventsFile.getD [] ++
          [jsonDumpsFlat (eventPayload (tS "s6") (tS "APPROVAL_GRANTED")
            (tS "Human approval granted") []
            (some (approvePacket (tS "s6") pkC6 (1 + 1) (tS "ok")
              (tS "2024-03-01T00:00:10Z") (tS "clean")).ID)
            (tS "2024-03-01T00:00:11Z") (1 + 1))])) ∧
    (∀ st' : RootState, st'.streams.find? (fun e => e.1 = tS "s6") = none →
      approveStream (tS "s6") (tS "ok") (tS "2024-03-01T00:00:10Z")
        (tS "2024-03-01T00:00:11Z") (tS "clean") st' =
        .error "Stream not found") :=
  @c6_approve_stream_detail (tS "s6") 1 stC6 dC6 (by decide) rfl (by decide) (by decide)
    (by
      intro f hf
      rw [List.mem_singleton.mp hf]
      exact ⟨1, pkC6, by decide, by decide, by decide, rfl, by decide, by decide⟩)
    (tS "request") pkC6 (by decide) rfl rfl
    (buildPacketRecord_valid 1 (by decide) (by decide) (by decide) (by decide))
    (buildPacketRecord_canon (by decide) (by decide) (by decide) (by decide)
      (by decide) (by decide))
    (by decide) (tS "ok") (tS "2024-03-01T00:00:10Z") (tS "2024-03-01T00:00:11Z")
    (tS "clean") (by decide) (by decide) (by decide) (by decide) (by decide) (by decide)

end ATP
